import Mathlib

/-!
# Masternode subsystem of valuto (`src/masternode.cpp`, `src/chainparams.cpp`)

A shallow embedding of the masternode entity, its lifecycle check, the
block-hash cache, the scoring engine, the last-paid resolver, the collateral
tiers, the ping protocol, the broadcast check and the admission of new
masternodes, and of the subsidy switch points of `src/chainparams.cpp`,
followed by the properties established about them.

Conventions of the embedding

* `uint256` values are natural numbers below `2 ^ 256`; arithmetic on them is
  reduced modulo `2 ^ 256` explicitly.
* `int`, `int64_t` and timestamps are mathematical integers; the one narrowing
  conversion of the source (`int64_t` to `int` in `CalculateScore`) is explicit.
* A `CBlockIndex*` is the list of block records reachable through `pprev`,
  the pointed-to block first; the null pointer is the empty list.
* Mutable process-wide state is a `World`; everything a call only reads
  (clocks, chain, oracles of external collaborators, constants of headers)
  is an `Env`.  The clocks are read once per top-level call.
* A `CMasternode*` obtained from the registry is the position of the entry in
  `vMasternodes`.
-/

namespace Valuto

/-! ## Data model -/

/-- The modulus of `uint256` arithmetic. -/
def U256 : Nat := 2 ^ 256

/-- The collateral reference: prior transaction id and output index. -/
structure COutPoint where
  hash : Nat
  n : Nat
deriving DecidableEq, Repr

/-- A transaction input. -/
structure CTxIn where
  prevout : COutPoint
  scriptSig : List Nat
  nSequence : Nat
deriving DecidableEq, Repr

/-- A network endpoint. -/
structure CService where
  ip : List Nat
  port : Nat
deriving DecidableEq, Repr

/-- The liveness heartbeat. -/
structure CMasternodePing where
  vin : CTxIn
  blockHash : Nat
  sigTime : Int
  vchSig : List Nat
deriving DecidableEq, Repr

/-- The lifecycle states named by `masternode.cpp`. -/
inductive MasternodeState where
  | MASTERNODE_ACTIVE
  | MASTERNODE_ENABLED
  | MASTERNODE_EXPIRED
  | MASTERNODE_OUTPOINT_SPENT
  | MASTERNODE_REMOVE
  | MASTERNODE_POSE_BAN
  | MASTERNODE_MISSING
  | MASTERNODE_VIN_SPENT
deriving DecidableEq, Repr

open MasternodeState

/-- The masternode record, with the fields assigned by its constructors. -/
structure CMasternode where
  vin : CTxIn
  addr : CService
  pubKeyCollateralAddress : List Nat
  pubKeyMasternode : List Nat
  sig : List Nat
  activeState : MasternodeState
  deposit : Int
  sigTime : Int
  lastPing : CMasternodePing
  cacheInputAge : Int
  cacheInputAgeBlock : Int
  unitTest : Bool
  allowFreeTx : Bool
  protocolVersion : Int
  nLastDsq : Int
  lastTimeChecked : Int
deriving DecidableEq, Repr

/-- The broadcast is a subclass of the masternode record and adds no field. -/
structure CMasternodeBroadcast extends CMasternode
deriving DecidableEq, Repr

/-- One block of the index: height, hash and time. -/
structure CBlockIndex where
  nHeight : Int
  hashBlock : Nat
  nTime : Nat
deriving DecidableEq, Repr

/-- A transaction output: its value and its script. -/
structure CTxOut where
  nValue : Int
  scriptPubKey : List Nat
deriving DecidableEq, Repr

/-- A transaction, reduced to its outputs. -/
structure CTransaction where
  vout : List CTxOut
deriving DecidableEq, Repr

/-- A pointer into the block index: the block and its `pprev` ancestry. -/
abbrev BlockPtr := List CBlockIndex

/-- The kinds of inventory item relayed by this file. -/
inductive CInv where
  | MSG_MASTERNODE_ANNOUNCE (h : Nat)
  | MSG_MASTERNODE_PING (h : Nat)
deriving DecidableEq, Repr

/-- Everything a call reads but does not write: clocks, the active chain, the
constants of `masternode.h` and `chainparams`, and the external collaborators
(signer, hash writer, payment history, mempool) as oracles. -/
structure Env where
  GetAdjustedTime : Int
  GetTime : Int
  ShutdownRequested : Bool
  MASTERNODE_CHECK_SECONDS : Int
  MN_WINNER_MINIMUM_AGE : Int
  MASTERNODE_REMOVAL_SECONDS : Int
  MASTERNODE_EXPIRATION_SECONDS : Int
  MASTERNODE_MIN_MNP_SECONDS : Int
  MASTERNODE_MIN_MNB_SECONDS : Int
  /-- The vector of `chainActive`, indexed by height. -/
  vChain : List BlockPtr
  /-- The map `mapBlockIndex`; an entry may hold a null pointer. -/
  mapBlockIndex : Nat → Option BlockPtr
  MaxReorganizationDepth : Int
  GetMinMasternodePaymentsProto : Int
  /-- The flag `IsSporkActive(SPORK_7_MN_REBROADCAST_ENFORCEMENT)`. -/
  spork7 : Bool
  /-- The call `obfuScationSigner.VerifyMessage(key, sig, message)`, on the three
  fields a ping message is built from. -/
  VerifyPingMessage : List Nat → List Nat → CTxIn → Nat → Int → Bool
  /-- The double SHA-256 of `CHashWriter`, on the serialised bytes. -/
  Hash : List Nat → Nat
  /-- The serialisation of `vin` followed by `sigTime`. -/
  SerializeVinSigTime : CTxIn → Int → List Nat
  /-- The method `uint256::GetCompact(false)`. -/
  GetCompact : Nat → Nat
  /-- The comparison `ping == CMasternodePing()` of `masternode.h`. -/
  pingIsEmpty : CMasternodePing → Bool
  /-- The accessor `IsEnabled(bool)` of `masternode.h`. -/
  IsEnabled : CMasternode → Bool → Bool
  /-- The default of the parameter `fCheckSigTimeOnly` of the ping check. -/
  defaultCheckSigTimeOnly : Bool
  /-- The default of the parameter `fSkipCheckPingTimeAndRelay`. -/
  defaultSkipCheckPingTimeAndRelay : Bool
  /-- The hash `CMasternodePing::GetHash()`. -/
  pingHash : CMasternodePing → Nat
  /-- The hash `CMasternodeBroadcast::GetHash()`. -/
  mnbHash : CMasternodeBroadcast → Nat
  /-- Validity of the state returned by `CMasternodeMan::GetInputCheckingTx`. -/
  InputCheckingTxValid : CTxIn → Bool
  /-- The call `AcceptableInputs(mempool, state, CTransaction(tx), false, nullptr)`
  on the transaction built for this input. -/
  AcceptableInputs : CTxIn → Bool
  /-- Outcome of the k-th `TRY_LOCK(cs_main, lockMain)` of the call. -/
  tryLockMain : Nat → Bool
  /-- The value `mnodeman.CountEnabled(level)`. -/
  CountEnabled : Int → Int
  /-- The argument-free accessor `Level()` of `masternode.h`. -/
  LevelOf : CMasternode → Int
  /-- The script `GetScriptForDestination(key.GetID())`. -/
  GetScriptForDestination : List Nat → List Nat
  /-- The map `masternodePayments.mapMasternodeBlocks`: for a height with an
  entry, the predicate `HasPayeeWithVotes(payee, vin, votes)` of that entry. -/
  mapMasternodeBlocks : Int → Option (List Nat → CTxIn → Int → Bool)
  /-- The constant `COIN` of `amount.h`, the number of base units of one coin. -/
  COIN : Int
  /-- The call `GetTransaction(txid, tx, hashBlock, true)`: the transaction and
  the hash of its block when the call returns true. -/
  GetTransaction : Nat → Option (CTransaction × Nat)
  /-- The call `obfuScationSigner.VerifyMessage(key, sig, message)`, on the five
  fields a broadcast message is built from. -/
  VerifyBroadcastMessage :
    List Nat → List Nat → CService × Int × List Nat × List Nat × Int → Bool
  /-- The value `Params().GetDefaultPort()`. -/
  GetDefaultPort : Nat
  /-- The default of the parameter `forceCheck` of `Check`. -/
  defaultForceCheck : Bool
  /-- The call `masternodeSync.AddedMasternodeList(hash)`: the map
  `mapSeenSyncMNB` it leaves, from the seen broadcasts, the map and the hash. -/
  AddedMasternodeList :
    List (Nat × CMasternodeBroadcast) → List (Nat × Int) → Nat → List (Nat × Int)
  /-- The flag `fMasterNode`. -/
  fMasterNode : Bool
  /-- The member `activeMasternode.vin`. -/
  activeMasternodeVin : CTxIn
  /-- The member `activeMasternode.pubKeyMasternode`. -/
  activeMasternodePubKey : List Nat
  /-- The weight that `state.IsInvalid(nDoS)` writes for the state returned by
  `GetInputCheckingTx`, when that state is in mode invalid. -/
  InputCheckingTxDoS : CTxIn → Option Int
  /-- The weight that `state.IsInvalid(nDoS)` writes for the state left by a
  failed `AcceptableInputs`, when that state is in mode invalid. -/
  AcceptableInputsDoS : CTxIn → Option Int
  /-- The function `GetInputAge(vin)`. -/
  GetInputAge : CTxIn → Int
  MASTERNODE_MIN_CONFIRMATIONS : Int
  PROTOCOL_VERSION : Int
  /-- The test `addr.IsRFC1918() || addr.IsLocal()`. -/
  isLocalAddr : CService → Bool
  /-- The test `Params().NetworkID() == CBaseChainParams::REGTEST`. -/
  isRegTest : Bool

/-- The process-wide mutable state touched by `masternode.cpp`. -/
structure World where
  /-- The registry `mnodeman.vMasternodes`. -/
  vMasternodes : List CMasternode
  mapSeenMasternodePing : List (Nat × CMasternodePing)
  mapSeenMasternodeBroadcast : List (Nat × CMasternodeBroadcast)
  mapSeenSyncMNB : List (Nat × Int)
  /-- The cache `mapCacheBlockHashes`, most recent insertion first. -/
  mapCacheBlockHashes : List (Int × Nat)
  /-- The inventory items handed to `RelayInv`, most recent first. -/
  relayed : List CInv
  /-- The number of `TRY_LOCK(cs_main, ...)` attempts made so far. -/
  nTryLock : Nat
  /-- The arguments of the calls `activeMasternode.EnableHotColdMasterNode(vin,
  addr)` made, most recent first. -/
  hotColdEnabled : List (CTxIn × CService)
deriving DecidableEq

/-! ## Helpers of `masternode.h` -/

/-- Modelled from the spec: `IsBroadcastedWithin` of `masternode.h`, the test
that the broadcast of the node is newer than a window of `seconds`. -/
def CMasternode.IsBroadcastedWithin (env : Env) (m : CMasternode) (seconds : Int) : Bool :=
  decide (env.GetAdjustedTime - m.sigTime < seconds)

/-- Modelled from the spec: `IsPingedWithin` of `masternode.h`, the test that a
ping has been recorded within `seconds` of `now`; a node that holds no ping
has none. -/
def CMasternode.IsPingedWithin (env : Env) (m : CMasternode) (seconds : Int) (now : Int) : Bool :=
  if env.pingIsEmpty m.lastPing then false else decide (now - m.lastPing.sigTime < seconds)

/-! ## `CMasternode::Check` -/

/-- The method `CMasternode::Check(forceCheck)` on one masternode record;
`lockMain` is the outcome of the `TRY_LOCK` should the call reach it. -/
def CMasternode.Check (env : Env) (lockMain : Bool) (m : CMasternode) (forceCheck : Bool) :
    CMasternode :=
  if env.ShutdownRequested then m
  else if !forceCheck && decide (env.GetTime - m.lastTimeChecked < env.MASTERNODE_CHECK_SECONDS) then m
  else
    let m1 := { m with lastTimeChecked := env.GetTime }
    if m1.activeState = MASTERNODE_VIN_SPENT then m1
    else if m1.IsBroadcastedWithin env env.MN_WINNER_MINIMUM_AGE then
      { m1 with activeState := MASTERNODE_ACTIVE }
    else if !m1.IsPingedWithin env env.MASTERNODE_REMOVAL_SECONDS env.GetAdjustedTime then
      { m1 with activeState := MASTERNODE_REMOVE }
    else if !m1.IsPingedWithin env env.MASTERNODE_EXPIRATION_SECONDS env.GetAdjustedTime then
      { m1 with activeState := MASTERNODE_EXPIRED }
    else if !m1.unitTest then
      if !env.InputCheckingTxValid m1.vin then
        { m1 with activeState := MASTERNODE_VIN_SPENT }
      else if !lockMain then m1
      else if !env.AcceptableInputs m1.vin then
        { m1 with activeState := MASTERNODE_VIN_SPENT }
      else { m1 with activeState := MASTERNODE_ENABLED }
    else { m1 with activeState := MASTERNODE_ENABLED }

/-! ## The active chain and the block-hash cache -/

/-- Modelled from the spec: `CChain::Tip()` of `chain.h`, the last entry of the
chain vector, or the null pointer when the vector is empty. -/
def chainActive.Tip (env : Env) : BlockPtr :=
  env.vChain.getLast?.getD []

/-- Modelled from the spec: `CChain::Height()` of `chain.h`, the index of the
last entry of the chain vector, `-1` when there is none. -/
def chainActive.Height (env : Env) : Int :=
  (env.vChain.length : Int) - 1

/-- The narrowing conversion of an `int64_t` to a 32-bit `int`. -/
def toInt32 (x : Int) : Int :=
  (x + 2 ^ 31) % 2 ^ 32 - 2 ^ 31

/-- The function `GetBlockHash(hash, nBlockHeight)`: the hash written to the
out-parameter when the call returns true, and the cache after the call. -/
def GetBlockHash (env : Env) (w : World) (nBlockHeight : Int) : Option Nat × World :=
  match chainActive.Tip env with
  | [] => (none, w)
  | tip :: anc =>
    let nBlockHeight := if nBlockHeight ≤ 0 then tip.nHeight else nBlockHeight
    if tip.nHeight < nBlockHeight then (none, w)
    else
      match w.mapCacheBlockHashes.lookup nBlockHeight with
      | some cached => (some cached, w)
      | none =>
        match (tip :: anc).find? (fun b => b.nHeight == nBlockHeight) with
        | some b =>
          (some b.hashBlock,
            { w with mapCacheBlockHashes := (nBlockHeight, b.hashBlock) :: w.mapCacheBlockHashes })
        | none => (none, w)

/-! ## `CMasternode::CalculateScore` -/

/-- The 32 little-endian bytes a `uint256` is serialised to. -/
def serializeU256 (x : Nat) : List Nat :=
  (List.range 32).map (fun i => x / 256 ^ i % 256)

/-- The auxiliary value `vin.prevout.hash + vin.prevout.n`, a `uint256` sum. -/
def CMasternode.aux (m : CMasternode) : Nat :=
  (m.vin.prevout.hash + m.vin.prevout.n) % U256

/-- The method `CMasternode::CalculateScore(mod, nBlockHeight)`: the score and
the state after the call (the block-hash cache may have grown). -/
def CMasternode.CalculateScore (env : Env) (w : World) (m : CMasternode) (_mod : Int)
    (nBlockHeight : Int) : Nat × World :=
  match chainActive.Tip env with
  | [] => (0, w)
  | _ :: _ =>
    let aux := m.aux
    match GetBlockHash env w (toInt32 nBlockHeight) with
    | (none, w1) => (0, w1)
    | (some hash, w1) =>
      let hash2 := env.Hash (serializeU256 hash) % U256
      let hash3 := env.Hash (serializeU256 hash ++ serializeU256 aux) % U256
      let r := if hash3 > hash2 then hash3 - hash2 else hash2 - hash3
      (r, w1)

/-! ## `CMasternode::GetLastPaid` -/

/-- The scan bound `int nMnCount = mnodeman.CountEnabled(Level()) * 1.25`: the
product is exact in double precision for every `int` count, so its truncation
is the truncated quotient of five times the count by four. -/
def CMasternode.nMnCount (env : Env) (m : CMasternode) : Int :=
  Int.tdiv (5 * env.CountEnabled (env.LevelOf m)) 4

/-- The deterministic offset `hash.GetCompact(false) % 150` of `GetLastPaid`;
`GetCompact` returns an unsigned 32-bit value. -/
def CMasternode.nOffset (env : Env) (m : CMasternode) : Int :=
  ((env.GetCompact (env.Hash (env.SerializeVinSigTime m.vin m.sigTime) % U256) % 2 ^ 32 % 150 : Nat) : Int)

/-- The test of one block in `GetLastPaid`: the payment history has an entry at
the height and the entry gives the payee at least two votes. -/
def paidAt (env : Env) (mnpayee : List Nat) (vin : CTxIn) (b : CBlockIndex) : Bool :=
  match env.mapMasternodeBlocks b.nHeight with
  | some hasPayeeWithVotes => hasPayeeWithVotes mnpayee vin 2
  | none => false

/-- The loop of `GetLastPaid` from `BlockReading` with counter `n`. -/
def GetLastPaid.loop (env : Env) (mnpayee : List Nat) (vin : CTxIn) (nOffset nMnCount : Int) :
    BlockPtr → Int → Int
  | [], _ => 0
  | b :: pprev, n =>
    if b.nHeight > 0 then
      if n ≥ nMnCount then 0
      else if paidAt env mnpayee vin b then (b.nTime : Int) + nOffset
      else if pprev.isEmpty then 0
      else GetLastPaid.loop env mnpayee vin nOffset nMnCount pprev (n + 1)
    else 0

/-- The method `CMasternode::GetLastPaid()`. -/
def CMasternode.GetLastPaid (env : Env) (m : CMasternode) : Int :=
  match chainActive.Tip env with
  | [] => 0
  | tip :: anc =>
    let mnpayee := env.GetScriptForDestination m.pubKeyCollateralAddress
    GetLastPaid.loop env mnpayee m.vin (m.nOffset env) (m.nMnCount env) (tip :: anc) 0

/-! ## `CMasternode::SecondsSincePayment` -/

/-- The method `CMasternode::SecondsSincePayment()`; `GetCompact` returns an
unsigned 32-bit value, which is added to the 64-bit `month`. -/
def CMasternode.SecondsSincePayment (env : Env) (m : CMasternode) : Int :=
  let sec := env.GetAdjustedTime - m.GetLastPaid env
  let month : Int := 60 * 60 * 24 * 30
  if sec < month then sec
  else
    month +
      ((env.GetCompact (env.Hash (env.SerializeVinSigTime m.vin m.sigTime) % U256) % 2 ^ 32 : Nat) : Int)

/-! ## Collateral tiers -/

/-- The method `CMasternode::Level(CAmount vin_val, int blockHeight)`. -/
def CMasternode.Level (env : Env) (vin_val : Int) (_blockHeight : Int) : Nat :=
  if vin_val = 1 * env.COIN then 1 else 0

/-- The method `CMasternode::IsDepositCoins(CAmount vin_val)`: the tier at the
height of the active chain, converted to `bool`. -/
def CMasternode.IsDepositCoinsOfAmount (env : Env) (vin_val : Int) : Bool :=
  CMasternode.Level env vin_val (chainActive.Height env) != 0

/-- The method `CMasternode::IsDepositCoins(const CTxIn& vin, CAmount& vin_val)`:
the result and the value of the out-parameter after the call. -/
def CMasternode.IsDepositCoins (env : Env) (vin : CTxIn) (vin_val : Int) : Bool × Int :=
  match env.GetTransaction vin.prevout.hash with
  | none => (false, vin_val)
  | some (prevout_tx, _) =>
    if h : vin.prevout.n < prevout_tx.vout.length then
      let vin_amount := (prevout_tx.vout.get ⟨vin.prevout.n, h⟩).nValue
      if !CMasternode.IsDepositCoinsOfAmount env vin_amount then (false, vin_val)
      else (true, vin_amount)
    else (false, vin_val)

/-- The constructor `CMasternode(const CMasternodeBroadcast& mnb)`.  The member
`deposit` is indeterminate before the lookup and assigned on both of its
outcomes; it is passed as 0. -/
def CMasternode.ofBroadcast (env : Env) (mnb : CMasternodeBroadcast) : CMasternode :=
  let r := CMasternode.IsDepositCoins env mnb.vin 0
  { vin := mnb.vin
    addr := mnb.addr
    pubKeyCollateralAddress := mnb.pubKeyCollateralAddress
    pubKeyMasternode := mnb.pubKeyMasternode
    sig := mnb.sig
    activeState := if r.1 then MASTERNODE_ENABLED else MASTERNODE_REMOVE
    deposit := if r.1 then r.2 else 0
    sigTime := mnb.sigTime
    lastPing := mnb.lastPing
    cacheInputAge := 0
    cacheInputAgeBlock := 0
    unitTest := false
    allowFreeTx := true
    protocolVersion := mnb.protocolVersion
    nLastDsq := mnb.nLastDsq
    lastTimeChecked := 0 }

/-! ## Registry access -/

/-- Position of the first record satisfying `p`. -/
def findPos (p : CMasternode → Bool) : List CMasternode → Option Nat
  | [] => none
  | m :: ms => if p m then some 0 else (findPos p ms).map (fun i => i + 1)

/-- Modelled from the spec: `CMasternodeMan::Find(const CTxIn&)` of
`masternodeman.cpp`, the handle of the registry entry with the collateral
reference of `vin`, if there is one. -/
def World.Find (w : World) (vin : CTxIn) : Option Nat :=
  findPos (fun mn => mn.vin.prevout == vin.prevout) w.vMasternodes

/-- Write through a registry handle. -/
def World.setMn (w : World) (i : Nat) (m : CMasternode) : World :=
  { w with vMasternodes := w.vMasternodes.set i m }

/-- The call `RelayInv(inv)`. -/
def World.RelayInv (w : World) (inv : CInv) : World :=
  { w with relayed := inv :: w.relayed }

/-- The insertion `map.insert(make_pair(k, v))`, which keeps an existing entry. -/
def mapInsert {β : Type} (k : Nat) (v : β) (l : List (Nat × β)) : List (Nat × β) :=
  if l.any (fun e => e.1 == k) then l else (k, v) :: l

/-- The update `map[k] = f(map[k])` of an entry that is present. -/
def mapModify {β : Type} (f : β → β) (k : Nat) : List (Nat × β) → List (Nat × β)
  | [] => []
  | e :: es => if e.1 = k then (e.1, f e.2) :: es else e :: mapModify f k es

/-- The constructor `CMasternodeBroadcast(const CMasternode&)`: the base part is
default-constructed and fourteen fields are then copied from `mn`. -/
def CMasternodeBroadcast.ofMasternode (mn : CMasternode) : CMasternodeBroadcast :=
  { vin := mn.vin
    addr := mn.addr
    pubKeyCollateralAddress := mn.pubKeyCollateralAddress
    pubKeyMasternode := mn.pubKeyMasternode
    sig := mn.sig
    activeState := mn.activeState
    deposit := 0
    sigTime := mn.sigTime
    lastPing := mn.lastPing
    cacheInputAge := mn.cacheInputAge
    cacheInputAgeBlock := mn.cacheInputAgeBlock
    unitTest := mn.unitTest
    allowFreeTx := mn.allowFreeTx
    protocolVersion := mn.protocolVersion
    nLastDsq := mn.nLastDsq
    lastTimeChecked := 0 }

/-- The call `pmn->Check(forceCheck)` through a registry handle. -/
def World.Check (env : Env) (w : World) (i : Nat) (forceCheck : Bool) : World :=
  match w.vMasternodes.get? i with
  | none => w
  | some m =>
    { w with
      vMasternodes := w.vMasternodes.set i (m.Check env (env.tryLockMain w.nTryLock) forceCheck)
      nTryLock := w.nTryLock + 1 }

/-- The method `CMasternodePing::VerifySignature(pubKeyMasternode, nDos)`: the
result and the penalty weight after the call. -/
def CMasternodePing.VerifySignature (env : Env) (mnp : CMasternodePing) (pubKeyMasternode : List Nat)
    (nDos : Int) : Bool × Int :=
  if !env.VerifyPingMessage pubKeyMasternode mnp.vchSig mnp.vin mnp.blockHash mnp.sigTime then
    (false, 33)
  else (true, nDos)

/-- The assignments `lastPing = mnb.lastPing` and
`mapSeenMasternodePing.insert(...)` closing `UpdateFromNewBroadcast`. -/
def World.takePing (env : Env) (w : World) (self : Nat) (ping : CMasternodePing) : World :=
  match w.vMasternodes.get? self with
  | none => w
  | some m =>
    { w with
      vMasternodes := w.vMasternodes.set self { m with lastPing := ping }
      mapSeenMasternodePing := mapInsert (env.pingHash ping) ping w.mapSeenMasternodePing }

/-- Lines 877 to 884 of `CMasternodePing::CheckAndUpdate`: the ping is stored
in the entry `i`, whose record was `pmn`, and the embedded ping of the cached
copy of the broadcast of the entry, if there is one, is replaced. -/
def World.storePing (env : Env) (w : World) (i : Nat) (pmn : CMasternode)
    (mnp : CMasternodePing) : World :=
  let w1 := w.setMn i { pmn with lastPing := mnp }
  let hash := env.mnbHash (CMasternodeBroadcast.ofMasternode { pmn with lastPing := mnp })
  if w1.mapSeenMasternodeBroadcast.any (fun e => e.1 == hash) then
    { w1 with
      mapSeenMasternodeBroadcast :=
        mapModify (fun seen => { seen with lastPing := mnp }) hash w1.mapSeenMasternodeBroadcast }
  else w1

/-- Lines 893 to 901 of `CMasternodePing::CheckAndUpdate`: the forced check of
the entry `i`, the test that it is enabled and the relay of the ping. -/
def CMasternodePing.finishUpdate (env : Env) (w : World) (i : Nat) (mnp : CMasternodePing)
    (nDos : Int) (fSkipCheckPingTimeAndRelay : Bool) : Option (Bool × Int × World) :=
  let w4 := w.Check env i true
  match w4.vMasternodes.get? i with
  | none => none
  | some pmn =>
    if !env.IsEnabled pmn true then some (false, nDos, w4)
    else if !fSkipCheckPingTimeAndRelay then
      some (true, nDos, w4.RelayInv (CInv.MSG_MASTERNODE_PING (env.pingHash mnp)))
    else some (true, nDos, w4)

/-! ## `CMasternode::UpdateFromNewBroadcast` and `CMasternodePing::CheckAndUpdate`

The two methods call each other; the first argument bounds the depth of the
nesting, and `none` is returned when it is exhausted or when the receiver is
not a registry handle. -/

mutual

/-- The method `CMasternode::UpdateFromNewBroadcast(mnb)` on the registry entry
`self`: the result and the state after the call. -/
def CMasternode.UpdateFromNewBroadcast (env : Env) :
    Nat → World → Nat → CMasternodeBroadcast → Option (Bool × World)
  | 0, _, _, _ => none
  | fuel + 1, w, self, mnb =>
    match w.vMasternodes.get? self with
    | none => none
    | some m =>
      if mnb.sigTime ≤ m.sigTime then some (false, w)
      else
        let w1 := w.setMn self
          { m with
            pubKeyMasternode := mnb.pubKeyMasternode
            pubKeyCollateralAddress := mnb.pubKeyCollateralAddress
            sigTime := mnb.sigTime
            sig := mnb.sig
            protocolVersion := mnb.protocolVersion
            addr := mnb.addr
            lastTimeChecked := 0 }
        if env.pingIsEmpty mnb.lastPing then some (true, w1.takePing env self mnb.lastPing)
        else
          match CMasternodePing.CheckAndUpdate env fuel w1 mnb.lastPing 0 false
              env.defaultCheckSigTimeOnly env.defaultSkipCheckPingTimeAndRelay with
          | none => none
          | some (true, _, w2) => some (true, w2.takePing env self mnb.lastPing)
          | some (false, _, w2) => some (true, w2)

/-- The method `CMasternodePing::CheckAndUpdate(nDos, fRequireEnabled,
fCheckSigTimeOnly, fSkipCheckPingTimeAndRelay)`: the result, the penalty
weight after the call and the state after the call. -/
def CMasternodePing.CheckAndUpdate (env : Env) :
    Nat → World → CMasternodePing → Int → Bool → Bool → Bool → Option (Bool × Int × World)
  | 0, _, _, _, _, _, _ => none
  | fuel + 1, w, mnp, nDos, fRequireEnabled, fCheckSigTimeOnly, fSkipCheckPingTimeAndRelay =>
    if mnp.sigTime > env.GetAdjustedTime + 60 * 60 then some (false, 1, w)
    else if mnp.sigTime ≤ env.GetAdjustedTime - 60 * 60 then some (false, 1, w)
    else if fCheckSigTimeOnly then
      match w.Find mnp.vin with
      | some i =>
        match w.vMasternodes.get? i with
        | some pmn =>
          let r := mnp.VerifySignature env pmn.pubKeyMasternode nDos
          some (r.1, r.2, w)
        | none => none
      | none => some (true, nDos, w)
    else
      match w.Find mnp.vin with
      | none => some (false, nDos, w)
      | some i =>
        match w.vMasternodes.get? i with
        | none => none
        | some pmn =>
          if pmn.protocolVersion ≥ env.GetMinMasternodePaymentsProto then
            if fRequireEnabled && !env.IsEnabled pmn true then some (false, nDos, w)
            else if !pmn.IsPingedWithin env (env.MASTERNODE_MIN_MNP_SECONDS - 60) mnp.sigTime
                || fSkipCheckPingTimeAndRelay then
              let r := mnp.VerifySignature env pmn.pubKeyMasternode nDos
              if !r.1 then some (false, r.2, w)
              else
                match env.mapBlockIndex mnp.blockHash with
                | some (b :: _) =>
                  if b.nHeight < chainActive.Height env - env.MaxReorganizationDepth then
                    some (false, r.2, w)
                  else
                    let w2 := w.storePing env i pmn mnp
                    let mnb := CMasternodeBroadcast.ofMasternode { pmn with lastPing := mnp }
                    let w3 :=
                      if env.spork7 then
                        match CMasternode.UpdateFromNewBroadcast env fuel w2 i mnb with
                        | none => none
                        | some (_, w2u) =>
                          some (w2u.RelayInv (CInv.MSG_MASTERNODE_ANNOUNCE (env.mnbHash mnb)))
                      else some w2
                    match w3 with
                    | none => none
                    | some w3 => mnp.finishUpdate env w3 i r.2 fSkipCheckPingTimeAndRelay
                | _ => some (false, r.2, w)
            else some (false, nDos, w)
          else some (false, nDos, w)

end

/-! ## `CMasternodeBroadcast::CheckAndUpdate` -/

/-- The method `CMasternodeBroadcast::GetStrMessage()`: the five fields the
signed message is the concatenation of. -/
def CMasternodeBroadcast.GetStrMessage (mnb : CMasternodeBroadcast) :
    CService × Int × List Nat × List Nat × Int :=
  (mnb.addr, mnb.sigTime, mnb.pubKeyCollateralAddress, mnb.pubKeyMasternode, mnb.protocolVersion)

/-- The method `CMasternodeBroadcast::CheckDefaultPort(service, ...)`. -/
def CMasternodeBroadcast.CheckDefaultPort (env : Env) (service : CService) : Bool :=
  if service.port != env.GetDefaultPort then false else true

/-- The call `masternodeSync.AddedMasternodeList(hash)`. -/
def World.AddedMasternodeList (env : Env) (w : World) (hash : Nat) : World :=
  { w with
    mapSeenSyncMNB := env.AddedMasternodeList w.mapSeenMasternodeBroadcast w.mapSeenSyncMNB hash }

/-- Lines 613 and 614 of `CMasternodeBroadcast::CheckAndUpdate`: the check of
the entry `i` and the relay of the broadcast if the entry is enabled. -/
def CMasternodeBroadcast.checkAndRelay (env : Env) (w : World) (i : Nat)
    (mnb : CMasternodeBroadcast) : Option World :=
  let w1 := w.Check env i env.defaultForceCheck
  match w1.vMasternodes.get? i with
  | none => none
  | some pmn =>
    if env.IsEnabled pmn true then
      some (w1.RelayInv (CInv.MSG_MASTERNODE_ANNOUNCE (env.mnbHash mnb)))
    else some w1

/-- Lines 590 to 619 of `CMasternodeBroadcast::CheckAndUpdate`: the search of
the registry and the update of the entry found. -/
def CMasternodeBroadcast.updateExisting (env : Env) (fuel : Nat) (w : World)
    (mnb : CMasternodeBroadcast) (nDos : Int) : Option (Bool × Int × World) :=
  match w.Find mnb.vin with
  | none => some (true, nDos, w)
  | some i =>
    match w.vMasternodes.get? i with
    | none => none
    | some pmn =>
      if pmn.sigTime ≥ mnb.sigTime then some (false, nDos, w)
      else if !env.IsEnabled pmn true then some (true, nDos, w)
      else if pmn.pubKeyCollateralAddress == mnb.pubKeyCollateralAddress
          && !pmn.IsBroadcastedWithin env env.MASTERNODE_MIN_MNB_SECONDS then
        match CMasternode.UpdateFromNewBroadcast env fuel w i mnb with
        | none => none
        | some (true, w2) =>
          match CMasternodeBroadcast.checkAndRelay env w2 i mnb with
          | none => none
          | some w3 => some (true, nDos, w3.AddedMasternodeList env (env.mnbHash mnb))
        | some (false, w2) => some (true, nDos, w2.AddedMasternodeList env (env.mnbHash mnb))
      else some (true, nDos, w)

/-- The method `CMasternodeBroadcast::CheckAndUpdate(nDos)`: the result, the
penalty weight after the call and the state after the call.  The first
argument bounds the depth of the nested calls. -/
def CMasternodeBroadcast.CheckAndUpdate (env : Env) (fuel : Nat) (w : World)
    (mnb : CMasternodeBroadcast) (nDos : Int) : Option (Bool × Int × World) :=
  if mnb.sigTime > env.GetAdjustedTime + 60 * 60 then some (false, 1, w)
  else if env.pingIsEmpty mnb.lastPing then some (false, nDos, w)
  else
    match CMasternodePing.CheckAndUpdate env fuel w mnb.lastPing nDos false true
        env.defaultSkipCheckPingTimeAndRelay with
    | none => none
    | some (false, nDos, w) => some (false, nDos, w)
    | some (true, nDos, w) =>
      if mnb.protocolVersion < env.GetMinMasternodePaymentsProto then some (false, nDos, w)
      else if (env.GetScriptForDestination mnb.pubKeyCollateralAddress).length ≠ 25 then
        some (false, 100, w)
      else if (env.GetScriptForDestination mnb.pubKeyMasternode).length ≠ 25 then
        some (false, 100, w)
      else if !mnb.vin.scriptSig.isEmpty then some (false, nDos, w)
      else if !env.VerifyBroadcastMessage mnb.pubKeyCollateralAddress mnb.sig mnb.GetStrMessage then
        some (false, 100, w)
      else if !CMasternodeBroadcast.CheckDefaultPort env mnb.addr then some (false, nDos, w)
      else CMasternodeBroadcast.updateExisting env fuel w mnb nDos

/-! ## `CMasternodeBroadcast::CheckInputsAndAdd` -/

/-- Modelled from the spec: `CChain::operator[]` of `chain.h`, the entry of the
chain vector at a height, or the null pointer when the vector has no entry at
that height. -/
def chainActive.atHeight (env : Env) (nHeight : Int) : BlockPtr :=
  if nHeight < 0 ∨ nHeight ≥ (env.vChain.length : Int) then []
  else (env.vChain.get? nHeight.toNat).getD []

/-- The call `map.erase(k)`. -/
def mapErase {β : Type} (k : Nat) (l : List (Nat × β)) : List (Nat × β) :=
  l.filter (fun e => e.1 != k)

/-- The two calls `mapSeenMasternodeBroadcast.erase(hash)` and
`mapSeenSyncMNB.erase(hash)`. -/
def World.eraseSeen (w : World) (hash : Nat) : World :=
  { w with
    mapSeenMasternodeBroadcast := mapErase hash w.mapSeenMasternodeBroadcast
    mapSeenSyncMNB := mapErase hash w.mapSeenSyncMNB }

/-- Modelled from the spec: `CMasternodeMan::Remove` of `masternodeman.cpp`,
the removal of the registry entry for the collateral reference of `vin`. -/
def World.Remove (w : World) (vin : CTxIn) : World :=
  match w.Find vin with
  | none => w
  | some i => { w with vMasternodes := w.vMasternodes.eraseIdx i }

/-- Modelled from the spec: `CMasternodeMan::Add` of `masternodeman.cpp`, the
insertion of a node into the registry; the registry holds one entry for a
collateral reference, so a node whose reference has an entry is not inserted. -/
def World.Add (w : World) (mn : CMasternode) : World :=
  match w.Find mn.vin with
  | none => { w with vMasternodes := w.vMasternodes ++ [mn] }
  | some _ => w

/-- The call `activeMasternode.EnableHotColdMasterNode(vin, addr)`. -/
def World.EnableHotColdMasterNode (w : World) (vin : CTxIn) (addr : CService) : World :=
  { w with hotColdEnabled := (vin, addr) :: w.hotColdEnabled }

/-- Lines 687 to 701 of `CMasternodeBroadcast::CheckInputsAndAdd`, the test of
`sigTime` against the time of the block in which the collateral reached
`MASTERNODE_MIN_CONFIRMATIONS`: whether the broadcast is refused.  The
out-parameter `hashBlock` starts at 0 and is written when `GetTransaction`
succeeds; the test is skipped when the block index has no block for it; the
result is `none` when `chainActive[...]` is the null pointer, which the source
dereferences. -/
def CMasternodeBroadcast.badSigTime (env : Env) (mnb : CMasternodeBroadcast) : Option Bool :=
  let hashBlock :=
    match env.GetTransaction mnb.vin.prevout.hash with
    | some (_, h) => h
    | none => 0
  match env.mapBlockIndex hashBlock with
  | some (pMNIndex :: _) =>
    match chainActive.atHeight env (pMNIndex.nHeight + env.MASTERNODE_MIN_CONFIRMATIONS - 1) with
    | pConfIndex :: _ => some (decide ((pConfIndex.nTime : Int) > mnb.sigTime))
    | [] => none
  | _ => some false

/-- Lines 703 to 731 of `CMasternodeBroadcast::CheckInputsAndAdd`: the node is
built from the broadcast, checked and added; the embedded ping is validated in
full and the node removed again if that fails; otherwise the local node is
activated when the operational key is its own, and the broadcast is relayed
unless its address is local. -/
def CMasternodeBroadcast.addNew (env : Env) (fuel : Nat) (w : World)
    (mnb : CMasternodeBroadcast) (nDoS : Int) : Option (Bool × Int × World) :=
  let mn := (CMasternode.ofBroadcast env mnb).Check env (env.tryLockMain w.nTryLock) true
  let w1 := ({ w with nTryLock := w.nTryLock + 1 } : World).Add mn
  match CMasternodePing.CheckAndUpdate env fuel w1 mn.lastPing nDoS true false true with
  | none => none
  | some (false, nDoS, w2) => some (false, nDoS, w2.Remove mn.vin)
  | some (true, nDoS, w2) =>
    let w3 :=
      if mnb.pubKeyMasternode == env.activeMasternodePubKey
          && mnb.protocolVersion == env.PROTOCOL_VERSION then
        w2.EnableHotColdMasterNode mnb.vin mnb.addr
      else w2
    let isLocal := env.isLocalAddr mnb.addr
    let isLocal := if env.isRegTest then false else isLocal
    if !isLocal then
      some (true, nDoS, w3.RelayInv (CInv.MSG_MASTERNODE_ANNOUNCE (env.mnbHash mnb)))
    else some (true, nDoS, w3)

/-- Lines 651 to 701 of `CMasternodeBroadcast::CheckInputsAndAdd`: the checks of
the collateral input, under the chain lock, of its confirmations and of
`sigTime`, followed by the insertion. -/
def CMasternodeBroadcast.checkInputs (env : Env) (fuel : Nat) (w : World)
    (mnb : CMasternodeBroadcast) (nDoS : Int) : Option (Bool × Int × World) :=
  if !env.InputCheckingTxValid mnb.vin then
    some (false, (env.InputCheckingTxDoS mnb.vin).getD nDoS, w)
  else
    let w1 : World := { w with nTryLock := w.nTryLock + 1 }
    if !env.tryLockMain w.nTryLock then some (false, nDoS, w1.eraseSeen (env.mnbHash mnb))
    else if !env.AcceptableInputs mnb.vin then
      some (false, (env.AcceptableInputsDoS mnb.vin).getD nDoS, w1)
    else if env.GetInputAge mnb.vin < env.MASTERNODE_MIN_CONFIRMATIONS then
      some (false, nDoS, w1.eraseSeen (env.mnbHash mnb))
    else
      match mnb.badSigTime env with
      | none => none
      | some true => some (false, nDoS, w1)
      | some false => mnb.addNew env fuel w1 nDoS

/-- The method `CMasternodeBroadcast::CheckInputsAndAdd(nDoS)`: the result, the
penalty weight after the call and the state after the call.  The first
argument bounds the depth of the nested calls. -/
def CMasternodeBroadcast.CheckInputsAndAdd (env : Env) (fuel : Nat) (w : World)
    (mnb : CMasternodeBroadcast) (nDoS : Int) : Option (Bool × Int × World) :=
  if env.fMasterNode && mnb.vin.prevout == env.activeMasternodeVin.prevout
      && mnb.pubKeyMasternode == env.activeMasternodePubKey then some (true, nDoS, w)
  else if env.pingIsEmpty mnb.lastPing then some (false, nDoS, w)
  else
    match CMasternodePing.CheckAndUpdate env fuel w mnb.lastPing nDoS false true
        env.defaultSkipCheckPingTimeAndRelay with
    | none => none
    | some (false, nDoS, w) => some (false, nDoS, w)
    | some (true, nDoS, w) =>
      match w.Find mnb.vin with
      | none => mnb.checkInputs env fuel w nDoS
      | some i =>
        match w.vMasternodes.get? i with
        | none => none
        | some pmn =>
          if env.IsEnabled pmn true then some (true, nDoS, w)
          else mnb.checkInputs env fuel (w.Remove pmn.vin) nDoS

/-! ## The constructor of a fresh ping -/

/-- The constructor `CMasternodePing(CTxIn& newVin)`; the result is `none` when
`chainActive[chainActive.Height() - 12]` is the null pointer, which the source
dereferences. -/
def CMasternodePing.ofVin (env : Env) (newVin : CTxIn) : Option CMasternodePing :=
  match chainActive.atHeight env (chainActive.Height env - 12) with
  | [] => none
  | b :: _ =>
    some { vin := newVin, blockHash := b.hashBlock, sigTime := env.GetAdjustedTime, vchSig := [] }

/-! ## `chainparams.cpp`: the subsidy switch points -/

/-- The type `SubsidySwitchPoints`, an ordered map from a level to an amount,
as the list of its entries in the order of iteration, that is by increasing
key. -/
abbrev SubsidySwitchPoints := List (Int × Int)

/-- The members of `CChainParams` used by the subsidy methods; the schedule is
indexed by an unsigned number. -/
structure CChainParams where
  subsidySwitchPoints : SubsidySwitchPoints
  subsidySwitchPoints_F2_0 : SubsidySwitchPoints
  subsidyDecreaseCount_F2 : Nat
  subsidyDecreaseValue_F2 : Nat
  subsidySwitchPointsSchedule_F2 : Nat → SubsidySwitchPoints

/-- The method `CChainParams::GetSubsidySwitchPoints(nTime, nHeight)`. -/
def CChainParams.GetSubsidySwitchPoints (p : CChainParams) (_nTime : Nat) (_nHeight : Int) :
    SubsidySwitchPoints :=
  p.subsidySwitchPoints

/-- The call `switch_points.upper_bound(level)`: the position of the first entry
whose key is greater than `level`, the length of the list standing for
`end()`. -/
def upper_bound (switch_points : SubsidySwitchPoints) (level : Int) : Nat :=
  switch_points.findIdx (fun e => decide (level < e.1))

/-- The method `CChainParams::SubsidyValue(level, nTime, nHeight)`; the result is
`none` when the iterator dereferenced is `end()`. -/
def CChainParams.SubsidyValue (p : CChainParams) (level : Int) (nTime : Nat) (nHeight : Int) :
    Option Int :=
  let switch_points := p.GetSubsidySwitchPoints nTime nHeight
  let point := upper_bound switch_points level
  let point := if point ≠ 0 then point - 1 else point
  (switch_points.get? point).map (fun e => e.2)

/-- The value of a 64-bit signed integer after an operation whose exact result
is `x`. -/
def toInt64 (x : Int) : Int :=
  (x + 2 ^ 63) % 2 ^ 64 - 2 ^ 63

/-- The body of the inner loop of `initSubsidySwitchPointsSchedule` on the
value `sp.second`: `CAmount` is a 64-bit signed integer, the decrease value an
unsigned 32-bit one, and every division truncates. -/
def decreaseSubsidy (COIN : Int) (subsidyDecreaseValue_F2 : Nat) (second : Int) : Int :=
  let prev_value := second
  let factor : Nat := (10000 + 2 ^ 32 - subsidyDecreaseValue_F2 % 2 ^ 32) % 2 ^ 32
  let second := toInt64 (second * (factor : Int))
  let second := Int.tdiv second 10000
  let second := toInt64 (second + (Int.tdiv COIN 10 - 1))
  let second := Int.tdiv second (Int.tdiv COIN 10)
  let second := toInt64 (second * Int.tdiv COIN 10)
  if second = prev_value ∧ second > Int.tdiv COIN 10 then toInt64 (second - Int.tdiv COIN 10)
  else second

/-- The schedule after the assignment of entry 0 and the first `n` rounds of the
outer loop of `initSubsidySwitchPointsSchedule`. -/
def initSubsidySwitchPointsSchedule.rounds (COIN : Int) (p : CChainParams) :
    Nat → Nat → SubsidySwitchPoints
  | 0 => fun j => if j = 0 then p.subsidySwitchPoints_F2_0 else p.subsidySwitchPointsSchedule_F2 j
  | i + 1 => fun j =>
    if j = i + 1 then
      (initSubsidySwitchPointsSchedule.rounds COIN p i i).map
        (fun sp => (sp.1, decreaseSubsidy COIN p.subsidyDecreaseValue_F2 sp.2))
    else initSubsidySwitchPointsSchedule.rounds COIN p i j

/-- The method `CChainParams::initSubsidySwitchPointsSchedule()`: the outer loop
runs for `i` from 1 to `subsidyDecreaseCount_F2`. -/
def CChainParams.initSubsidySwitchPointsSchedule (COIN : Int) (p : CChainParams) : CChainParams :=
  { p with
    subsidySwitchPointsSchedule_F2 :=
      initSubsidySwitchPointsSchedule.rounds COIN p p.subsidyDecreaseCount_F2 }

/-! ## Example data -/

/-- An environment with the constants of the upstream headers, an empty chain,
a signer that accepts every signature and a mempool that accepts every input. -/
def exampleEnv : Env :=
  { GetAdjustedTime := 1000000
    GetTime := 1000000
    ShutdownRequested := false
    MASTERNODE_CHECK_SECONDS := 5
    MN_WINNER_MINIMUM_AGE := 8000
    MASTERNODE_REMOVAL_SECONDS := 7800
    MASTERNODE_EXPIRATION_SECONDS := 7200
    MASTERNODE_MIN_MNP_SECONDS := 600
    MASTERNODE_MIN_MNB_SECONDS := 300
    vChain := []
    mapBlockIndex := fun _ => none
    MaxReorganizationDepth := 100
    GetMinMasternodePaymentsProto := 70900
    spork7 := false
    VerifyPingMessage := fun _ _ _ _ _ => true
    Hash := fun bytes => bytes.foldl (fun acc b => 257 * acc + b + 1) 7
    SerializeVinSigTime := fun vin t => [vin.prevout.hash, vin.prevout.n, t.toNat]
    GetCompact := fun x => x
    pingIsEmpty := fun p => p.vin.prevout.hash == 0 && p.blockHash == 0
    IsEnabled := fun m _ => m.activeState == MASTERNODE_ENABLED
    defaultCheckSigTimeOnly := false
    defaultSkipCheckPingTimeAndRelay := false
    pingHash := fun p => p.sigTime.toNat
    mnbHash := fun b => b.sigTime.toNat
    InputCheckingTxValid := fun _ => true
    AcceptableInputs := fun _ => true
    tryLockMain := fun _ => true
    CountEnabled := fun _ => 4
    LevelOf := fun _ => 1
    GetScriptForDestination := fun k => k
    mapMasternodeBlocks := fun _ => none
    COIN := 100000000
    GetTransaction := fun _ => none
    VerifyBroadcastMessage := fun _ _ _ => true
    GetDefaultPort := 1945
    defaultForceCheck := false
    AddedMasternodeList := fun _ sync h => (h, 1) :: sync
    fMasterNode := false
    activeMasternodeVin := { prevout := { hash := 0, n := 0 }, scriptSig := [], nSequence := 0 }
    activeMasternodePubKey := []
    InputCheckingTxDoS := fun _ => none
    AcceptableInputsDoS := fun _ => none
    GetInputAge := fun _ => 20
    MASTERNODE_MIN_CONFIRMATIONS := 15
    PROTOCOL_VERSION := 70900
    isLocalAddr := fun a => a.ip.head? == some 10
    isRegTest := false }

/-- A ping for the collateral `(txid, n)` signed at `t` over block hash `bh`. -/
def examplePing (txid n bh : Nat) (t : Int) : CMasternodePing :=
  { vin := { prevout := { hash := txid, n := n }, scriptSig := [], nSequence := 4294967295 }
    blockHash := bh
    sigTime := t
    vchSig := [1] }

/-- A masternode for the collateral `(txid, n)` in state `st`, announced at
`t` and holding the ping `ping`. -/
def exampleNode (txid n : Nat) (st : MasternodeState) (t : Int) (ping : CMasternodePing) :
    CMasternode :=
  { vin := { prevout := { hash := txid, n := n }, scriptSig := [], nSequence := 4294967295 }
    addr := { ip := [10, 0, 0, 1], port := 1945 }
    pubKeyCollateralAddress := [2]
    pubKeyMasternode := [3]
    sig := [4]
    activeState := st
    deposit := 100000000
    sigTime := t
    lastPing := ping
    cacheInputAge := 0
    cacheInputAgeBlock := 0
    unitTest := false
    allowFreeTx := true
    protocolVersion := 70900
    nLastDsq := 0
    lastTimeChecked := 0 }

/-- Four linked blocks at heights 0 to 3. -/
def exampleBlocks : BlockPtr :=
  [{ nHeight := 3, hashBlock := 1003, nTime := 501800 },
   { nHeight := 2, hashBlock := 1002, nTime := 501200 },
   { nHeight := 1, hashBlock := 1001, nTime := 500600 },
   { nHeight := 0, hashBlock := 1000, nTime := 500000 }]

/-- The example environment with an active chain of four blocks, all of them
in the block index. -/
def exampleChainEnv : Env :=
  { exampleEnv with
    vChain := [exampleBlocks.drop 3, exampleBlocks.drop 2, exampleBlocks.drop 1, exampleBlocks]
    mapBlockIndex := fun h =>
      if h = 1003 then some exampleBlocks
      else if h = 1002 then some (exampleBlocks.drop 1)
      else if h = 1001 then some (exampleBlocks.drop 2)
      else if h = 1000 then some (exampleBlocks.drop 3)
      else none
    MaxReorganizationDepth := 1 }

/-- A state with the given registry and block-hash cache and nothing else. -/
def exampleWorld (nodes : List CMasternode) (cache : List (Int × Nat)) : World :=
  { vMasternodes := nodes
    mapSeenMasternodePing := []
    mapSeenMasternodeBroadcast := []
    mapSeenSyncMNB := []
    mapCacheBlockHashes := cache
    relayed := []
    nTryLock := 0
    hotColdEnabled := [] }

/-- The example chain environment with the rebroadcast flag active and a
mempool that refuses every collateral input. -/
def exampleRebroadcastEnv : Env :=
  { exampleChainEnv with
    spork7 := true
    AcceptableInputs := fun _ => false }

/-! ## Specification-side definitions -/

/-- The lookup of a block hash on the active chain alone, without the cache:
the height is replaced by the tip height when it is not positive, and the
first block of that height on the ancestry of the tip is taken. -/
def chainBlockHash (env : Env) (nBlockHeight : Int) : Option Nat :=
  match chainActive.Tip env with
  | [] => none
  | tip :: anc =>
    let nBlockHeight := if nBlockHeight ≤ 0 then tip.nHeight else nBlockHeight
    if tip.nHeight < nBlockHeight then none
    else ((tip :: anc).find? (fun b => b.nHeight == nBlockHeight)).map (fun b => b.hashBlock)

/-- Every entry of the block-hash cache is the hash of the first block of its
height on the ancestry of the active tip. -/
def cacheAgrees (env : Env) (w : World) : Bool :=
  w.mapCacheBlockHashes.all (fun e =>
    ((chainActive.Tip env).find? (fun b => b.nHeight == e.1)).map (fun b => b.hashBlock)
      == some e.2)

/-- The blocks `GetLastPaid` can inspect: the ancestry of `tip` down to the
first block whose height is not positive, cut after `nMnCount` blocks. -/
def GetLastPaid.inspected (nMnCount : Int) (tip : BlockPtr) : List CBlockIndex :=
  (tip.takeWhile (fun b => decide (b.nHeight > 0))).take nMnCount.toNat

/-- The tail of `CMasternodePing::CheckAndUpdate` once every check has passed
(source lines 877 to 901) in closed form: the rebroadcast step is reduced to
its relay and the entry read back after the forced check is computed. -/
def pingAccept (env : Env) (w : World) (i : Nat) (pmn : CMasternode) (mnp : CMasternodePing)
    (nDos : Int) (fSkipCheckPingTimeAndRelay : Bool) : Bool × Int × World :=
  let w2 := w.storePing env i pmn mnp
  let mnb := CMasternodeBroadcast.ofMasternode { pmn with lastPing := mnp }
  let w3 := if env.spork7 then w2.RelayInv (CInv.MSG_MASTERNODE_ANNOUNCE (env.mnbHash mnb)) else w2
  let w4 := w3.Check env i true
  if !env.IsEnabled
      (({ pmn with lastPing := mnp } : CMasternode).Check env (env.tryLockMain w.nTryLock) true)
      true then (false, nDos, w4)
  else if !fSkipCheckPingTimeAndRelay then
    (true, nDos, w4.RelayInv (CInv.MSG_MASTERNODE_PING (env.pingHash mnp)))
  else (true, nDos, w4)

/-- The ping check in closed form: `CMasternodePing::CheckAndUpdate` without
the depth bound, the nested `UpdateFromNewBroadcast` being a no-op. -/
def pingCheck (env : Env) (w : World) (mnp : CMasternodePing) (nDos : Int)
    (fRequireEnabled fCheckSigTimeOnly fSkipCheckPingTimeAndRelay : Bool) : Bool × Int × World :=
  if mnp.sigTime > env.GetAdjustedTime + 60 * 60 then (false, 1, w)
  else if mnp.sigTime ≤ env.GetAdjustedTime - 60 * 60 then (false, 1, w)
  else
    match w.Find mnp.vin with
    | none => if fCheckSigTimeOnly then (true, nDos, w) else (false, nDos, w)
    | some i =>
      match w.vMasternodes.get? i with
      | none => (false, nDos, w)
      | some pmn =>
        if fCheckSigTimeOnly then
          ((mnp.VerifySignature env pmn.pubKeyMasternode nDos).1,
            (mnp.VerifySignature env pmn.pubKeyMasternode nDos).2, w)
        else if pmn.protocolVersion ≥ env.GetMinMasternodePaymentsProto then
          if fRequireEnabled && !env.IsEnabled pmn true then (false, nDos, w)
          else if !pmn.IsPingedWithin env (env.MASTERNODE_MIN_MNP_SECONDS - 60) mnp.sigTime
              || fSkipCheckPingTimeAndRelay then
            if !(mnp.VerifySignature env pmn.pubKeyMasternode nDos).1 then
              (false, (mnp.VerifySignature env pmn.pubKeyMasternode nDos).2, w)
            else
              match env.mapBlockIndex mnp.blockHash with
              | some (b :: _) =>
                if b.nHeight < chainActive.Height env - env.MaxReorganizationDepth then
                  (false, (mnp.VerifySignature env pmn.pubKeyMasternode nDos).2, w)
                else
                  pingAccept env w i pmn mnp (mnp.VerifySignature env pmn.pubKeyMasternode nDos).2
                    fSkipCheckPingTimeAndRelay
              | _ => (false, (mnp.VerifySignature env pmn.pubKeyMasternode nDos).2, w)
          else (false, nDos, w)
        else (false, nDos, w)

/-- The record `m2` differs from `m1` at most in the stored ping, the lifecycle
state and the time of the last check. -/
def CMasternode.sameIdentity (m1 m2 : CMasternode) : Prop :=
  m2 = { m1 with
    lastPing := m2.lastPing
    activeState := m2.activeState
    lastTimeChecked := m2.lastTimeChecked }

/-- Every registry entry of `w1` is still present in `w2` at the same place and
with the same identity. -/
def World.sameIdentities (w1 w2 : World) : Prop :=
  ∀ j m, w1.vMasternodes.get? j = some m →
    ∃ m2, w2.vMasternodes.get? j = some m2 ∧ m.sameIdentity m2

/-- The seven ordered checks of `CMasternodeBroadcast::CheckAndUpdate`, each
as the test that the broadcast passes it: (1) `sigTime` not more than an hour
ahead, (2) embedded ping not empty and valid in verify-only mode, (3) protocol
version, (4) both scripts of length 25, (5) empty `scriptSig`, (6) signature
under the collateral key, (7) default port. -/
def CMasternodeBroadcast.orderedChecks (env : Env) (w : World) (mnb : CMasternodeBroadcast)
    (nDos : Int) : List Bool :=
  [!decide (mnb.sigTime > env.GetAdjustedTime + 60 * 60),
   !env.pingIsEmpty mnb.lastPing &&
     (pingCheck env w mnb.lastPing nDos false true env.defaultSkipCheckPingTimeAndRelay).1,
   !decide (mnb.protocolVersion < env.GetMinMasternodePaymentsProto),
   decide ((env.GetScriptForDestination mnb.pubKeyCollateralAddress).length = 25) &&
     decide ((env.GetScriptForDestination mnb.pubKeyMasternode).length = 25),
   mnb.vin.scriptSig.isEmpty,
   env.VerifyBroadcastMessage mnb.pubKeyCollateralAddress mnb.sig mnb.GetStrMessage,
   CMasternodeBroadcast.CheckDefaultPort env mnb.addr]

/-- The broadcast passes the first `n` of the ordered checks. -/
def CMasternodeBroadcast.passesFirst (env : Env) (w : World) (mnb : CMasternodeBroadcast)
    (nDos : Int) (n : Nat) : Bool :=
  ((mnb.orderedChecks env w nDos).take n).all id

/-- An environment for broadcasts: the example chain, keys whose script is 25
bytes long unless the key is empty, and a signer that accepts the signature
`[4]` only. -/
def exampleBroadcastEnv : Env :=
  { exampleChainEnv with
    GetScriptForDestination := fun k => if k = [] then [] else List.replicate 25 k.length
    VerifyBroadcastMessage := fun _ sig _ => sig == [4]
    mnbHash := fun b => b.sigTime.toNat + 7 }

/-- A broadcast for the collateral `(txid, n)` signed at `t` with the ping
`ping`, announcing the given port. -/
def exampleBroadcast (txid n : Nat) (t : Int) (ping : CMasternodePing) (port : Nat) :
    CMasternodeBroadcast :=
  { exampleNode txid n MASTERNODE_ENABLED t ping with
    addr := { ip := [10, 0, 0, 1], port := port } }

/-- The example chain with a payment history: at height 2 the payee `[2]` has
three votes. -/
def examplePaidEnv : Env :=
  { exampleChainEnv with
    mapMasternodeBlocks := fun h =>
      if h = 2 then some (fun payee _ votes => payee == [2] && decide (votes ≤ 3)) else none }

/-- The example chain with a transaction index: the transaction 1 has an
output of one coin and an output of four coins. -/
def exampleDepositEnv : Env :=
  { exampleChainEnv with
    GetTransaction := fun txid =>
      if txid = 1 then
        some ({ vout := [{ nValue := 100000000, scriptPubKey := [] },
          { nValue := 400000000, scriptPubKey := [] }] }, 1001)
      else none }

/-- The broadcast passes lines 624 to 641 of `CheckInputsAndAdd`: it is not the
announcement of the local node, its embedded ping is not empty and is valid in
verify-only mode, and the registry holds no enabled entry for its collateral
reference. -/
def CMasternodeBroadcast.passesPreliminaries (env : Env) (w : World) (mnb : CMasternodeBroadcast)
    (nDoS : Int) : Bool :=
  !(env.fMasterNode && mnb.vin.prevout == env.activeMasternodeVin.prevout
      && mnb.pubKeyMasternode == env.activeMasternodePubKey) &&
    !env.pingIsEmpty mnb.lastPing &&
    (pingCheck env w mnb.lastPing nDoS false true env.defaultSkipCheckPingTimeAndRelay).1 &&
    (match w.Find mnb.vin with
      | none => true
      | some i =>
        match w.vMasternodes.get? i with
        | none => false
        | some pmn => !env.IsEnabled pmn true)

/-- The broadcast passes lines 651 to 701 of `CheckInputsAndAdd` from the state
`w`: the input-checking transaction is valid, the chain lock is acquired, the
inputs are acceptable, the collateral has its confirmations and `sigTime` is
not refused. -/
def CMasternodeBroadcast.passesInputs (env : Env) (w : World) (mnb : CMasternodeBroadcast) :
    Bool :=
  env.InputCheckingTxValid mnb.vin && env.tryLockMain w.nTryLock &&
    env.AcceptableInputs mnb.vin &&
    !decide (env.GetInputAge mnb.vin < env.MASTERNODE_MIN_CONFIRMATIONS) &&
    (mnb.badSigTime env == some false)

/-- The node that `CheckInputsAndAdd` builds from the broadcast and checks, the
chain lock having been tried once before. -/
def CMasternodeBroadcast.newNode (env : Env) (w : World) (mnb : CMasternodeBroadcast) :
    CMasternode :=
  (CMasternode.ofBroadcast env mnb).Check env (env.tryLockMain (w.nTryLock + 1)) true

/-- The state right after `mnodeman.Add(mn)` in a call of `CheckInputsAndAdd`
from the state `w` that reaches it. -/
def CMasternodeBroadcast.inserted (env : Env) (w : World) (mnb : CMasternodeBroadcast) : World :=
  ({ w.Remove mnb.vin with nTryLock := w.nTryLock + 2 } : World).Add (mnb.newNode env w)

/-- An environment for admissions: the transaction 1 of the example index is
in the block at height 1, two confirmations are required and the collateral
has three. -/
def exampleAdmissionEnv : Env :=
  { exampleBroadcastEnv with
    GetTransaction := exampleDepositEnv.GetTransaction
    MASTERNODE_MIN_CONFIRMATIONS := 2
    GetInputAge := fun _ => 3 }

/-- The ancestry of a block pointer is well formed: the predecessor of every
block is one lower, down to height 0. -/
def chainWellFormed : BlockPtr → Bool
  | [] => true
  | [b] => b.nHeight == 0
  | b :: c :: rest => (c.nHeight + 1 == b.nHeight) && chainWellFormed (c :: rest)

/-- The switch points of the regression-test network, in units of `COIN`. -/
def exampleSwitchPoints (COIN : Int) : SubsidySwitchPoints :=
  [(0, 1 * COIN), (200000, 2 * COIN), (300000, 3 * COIN), (500000, 5 * COIN)]

/-- Chain parameters with the example switch points, a decrease of 5 per cent
and a schedule of three rounds. -/
def exampleParams : CChainParams :=
  { subsidySwitchPoints := exampleSwitchPoints 100000000
    subsidySwitchPoints_F2_0 := exampleSwitchPoints 100000000
    subsidyDecreaseCount_F2 := 3
    subsidyDecreaseValue_F2 := 500
    subsidySwitchPointsSchedule_F2 := fun _ => [] }

/-! # Properties -/

set_option maxRecDepth 8000

/-! ## Auxiliary facts -/

/-- The decision taken by `Check`, read off the lifecycle state. -/
theorem Check_activeState (env : Env) (lockMain forceCheck : Bool) (m : CMasternode) :
    (m.Check env lockMain forceCheck).activeState =
      if env.ShutdownRequested then m.activeState
      else if !forceCheck && decide (env.GetTime - m.lastTimeChecked < env.MASTERNODE_CHECK_SECONDS)
        then m.activeState
      else if m.activeState = MASTERNODE_VIN_SPENT then m.activeState
      else if m.IsBroadcastedWithin env env.MN_WINNER_MINIMUM_AGE then MASTERNODE_ACTIVE
      else if !m.IsPingedWithin env env.MASTERNODE_REMOVAL_SECONDS env.GetAdjustedTime then
        MASTERNODE_REMOVE
      else if !m.IsPingedWithin env env.MASTERNODE_EXPIRATION_SECONDS env.GetAdjustedTime then
        MASTERNODE_EXPIRED
      else if !m.unitTest then
        if !env.InputCheckingTxValid m.vin then MASTERNODE_VIN_SPENT
        else if !lockMain then m.activeState
        else if !env.AcceptableInputs m.vin then MASTERNODE_VIN_SPENT
        else MASTERNODE_ENABLED
      else MASTERNODE_ENABLED := by
  unfold CMasternode.Check
  simp only [apply_ite CMasternode.activeState]
  rfl

/-- The windows nest: a ping inside a window is inside every longer one. -/
theorem IsPingedWithin_mono (env : Env) (m : CMasternode) (s t now : Int) (hst : s ≤ t)
    (h : m.IsPingedWithin env s now = true) : m.IsPingedWithin env t now = true := by
  unfold CMasternode.IsPingedWithin at *
  split_ifs at h ⊢
  simp only [decide_eq_true_eq] at h ⊢
  omega

theorem sameIdentity_refl (m : CMasternode) : m.sameIdentity m := rfl

theorem sameIdentity_trans (a b c : CMasternode) (h1 : a.sameIdentity b) (h2 : b.sameIdentity c) :
    a.sameIdentity c := by
  unfold CMasternode.sameIdentity at *
  rw [h2, h1]

theorem sameIdentity_ite (m a b : CMasternode) (c : Prop) [Decidable c]
    (ha : m.sameIdentity a) (hb : m.sameIdentity b) : m.sameIdentity (if c then a else b) := by
  by_cases h : c
  · rw [if_pos h]; exact ha
  · rw [if_neg h]; exact hb

/-- The method `Check` writes the lifecycle state and the check time only. -/
theorem Check_sameIdentity (env : Env) (l f : Bool) (m : CMasternode) :
    m.sameIdentity (m.Check env l f) := by
  unfold CMasternode.Check
  dsimp only
  repeat' apply sameIdentity_ite
  all_goals exact rfl

theorem sameIdentities_refl (w : World) : w.sameIdentities w :=
  fun _ m h => ⟨m, h, sameIdentity_refl m⟩

theorem sameIdentities_trans (a b c : World) (h1 : a.sameIdentities b) (h2 : b.sameIdentities c) :
    a.sameIdentities c := by
  intro j m hm
  obtain ⟨m2, hm2, hid2⟩ := h1 j m hm
  obtain ⟨m3, hm3, hid3⟩ := h2 j m2 hm2
  exact ⟨m3, hm3, sameIdentity_trans _ _ _ hid2 hid3⟩

theorem get?_set_self (l : List CMasternode) (i : Nat) (m x : CMasternode)
    (h : l.get? i = some m) : (l.set i x).get? i = some x := by
  have hi : i < l.length := by
    rw [List.get?_eq_getElem?] at h
    exact (List.getElem?_eq_some.mp h).1
  simp [List.get?_eq_getElem?, List.getElem?_set, hi]

/-- Overwriting an entry by a record of the same identity keeps identities. -/
theorem sameIdentities_set (w w2 : World) (i : Nat) (m x : CMasternode)
    (hv : w2.vMasternodes = w.vMasternodes.set i x)
    (hm : w.vMasternodes.get? i = some m) (hx : m.sameIdentity x) : w.sameIdentities w2 := by
  intro j mj hj
  rw [hv]
  by_cases hij : i = j
  · subst hij
    rw [hm] at hj
    simp only [Option.some.injEq] at hj
    subst hj
    exact ⟨x, get?_set_self _ _ _ _ hm, hx⟩
  · exact ⟨mj, by
      rw [List.get?_eq_getElem?] at hj ⊢
      rw [List.getElem?_set_ne hij]
      exact hj, sameIdentity_refl mj⟩

/-- A state with the same registry has the same identities. -/
theorem sameIdentities_of_eq (w w2 : World) (hv : w2.vMasternodes = w.vMasternodes) :
    w.sameIdentities w2 := by
  intro j m hj
  exact ⟨m, by rw [hv]; exact hj, sameIdentity_refl m⟩

theorem findPos_some (p : CMasternode → Bool) :
    ∀ (l : List CMasternode) (i : Nat), findPos p l = some i →
      ∃ m, l.get? i = some m ∧ p m = true
  | [], _, h => by simp [findPos] at h
  | m :: ms, i, h => by
    unfold findPos at h
    by_cases hp : p m = true
    · rw [if_pos hp] at h
      simp only [Option.some.injEq] at h
      subst h
      exact ⟨m, rfl, hp⟩
    · rw [if_neg hp] at h
      cases hf : findPos p ms with
      | none => rw [hf] at h; simp at h
      | some j =>
        rw [hf] at h
        simp only [Option.map_some', Option.some.injEq] at h
        subst h
        obtain ⟨m2, hm2, hp2⟩ := findPos_some p ms j hf
        exact ⟨m2, by simpa using hm2, hp2⟩

/-- A handle returned by `Find` designates an entry with the reference sought. -/
theorem Find_some (w : World) (vin : CTxIn) (i : Nat) (h : w.Find vin = some i) :
    ∃ m, w.vMasternodes.get? i = some m ∧ m.vin.prevout = vin.prevout := by
  obtain ⟨m, hm, hp⟩ := findPos_some _ _ _ h
  exact ⟨m, hm, by simpa using hp⟩

/-- A broadcast that is not newer than the entry is refused at once. -/
theorem UpdateFromNewBroadcast_stale (env : Env) (k : Nat) (w : World) (self : Nat)
    (m : CMasternode) (mnb : CMasternodeBroadcast)
    (hm : w.vMasternodes.get? self = some m) (hs : mnb.sigTime ≤ m.sigTime) :
    CMasternode.UpdateFromNewBroadcast env (k + 1) w self mnb = some (false, w) := by
  rw [CMasternode.UpdateFromNewBroadcast, hm]
  simp only [if_pos hs]

theorem storePing_vMasternodes (env : Env) (w : World) (i : Nat) (pmn : CMasternode)
    (mnp : CMasternodePing) :
    (w.storePing env i pmn mnp).vMasternodes = w.vMasternodes.set i { pmn with lastPing := mnp } := by
  unfold World.storePing
  dsimp only
  split_ifs <;> rfl

theorem storePing_nTryLock (env : Env) (w : World) (i : Nat) (pmn : CMasternode)
    (mnp : CMasternodePing) : (w.storePing env i pmn mnp).nTryLock = w.nTryLock := by
  unfold World.storePing
  dsimp only
  split_ifs <;> rfl

theorem storePing_get (env : Env) (w : World) (i : Nat) (pmn : CMasternode)
    (mnp : CMasternodePing) (h : w.vMasternodes.get? i = some pmn) :
    (w.storePing env i pmn mnp).vMasternodes.get? i = some { pmn with lastPing := mnp } := by
  rw [storePing_vMasternodes]
  exact get?_set_self _ _ _ _ h

/-- The entry read back after `Check` through a handle. -/
theorem World_Check_get (env : Env) (w : World) (i : Nat) (m : CMasternode) (f : Bool)
    (h : w.vMasternodes.get? i = some m) :
    (w.Check env i f).vMasternodes.get? i = some (m.Check env (env.tryLockMain w.nTryLock) f) := by
  unfold World.Check
  rw [h]
  exact get?_set_self _ _ _ _ h

/-- The closing steps of the ping check on an entry that is present. -/
theorem finishUpdate_eq (env : Env) (w : World) (i : Nat) (m : CMasternode) (mnp : CMasternodePing)
    (nDos : Int) (fSkip : Bool) (h : w.vMasternodes.get? i = some m) :
    mnp.finishUpdate env w i nDos fSkip =
      some (if !env.IsEnabled (m.Check env (env.tryLockMain w.nTryLock) true) true then
          (false, nDos, w.Check env i true)
        else if !fSkip then
          (true, nDos, (w.Check env i true).RelayInv (CInv.MSG_MASTERNODE_PING (env.pingHash mnp)))
        else (true, nDos, w.Check env i true)) := by
  unfold CMasternodePing.finishUpdate
  dsimp only
  rw [World_Check_get env w i m true h]
  dsimp only
  split_ifs <;> rfl

/-- The ping check of the source, given depth for one nested call, is its
closed form. -/
theorem CheckAndUpdate_eq (env : Env) (k : Nat) (w : World) (mnp : CMasternodePing) (nDos : Int)
    (fRequireEnabled fCheckSigTimeOnly fSkipCheckPingTimeAndRelay : Bool) :
    CMasternodePing.CheckAndUpdate env (k + 2) w mnp nDos fRequireEnabled fCheckSigTimeOnly
        fSkipCheckPingTimeAndRelay =
      some (pingCheck env w mnp nDos fRequireEnabled fCheckSigTimeOnly fSkipCheckPingTimeAndRelay) := by
  rw [CMasternodePing.CheckAndUpdate]
  unfold pingCheck
  by_cases h1 : mnp.sigTime > env.GetAdjustedTime + 60 * 60
  · simp only [if_pos h1]
  simp only [if_neg h1]
  by_cases h2 : mnp.sigTime ≤ env.GetAdjustedTime - 60 * 60
  · simp only [if_pos h2]
  simp only [if_neg h2]
  cases hF : w.Find mnp.vin with
  | none => cases fCheckSigTimeOnly <;> simp
  | some i =>
    obtain ⟨pmn, hget, -⟩ := Find_some w mnp.vin i hF
    simp only [hget]
    cases fCheckSigTimeOnly
    · simp only [Bool.false_eq_true, if_false]
      by_cases h3 : pmn.protocolVersion ≥ env.GetMinMasternodePaymentsProto
      · simp only [if_pos h3]
        by_cases h4 : (fRequireEnabled && !env.IsEnabled pmn true) = true
        · simp only [if_pos h4]
        simp only [if_neg h4]
        by_cases h5 : (!pmn.IsPingedWithin env (env.MASTERNODE_MIN_MNP_SECONDS - 60) mnp.sigTime
              || fSkipCheckPingTimeAndRelay) = true
        · simp only [if_pos h5]
          by_cases h6 : (!(mnp.VerifySignature env pmn.pubKeyMasternode nDos).1) = true
          · simp only [if_pos h6]
          simp only [if_neg h6]
          cases hB : env.mapBlockIndex mnp.blockHash with
          | none => rfl
          | some ptr =>
            cases ptr with
            | nil => rfl
            | cons b rest =>
              dsimp only
              by_cases h7 : b.nHeight < chainActive.Height env - env.MaxReorganizationDepth
              · simp only [if_pos h7]
              simp only [if_neg h7]
              have hsp := storePing_get env w i pmn mnp hget
              have hst := UpdateFromNewBroadcast_stale env k (w.storePing env i pmn mnp) i _
                (CMasternodeBroadcast.ofMasternode { pmn with lastPing := mnp }) hsp (le_refl _)
              rw [hst]
              unfold pingAccept
              dsimp only
              cases env.spork7
              · simp only [Bool.false_eq_true, if_false]
                rw [finishUpdate_eq env _ i _ mnp _ _ hsp, storePing_nTryLock]
              · simp only [if_true]
                rw [finishUpdate_eq env _ i _ mnp _ _ (by simpa [World.RelayInv] using hsp)]
                simp only [World.RelayInv, storePing_nTryLock]
        · simp only [if_neg h5]
      · simp only [if_neg h3]
    · simp

/-- The fields that two records of the same identity share. -/
theorem sameIdentity_fields (m1 m2 : CMasternode) (h : m1.sameIdentity m2) :
    m2.vin = m1.vin ∧ m2.addr = m1.addr ∧
      m2.pubKeyCollateralAddress = m1.pubKeyCollateralAddress ∧
      m2.pubKeyMasternode = m1.pubKeyMasternode ∧ m2.sig = m1.sig ∧
      m2.sigTime = m1.sigTime ∧ m2.protocolVersion = m1.protocolVersion := by
  unfold CMasternode.sameIdentity at h
  rw [h]
  exact ⟨rfl, rfl, rfl, rfl, rfl, rfl, rfl⟩

/-- The method `Check` does not touch the stored ping. -/
theorem Check_lastPing (env : Env) (l f : Bool) (m : CMasternode) :
    (m.Check env l f).lastPing = m.lastPing := by
  unfold CMasternode.Check
  simp only [apply_ite CMasternode.lastPing, ite_self]

theorem World_Check_sameIdentities (env : Env) (w : World) (i : Nat) (f : Bool) :
    w.sameIdentities (w.Check env i f) := by
  unfold World.Check
  cases h : w.vMasternodes.get? i with
  | none => exact sameIdentities_refl w
  | some m => exact sameIdentities_set w _ i m _ rfl h (Check_sameIdentity env _ f m)

theorem storePing_sameIdentities (env : Env) (w : World) (i : Nat) (pmn : CMasternode)
    (mnp : CMasternodePing) (h : w.vMasternodes.get? i = some pmn) :
    w.sameIdentities (w.storePing env i pmn mnp) :=
  sameIdentities_set w _ i pmn _ (storePing_vMasternodes env w i pmn mnp) h rfl

theorem pingAccept_sameIdentities (env : Env) (w : World) (i : Nat) (pmn : CMasternode)
    (mnp : CMasternodePing) (nDos : Int) (fSkip : Bool) (h : w.vMasternodes.get? i = some pmn) :
    w.sameIdentities (pingAccept env w i pmn mnp nDos fSkip).2.2 := by
  have h2 := storePing_sameIdentities env w i pmn mnp h
  have key : ∀ w3 : World, w.sameIdentities w3 →
      w.sameIdentities (if !env.IsEnabled
          (({ pmn with lastPing := mnp } : CMasternode).Check env (env.tryLockMain w.nTryLock) true)
          true then (false, nDos, w3.Check env i true)
        else if !fSkip then
          (true, nDos, (w3.Check env i true).RelayInv (CInv.MSG_MASTERNODE_PING (env.pingHash mnp)))
        else (true, nDos, w3.Check env i true)).2.2 := by
    intro w3 h3
    have h4 := sameIdentities_trans _ _ _ h3 (World_Check_sameIdentities env w3 i true)
    split_ifs
    · exact h4
    · exact sameIdentities_trans _ _ _ h4 (sameIdentities_of_eq _ _ rfl)
    · exact h4
  unfold pingAccept
  dsimp only
  cases env.spork7
  · exact key _ h2
  · exact key _ (sameIdentities_trans _ _ _ h2 (sameIdentities_of_eq _ _ rfl))

theorem VerifySignature_true (env : Env) (mnp : CMasternodePing) (key : List Nat) (nDos : Int)
    (h : env.VerifyPingMessage key mnp.vchSig mnp.vin mnp.blockHash mnp.sigTime = true) :
    mnp.VerifySignature env key nDos = (true, nDos) := by
  unfold CMasternodePing.VerifySignature
  rw [h]
  rfl

theorem VerifySignature_false (env : Env) (mnp : CMasternodePing) (key : List Nat) (nDos : Int)
    (h : env.VerifyPingMessage key mnp.vchSig mnp.vin mnp.blockHash mnp.sigTime = false) :
    mnp.VerifySignature env key nDos = (false, 33) := by
  unfold CMasternodePing.VerifySignature
  rw [h]
  rfl

/-- Case analysis of the ping check: a property holds of its outcome when it
holds of the outcome of every path through the method. -/
theorem pingCheck_cases (env : Env) (w : World) (mnp : CMasternodePing) (nDos : Int)
    (fR fC fS : Bool) (P : Bool × Int × World → Prop)
    (skew : (mnp.sigTime > env.GetAdjustedTime + 60 * 60 ∨
        mnp.sigTime ≤ env.GetAdjustedTime - 60 * 60) → P (false, 1, w))
    (vnone : fC = true → w.Find mnp.vin = none → P (true, nDos, w))
    (vok : fC = true → ∀ i pmn, w.Find mnp.vin = some i → w.vMasternodes.get? i = some pmn →
      env.VerifyPingMessage pmn.pubKeyMasternode mnp.vchSig mnp.vin mnp.blockHash mnp.sigTime = true →
      P (true, nDos, w))
    (vbad : ∀ i pmn, w.Find mnp.vin = some i → w.vMasternodes.get? i = some pmn →
      env.VerifyPingMessage pmn.pubKeyMasternode mnp.vchSig mnp.vin mnp.blockHash mnp.sigTime = false →
      P (false, 33, w))
    (silent : ¬ mnp.sigTime > env.GetAdjustedTime + 60 * 60 →
      ¬ mnp.sigTime ≤ env.GetAdjustedTime - 60 * 60 → fC = false → P (false, nDos, w))
    (accept : ¬ mnp.sigTime > env.GetAdjustedTime + 60 * 60 →
      ¬ mnp.sigTime ≤ env.GetAdjustedTime - 60 * 60 → fC = false →
      ∀ i pmn b rest, w.Find mnp.vin = some i → w.vMasternodes.get? i = some pmn →
      pmn.protocolVersion ≥ env.GetMinMasternodePaymentsProto →
      (fR = true → env.IsEnabled pmn true = true) →
      (pmn.IsPingedWithin env (env.MASTERNODE_MIN_MNP_SECONDS - 60) mnp.sigTime = false ∨
        fS = true) →
      env.VerifyPingMessage pmn.pubKeyMasternode mnp.vchSig mnp.vin mnp.blockHash mnp.sigTime = true →
      env.mapBlockIndex mnp.blockHash = some (b :: rest) →
      ¬ b.nHeight < chainActive.Height env - env.MaxReorganizationDepth →
      P (pingAccept env w i pmn mnp nDos fS)) :
    P (pingCheck env w mnp nDos fR fC fS) := by
  unfold pingCheck
  by_cases h1 : mnp.sigTime > env.GetAdjustedTime + 60 * 60
  · simp only [if_pos h1]
    exact skew (Or.inl h1)
  simp only [if_neg h1]
  by_cases h2 : mnp.sigTime ≤ env.GetAdjustedTime - 60 * 60
  · simp only [if_pos h2]
    exact skew (Or.inr h2)
  simp only [if_neg h2]
  cases hF : w.Find mnp.vin with
  | none =>
    cases hC : fC
    · exact silent h1 h2 hC
    · exact vnone hC hF
  | some i =>
    obtain ⟨pmn, hget, -⟩ := Find_some w mnp.vin i hF
    simp only [hget]
    cases hV : env.VerifyPingMessage pmn.pubKeyMasternode mnp.vchSig mnp.vin mnp.blockHash
      mnp.sigTime
    · rw [VerifySignature_false env mnp _ nDos hV]
      cases hC : fC
      · simp only [Bool.false_eq_true, if_false]
        by_cases h3 : pmn.protocolVersion ≥ env.GetMinMasternodePaymentsProto
        · simp only [if_pos h3]
          by_cases h4 : (fR && !env.IsEnabled pmn true) = true
          · simp only [if_pos h4]
            exact silent h1 h2 hC
          simp only [if_neg h4]
          by_cases h5 : (!pmn.IsPingedWithin env (env.MASTERNODE_MIN_MNP_SECONDS - 60) mnp.sigTime
              || fS) = true
          · simp only [if_pos h5, Bool.not_false, if_true]
            exact vbad i pmn hF hget hV
          · simp only [if_neg h5]
            exact silent h1 h2 hC
        · simp only [if_neg h3]
          exact silent h1 h2 hC
      · simp only [if_true]
        exact vbad i pmn hF hget hV
    · rw [VerifySignature_true env mnp _ nDos hV]
      cases hC : fC
      · simp only [Bool.false_eq_true, if_false]
        by_cases h3 : pmn.protocolVersion ≥ env.GetMinMasternodePaymentsProto
        · simp only [if_pos h3]
          by_cases h4 : (fR && !env.IsEnabled pmn true) = true
          · simp only [if_pos h4]
            exact silent h1 h2 hC
          simp only [if_neg h4]
          by_cases h5 : (!pmn.IsPingedWithin env (env.MASTERNODE_MIN_MNP_SECONDS - 60) mnp.sigTime
              || fS) = true
          · simp only [if_pos h5, Bool.not_true, Bool.false_eq_true, if_false]
            cases hB : env.mapBlockIndex mnp.blockHash with
            | none => exact silent h1 h2 hC
            | some ptr =>
              cases ptr with
              | nil => exact silent h1 h2 hC
              | cons b rest =>
                dsimp only
                by_cases h7 : b.nHeight < chainActive.Height env - env.MaxReorganizationDepth
                · simp only [if_pos h7]
                  exact silent h1 h2 hC
                simp only [if_neg h7]
                refine accept h1 h2 hC i pmn b rest hF hget h3 ?_ ?_ hV hB h7
                · intro hR
                  subst hR
                  simpa using h4
                · cases hp : pmn.IsPingedWithin env (env.MASTERNODE_MIN_MNP_SECONDS - 60)
                    mnp.sigTime
                  · exact Or.inl rfl
                  · rw [hp] at h5
                    exact Or.inr (by simpa using h5)
          · simp only [if_neg h5]
            exact silent h1 h2 hC
        · simp only [if_neg h3]
          exact silent h1 h2 hC
      · simp only [if_true]
        exact vok hC i pmn hF hget hV

/-- The ping check keeps the identity of every registry entry. -/
theorem pingCheck_sameIdentities (env : Env) (w : World) (mnp : CMasternodePing) (nDos : Int)
    (fR fC fS : Bool) : w.sameIdentities (pingCheck env w mnp nDos fR fC fS).2.2 := by
  apply pingCheck_cases env w mnp nDos fR fC fS (fun r => w.sameIdentities r.2.2)
  · intro _; exact sameIdentities_refl w
  · intro _ _; exact sameIdentities_refl w
  · intro _ _ _ _ _ _; exact sameIdentities_refl w
  · intro _ _ _ _ _; exact sameIdentities_refl w
  · intro _ _ _; exact sameIdentities_refl w
  · intro _ _ _ i pmn _ _ _ hget _ _ _ _ _ _
    exact pingAccept_sameIdentities env w i pmn mnp nDos fS hget

theorem takePing_get (env : Env) (w : World) (self : Nat) (m : CMasternode)
    (ping : CMasternodePing) (h : w.vMasternodes.get? self = some m) :
    (w.takePing env self ping).vMasternodes.get? self = some { m with lastPing := ping } := by
  unfold World.takePing
  rw [h]
  exact get?_set_self _ _ _ _ h

/-- The entry and the result left by the tail of the ping check. -/
theorem pingAccept_get (env : Env) (w : World) (i : Nat) (pmn : CMasternode)
    (mnp : CMasternodePing) (nDos : Int) (fSkip : Bool) (h : w.vMasternodes.get? i = some pmn) :
    (pingAccept env w i pmn mnp nDos fSkip).2.2.vMasternodes.get? i =
        some (({ pmn with lastPing := mnp } : CMasternode).Check env
          (env.tryLockMain w.nTryLock) true) ∧
      (pingAccept env w i pmn mnp nDos fSkip).1 =
        env.IsEnabled (({ pmn with lastPing := mnp } : CMasternode).Check env
          (env.tryLockMain w.nTryLock) true) true ∧
      (pingAccept env w i pmn mnp nDos fSkip).2.1 = nDos := by
  have hsp := storePing_get env w i pmn mnp h
  have key : ∀ w3 : World, w3.vMasternodes.get? i = some { pmn with lastPing := mnp } →
      w3.nTryLock = w.nTryLock →
      (w3.Check env i true).vMasternodes.get? i =
        some (({ pmn with lastPing := mnp } : CMasternode).Check env
          (env.tryLockMain w.nTryLock) true) := by
    intro w3 h3 hn
    rw [World_Check_get env w3 i _ true h3, hn]
  unfold pingAccept
  dsimp only
  cases env.spork7
  · have hk := key _ hsp (storePing_nTryLock env w i pmn mnp)
    simp only [Bool.false_eq_true, if_false]
    cases hE : env.IsEnabled (({ pmn with lastPing := mnp } : CMasternode).Check env
      (env.tryLockMain w.nTryLock) true) true
    · exact ⟨hk, rfl, rfl⟩
    · cases fSkip
      · exact ⟨hk, rfl, rfl⟩
      · exact ⟨hk, rfl, rfl⟩
  · have hk := key ((w.storePing env i pmn mnp).RelayInv (CInv.MSG_MASTERNODE_ANNOUNCE
      (env.mnbHash (CMasternodeBroadcast.ofMasternode { pmn with lastPing := mnp })))) hsp
      (storePing_nTryLock env w i pmn mnp)
    simp only [if_true]
    cases hE : env.IsEnabled (({ pmn with lastPing := mnp } : CMasternode).Check env
      (env.tryLockMain w.nTryLock) true) true
    · exact ⟨hk, rfl, rfl⟩
    · cases fSkip
      · exact ⟨hk, rfl, rfl⟩
      · exact ⟨hk, rfl, rfl⟩

/-- The ping check reaches its tail when every check passes. -/
theorem pingCheck_accept (env : Env) (w : World) (mnp : CMasternodePing) (nDos : Int)
    (fR fS : Bool) (i : Nat) (pmn : CMasternode) (b : CBlockIndex) (rest : List CBlockIndex)
    (h1 : ¬ mnp.sigTime > env.GetAdjustedTime + 60 * 60)
    (h2 : ¬ mnp.sigTime ≤ env.GetAdjustedTime - 60 * 60)
    (hF : w.Find mnp.vin = some i) (hget : w.vMasternodes.get? i = some pmn)
    (h3 : pmn.protocolVersion ≥ env.GetMinMasternodePaymentsProto)
    (h4 : fR = true → env.IsEnabled pmn true = true)
    (h5 : pmn.IsPingedWithin env (env.MASTERNODE_MIN_MNP_SECONDS - 60) mnp.sigTime = false ∨
      fS = true)
    (hV : env.VerifyPingMessage pmn.pubKeyMasternode mnp.vchSig mnp.vin mnp.blockHash
      mnp.sigTime = true)
    (hB : env.mapBlockIndex mnp.blockHash = some (b :: rest))
    (h7 : ¬ b.nHeight < chainActive.Height env - env.MaxReorganizationDepth) :
    pingCheck env w mnp nDos fR false fS = pingAccept env w i pmn mnp nDos fS := by
  have h4b : ¬ (fR && !env.IsEnabled pmn true) = true := by
    cases fR
    · simp
    · simp [h4 rfl]
  have h5b : (!pmn.IsPingedWithin env (env.MASTERNODE_MIN_MNP_SECONDS - 60) mnp.sigTime || fS)
      = true := by
    rcases h5 with h | h
    · simp [h]
    · simp [h]
  unfold pingCheck
  rw [if_neg h1, if_neg h2]
  simp only [hF, hget, Bool.false_eq_true, if_false, if_pos h3, if_neg h4b, if_pos h5b,
    VerifySignature_true env mnp _ nDos hV, Bool.not_true, hB, if_neg h7]

/-- The narrowing conversion keeps every value that fits a 32-bit `int`. -/
theorem toInt32_of_fits (x : Int) (h1 : -2 ^ 31 ≤ x) (h2 : x < 2 ^ 31) : toInt32 x = x := by
  unfold toInt32
  omega

/-- Without a tip `GetBlockHash` returns false. -/
theorem GetBlockHash_no_tip (env : Env) (w : World) (n : Int) (h : chainActive.Tip env = []) :
    GetBlockHash env w n = (none, w) := by
  unfold GetBlockHash
  rw [h]

/-- The score reads the masternode only through `vin.prevout.hash + vin.prevout.n`. -/
theorem CalculateScore_congr_aux (env : Env) (w : World) (m1 m2 : CMasternode)
    (mod1 mod2 n : Int) (h : m1.aux = m2.aux) :
    m1.CalculateScore env w mod1 n = m2.CalculateScore env w mod2 n := by
  unfold CMasternode.CalculateScore
  rw [h]

/-- The score when the block hash is available. -/
theorem CalculateScore_of_hash (env : Env) (w : World) (m : CMasternode) (mod n : Int) (h : Nat)
    (hh : (GetBlockHash env w (toInt32 n)).1 = some h) :
    (m.CalculateScore env w mod n).1 =
      if env.Hash (serializeU256 h ++ serializeU256 m.aux) % U256 >
          env.Hash (serializeU256 h) % U256 then
        env.Hash (serializeU256 h ++ serializeU256 m.aux) % U256 -
          env.Hash (serializeU256 h) % U256
      else env.Hash (serializeU256 h) % U256 -
        env.Hash (serializeU256 h ++ serializeU256 m.aux) % U256 := by
  unfold CMasternode.CalculateScore
  split
  · rename_i hnil
    unfold GetBlockHash at hh
    rw [hnil] at hh
    simp at hh
  · split
    · rename_i heq
      rw [heq] at hh
      simp at hh
    · rename_i heq
      rw [heq] at hh
      simp only [Option.some.injEq] at hh
      subst hh
      rfl

/-- Two values with the same low `k` bytes agree modulo `256 ^ k`. -/
theorem mod_pow_eq_of_bytes (x y : Nat) :
    ∀ k : Nat, (∀ i, i < k → x / 256 ^ i % 256 = y / 256 ^ i % 256) →
      x % 256 ^ k = y % 256 ^ k
  | 0, _ => by simp [Nat.mod_one]
  | k + 1, h => by
    rw [Nat.mod_pow_succ, Nat.mod_pow_succ, h k (Nat.lt_succ_self k),
      mod_pow_eq_of_bytes x y k (fun i hi => h i (Nat.lt_succ_of_lt hi))]

/-- The serialisation of a `uint256` determines it. -/
theorem serializeU256_injective (x y : Nat) (hx : x < U256) (hy : y < U256)
    (h : serializeU256 x = serializeU256 y) : x = y := by
  have hbytes : ∀ i, i < 32 → x / 256 ^ i % 256 = y / 256 ^ i % 256 := by
    intro i hi
    have := congrArg (fun l => l.get? i) h
    simpa [serializeU256, List.get?_eq_getElem?, List.getElem?_map, List.getElem?_range hi] using this
  have hm := mod_pow_eq_of_bytes x y 32 hbytes
  have h256 : (256 : Nat) ^ 32 = U256 := by unfold U256; norm_num
  rw [h256, Nat.mod_eq_of_lt hx, Nat.mod_eq_of_lt hy] at hm
  exact hm

theorem aux_ne_of_one_component (m1 m2 : CMasternode)
    (hh1 : m1.vin.prevout.hash < 2 ^ 256) (hh2 : m2.vin.prevout.hash < 2 ^ 256)
    (hn1 : m1.vin.prevout.n < 2 ^ 32) (hn2 : m2.vin.prevout.n < 2 ^ 32)
    (hd : (m1.vin.prevout.hash ≠ m2.vin.prevout.hash ∧ m1.vin.prevout.n = m2.vin.prevout.n) ∨
      (m1.vin.prevout.hash = m2.vin.prevout.hash ∧ m1.vin.prevout.n ≠ m2.vin.prevout.n)) :
    m1.aux ≠ m2.aux := by
  unfold CMasternode.aux U256
  rcases hd with ⟨h1, h2⟩ | ⟨h1, h2⟩ <;> omega

/-- The loop returns 0 when no block within its remaining budget is paid. -/
theorem GetLastPaid.loop_zero (env : Env) (mnpayee : List Nat) (vin : CTxIn)
    (nOffset nMnCount : Int) :
    ∀ (blocks : BlockPtr) (n : Int),
      (∀ b ∈ GetLastPaid.inspected (nMnCount - n) blocks, paidAt env mnpayee vin b = false) →
      GetLastPaid.loop env mnpayee vin nOffset nMnCount blocks n = 0
  | [], _, _ => rfl
  | b :: pprev, n, h => by
    unfold GetLastPaid.loop
    by_cases hpos : b.nHeight > 0
    · rw [if_pos hpos]
      by_cases hn : n ≥ nMnCount
      · rw [if_pos hn]
      · rw [if_neg hn]
        obtain ⟨k, hk⟩ : ∃ k : Nat, (nMnCount - n).toNat = k + 1 :=
          ⟨(nMnCount - n).toNat - 1, by omega⟩
        have hk2 : (nMnCount - (n + 1)).toNat = k := by omega
        have hb : paidAt env mnpayee vin b = false := by
          apply h
          simp [GetLastPaid.inspected, List.takeWhile_cons, hpos, hk]
        rw [hb]
        simp only [Bool.false_eq_true, if_false]
        split_ifs
        · rfl
        · apply GetLastPaid.loop_zero env mnpayee vin nOffset nMnCount pprev (n + 1)
          intro c hc
          apply h
          simp only [GetLastPaid.inspected, hk2] at hc
          simp [GetLastPaid.inspected, List.takeWhile_cons, hpos, hk, hc]
    · rw [if_neg hpos]

/-- The loop reads the payment history only at the blocks within its budget. -/
theorem GetLastPaid.loop_congr (env1 env2 : Env) (mnpayee : List Nat) (vin : CTxIn)
    (nOffset nMnCount : Int) :
    ∀ (blocks : BlockPtr) (n : Int),
      (∀ b ∈ GetLastPaid.inspected (nMnCount - n) blocks,
        paidAt env1 mnpayee vin b = paidAt env2 mnpayee vin b) →
      GetLastPaid.loop env1 mnpayee vin nOffset nMnCount blocks n =
        GetLastPaid.loop env2 mnpayee vin nOffset nMnCount blocks n
  | [], _, _ => rfl
  | b :: pprev, n, h => by
    unfold GetLastPaid.loop
    by_cases hpos : b.nHeight > 0
    · rw [if_pos hpos, if_pos hpos]
      by_cases hn : n ≥ nMnCount
      · rw [if_pos hn, if_pos hn]
      · rw [if_neg hn, if_neg hn]
        obtain ⟨k, hk⟩ : ∃ k : Nat, (nMnCount - n).toNat = k + 1 :=
          ⟨(nMnCount - n).toNat - 1, by omega⟩
        have hk2 : (nMnCount - (n + 1)).toNat = k := by omega
        have hb : paidAt env1 mnpayee vin b = paidAt env2 mnpayee vin b := by
          apply h
          simp [GetLastPaid.inspected, List.takeWhile_cons, hpos, hk]
        rw [hb]
        have ih := GetLastPaid.loop_congr env1 env2 mnpayee vin nOffset nMnCount pprev (n + 1)
          (by
            intro c hc
            apply h
            simp only [GetLastPaid.inspected, hk2] at hc
            simp [GetLastPaid.inspected, List.takeWhile_cons, hpos, hk, hc])
        rw [ih]
    · rw [if_neg hpos, if_neg hpos]

/-- The result of `GetLastPaid` is the same in two environments that agree on
the tip, the payee script, the offset, the bound and the inspected entries. -/
theorem GetLastPaid_congr (env1 env2 : Env) (m : CMasternode)
    (h1 : chainActive.Tip env1 = chainActive.Tip env2)
    (h2 : env1.GetScriptForDestination m.pubKeyCollateralAddress =
      env2.GetScriptForDestination m.pubKeyCollateralAddress)
    (h3 : m.nOffset env1 = m.nOffset env2) (h4 : m.nMnCount env1 = m.nMnCount env2)
    (h : ∀ b ∈ GetLastPaid.inspected (m.nMnCount env2) (chainActive.Tip env2),
      paidAt env1 (env2.GetScriptForDestination m.pubKeyCollateralAddress) m.vin b =
        paidAt env2 (env2.GetScriptForDestination m.pubKeyCollateralAddress) m.vin b) :
    m.GetLastPaid env1 = m.GetLastPaid env2 := by
  unfold CMasternode.GetLastPaid
  rw [h1, h2, h3, h4]
  cases htip : chainActive.Tip env2 with
  | nil => rfl
  | cons tip anc =>
    dsimp only
    apply GetLastPaid.loop_congr
    rw [htip] at h
    simpa using h

/-- An entry found by `lookup` is an entry of the list. -/
theorem lookup_mem : ∀ (l : List (Int × Nat)) (n : Int) (h : Nat),
    l.lookup n = some h → (n, h) ∈ l
  | [], _, _, hl => by simp [List.lookup] at hl
  | (a, b) :: es, n, h, hl => by
    simp only [List.lookup] at hl
    split at hl
    · rename_i heq
      have hn : n = a := by simpa using heq
      simp only [Option.some.injEq] at hl
      subst hn hl
      exact List.mem_cons_self _ _
    · exact List.mem_cons_of_mem _ (lookup_mem es n h hl)

/-- What a cache in agreement with the chain returns for a height. -/
theorem cacheAgrees_lookup (env : Env) (w : World) (hc : cacheAgrees env w = true) (n : Int)
    (h : Nat) (hl : w.mapCacheBlockHashes.lookup n = some h) :
    ((chainActive.Tip env).find? (fun b => b.nHeight == n)).map (fun b => b.hashBlock) = some h := by
  unfold cacheAgrees at hc
  rw [List.all_eq_true] at hc
  have := hc (n, h) (lookup_mem _ n h hl)
  simpa using this

/-- With a cache that agrees with the chain, `GetBlockHash` is the chain lookup. -/
theorem GetBlockHash_eq_chain (env : Env) (w : World) (n : Int) (hc : cacheAgrees env w = true) :
    (GetBlockHash env w n).1 = chainBlockHash env n := by
  unfold GetBlockHash chainBlockHash
  cases htip : chainActive.Tip env with
  | nil => rfl
  | cons tip anc =>
    dsimp only
    generalize (if n ≤ 0 then tip.nHeight else n) = k
    by_cases hlt : tip.nHeight < k
    · rw [if_pos hlt, if_pos hlt]
    · rw [if_neg hlt, if_neg hlt]
      cases hl : w.mapCacheBlockHashes.lookup k with
      | some cached =>
        have := cacheAgrees_lookup env w hc _ _ hl
        rw [htip] at this
        exact this.symm
      | none =>
        cases hb : (tip :: anc).find? (fun b => b.nHeight == k) <;> simp [hb]

/-- `GetBlockHash` keeps a cache that agrees with the chain in agreement. -/
theorem GetBlockHash_cacheAgrees (env : Env) (w : World) (n : Int)
    (hc : cacheAgrees env w = true) : cacheAgrees env (GetBlockHash env w n).2 = true := by
  unfold GetBlockHash
  cases htip : chainActive.Tip env with
  | nil => exact hc
  | cons tip anc =>
    dsimp only
    generalize (if n ≤ 0 then tip.nHeight else n) = k
    by_cases hlt : tip.nHeight < k
    · rw [if_pos hlt]
      exact hc
    · rw [if_neg hlt]
      cases hl : w.mapCacheBlockHashes.lookup k with
      | some cached => exact hc
      | none =>
        cases hb : (tip :: anc).find? (fun b => b.nHeight == k) with
        | none => exact hc
        | some b =>
          unfold cacheAgrees at hc ⊢
          rw [List.all_cons, hc, htip, hb]
          simp

/-- The score as a function of the block hash returned by `GetBlockHash`. -/
theorem CalculateScore_fst (env : Env) (w : World) (m : CMasternode) (mod n : Int) :
    (m.CalculateScore env w mod n).1 =
      match (GetBlockHash env w (toInt32 n)).1 with
      | none => 0
      | some hash =>
        if env.Hash (serializeU256 hash ++ serializeU256 m.aux) % U256 >
            env.Hash (serializeU256 hash) % U256 then
          env.Hash (serializeU256 hash ++ serializeU256 m.aux) % U256 -
            env.Hash (serializeU256 hash) % U256
        else env.Hash (serializeU256 hash) % U256 -
          env.Hash (serializeU256 hash ++ serializeU256 m.aux) % U256 := by
  unfold CMasternode.CalculateScore
  split
  · rename_i hnil
    unfold GetBlockHash
    rw [hnil]
  · split
    · rename_i heq
      rw [heq]
    · rename_i heq
      rw [heq]

/-- The state left by `CalculateScore` is the state left by `GetBlockHash`. -/
theorem CalculateScore_snd (env : Env) (w : World) (m : CMasternode) (mod n : Int) :
    (m.CalculateScore env w mod n).2 = (GetBlockHash env w (toInt32 n)).2 := by
  unfold CMasternode.CalculateScore
  split
  · rename_i hnil
    unfold GetBlockHash
    rw [hnil]
  · split
    · rename_i heq
      rw [heq]
    · rename_i heq
      rw [heq]

/-- A newer broadcast is applied: the call returns true and the entry carries
the keys, `sigTime`, signature, protocol version and address of the broadcast. -/
theorem UpdateFromNewBroadcast_newer (env : Env) (k : Nat) (w : World) (self : Nat)
    (m : CMasternode) (mnb : CMasternodeBroadcast)
    (hm : w.vMasternodes.get? self = some m) (hs : m.sigTime < mnb.sigTime) :
    ∃ w2 m2, CMasternode.UpdateFromNewBroadcast env (k + 3) w self mnb = some (true, w2) ∧
      w2.vMasternodes.get? self = some m2 ∧
      m2.pubKeyMasternode = mnb.pubKeyMasternode ∧
      m2.pubKeyCollateralAddress = mnb.pubKeyCollateralAddress ∧
      m2.sigTime = mnb.sigTime ∧ m2.sig = mnb.sig ∧
      m2.protocolVersion = mnb.protocolVersion ∧ m2.addr = mnb.addr ∧ m2.vin = m.vin := by
  have key : ∀ m1 : CMasternode, m1.pubKeyMasternode = mnb.pubKeyMasternode →
      m1.pubKeyCollateralAddress = mnb.pubKeyCollateralAddress → m1.sigTime = mnb.sigTime →
      m1.sig = mnb.sig → m1.protocolVersion = mnb.protocolVersion → m1.addr = mnb.addr →
      m1.vin = m.vin →
      ∃ w2 m2,
        (if env.pingIsEmpty mnb.lastPing = true then
            some (true, (w.setMn self m1).takePing env self mnb.lastPing)
          else
            match CMasternodePing.CheckAndUpdate env (k + 2) (w.setMn self m1) mnb.lastPing 0 false
                env.defaultCheckSigTimeOnly env.defaultSkipCheckPingTimeAndRelay with
            | none => none
            | some (true, _, w2) => some (true, w2.takePing env self mnb.lastPing)
            | some (false, _, w2) => some (true, w2)) = some (true, w2) ∧
        w2.vMasternodes.get? self = some m2 ∧
        m2.pubKeyMasternode = mnb.pubKeyMasternode ∧
        m2.pubKeyCollateralAddress = mnb.pubKeyCollateralAddress ∧
        m2.sigTime = mnb.sigTime ∧ m2.sig = mnb.sig ∧
        m2.protocolVersion = mnb.protocolVersion ∧ m2.addr = mnb.addr ∧ m2.vin = m.vin := by
    intro m1 e1 e2 e3 e4 e5 e6 e7
    have hget1 : (w.setMn self m1).vMasternodes.get? self = some m1 :=
      get?_set_self w.vMasternodes self m m1 hm
    by_cases he : env.pingIsEmpty mnb.lastPing = true
    · rw [if_pos he]
      exact ⟨_, _, rfl, takePing_get env _ self _ _ hget1, e1, e2, e3, e4, e5, e6, e7⟩
    · rw [if_neg he, CheckAndUpdate_eq]
      obtain ⟨m2, hget2, hid⟩ := pingCheck_sameIdentities env (w.setMn self m1) mnb.lastPing 0
        false env.defaultCheckSigTimeOnly env.defaultSkipCheckPingTimeAndRelay self m1 hget1
      obtain ⟨f1, f2, f3, f4, f5, f6, f7⟩ := sameIdentity_fields _ _ hid
      generalize pingCheck env (w.setMn self m1) mnb.lastPing 0 false
        env.defaultCheckSigTimeOnly env.defaultSkipCheckPingTimeAndRelay = r at hget2
      obtain ⟨ok, nDos2, w2⟩ := r
      cases ok
      · exact ⟨w2, m2, rfl, hget2, f4.trans e1, f3.trans e2, f6.trans e3, f5.trans e4,
          f7.trans e5, f2.trans e6, f1.trans e7⟩
      · exact ⟨_, _, rfl, takePing_get env w2 self m2 _ hget2, f4.trans e1, f3.trans e2,
          f6.trans e3, f5.trans e4, f7.trans e5, f2.trans e6, f1.trans e7⟩
  rw [CMasternode.UpdateFromNewBroadcast, hm]
  simp only [if_neg (not_le.mpr hs)]
  exact key _ rfl rfl rfl rfl rfl rfl rfl

/-! ## `CMasternode::UpdateFromNewBroadcast` -/

/-- C1: on a registry entry `M` and a broadcast `B`, `UpdateFromNewBroadcast`
applies `B` exactly when `B.sigTime > M.sigTime`.  When `B.sigTime <= M.sigTime`
it returns false and nothing at all is changed; otherwise it returns true and
the operational key, collateral key, `sigTime`, signature, protocol version
and address of the entry are those of `B` (the collateral reference is kept). -/
theorem UpdateFromNewBroadcast_applies_iff_newer (env : Env) (k : Nat) (w : World) (self : Nat)
    (m : CMasternode) (mnb : CMasternodeBroadcast)
    (hm : w.vMasternodes.get? self = some m) :
    (mnb.sigTime ≤ m.sigTime →
      CMasternode.UpdateFromNewBroadcast env (k + 3) w self mnb = some (false, w)) ∧
    (m.sigTime < mnb.sigTime →
      ∃ w2 m2, CMasternode.UpdateFromNewBroadcast env (k + 3) w self mnb = some (true, w2) ∧
        w2.vMasternodes.get? self = some m2 ∧
        m2.pubKeyMasternode = mnb.pubKeyMasternode ∧
        m2.pubKeyCollateralAddress = mnb.pubKeyCollateralAddress ∧
        m2.sigTime = mnb.sigTime ∧ m2.sig = mnb.sig ∧
        m2.protocolVersion = mnb.protocolVersion ∧ m2.addr = mnb.addr ∧ m2.vin = m.vin) :=
  ⟨fun hs => UpdateFromNewBroadcast_stale env (k + 2) w self m mnb hm hs,
    fun hs => UpdateFromNewBroadcast_newer env k w self m mnb hm hs⟩

/-- Witness of C1: a broadcast signed at 1000 changes nothing in an entry signed
at 1000, and a broadcast signed at 1001 is applied to it. -/
theorem UpdateFromNewBroadcast_applies_iff_newer_witness :
    CMasternode.UpdateFromNewBroadcast exampleEnv 3
        (exampleWorld [exampleNode 1 0 MASTERNODE_ENABLED 1000 (examplePing 1 0 5 0)] []) 0
        { exampleNode 1 0 MASTERNODE_ENABLED 1000 (examplePing 1 0 5 0) with } =
      some (false, exampleWorld [exampleNode 1 0 MASTERNODE_ENABLED 1000 (examplePing 1 0 5 0)] []) ∧
    ∃ w2 m2, CMasternode.UpdateFromNewBroadcast exampleEnv 3
        (exampleWorld [exampleNode 1 0 MASTERNODE_ENABLED 1000 (examplePing 1 0 5 0)] []) 0
        { exampleNode 1 0 MASTERNODE_ENABLED 1001 (examplePing 1 0 5 0) with
          pubKeyMasternode := [9], addr := { ip := [10, 0, 0, 2], port := 1945 } } =
          some (true, w2) ∧
      w2.vMasternodes.get? 0 = some m2 ∧ m2.pubKeyMasternode = [9] ∧
      m2.pubKeyCollateralAddress = [2] ∧ m2.sigTime = 1001 ∧ m2.sig = [4] ∧
      m2.protocolVersion = 70900 ∧ m2.addr = { ip := [10, 0, 0, 2], port := 1945 } ∧
      m2.vin = (exampleNode 1 0 MASTERNODE_ENABLED 1000 (examplePing 1 0 5 0)).vin :=
  ⟨(UpdateFromNewBroadcast_applies_iff_newer exampleEnv 0
      (exampleWorld [exampleNode 1 0 MASTERNODE_ENABLED 1000 (examplePing 1 0 5 0)] []) 0
      (exampleNode 1 0 MASTERNODE_ENABLED 1000 (examplePing 1 0 5 0))
      { exampleNode 1 0 MASTERNODE_ENABLED 1000 (examplePing 1 0 5 0) with } rfl).1 (by decide),
    (UpdateFromNewBroadcast_applies_iff_newer exampleEnv 0
      (exampleWorld [exampleNode 1 0 MASTERNODE_ENABLED 1000 (examplePing 1 0 5 0)] []) 0
      (exampleNode 1 0 MASTERNODE_ENABLED 1000 (examplePing 1 0 5 0))
      { exampleNode 1 0 MASTERNODE_ENABLED 1001 (examplePing 1 0 5 0) with
        pubKeyMasternode := [9], addr := { ip := [10, 0, 0, 2], port := 1945 } } rfl).2
      (by decide)⟩

/-! ## `CMasternode::Check` -/

/-- C2: `VIN_SPENT` is absorbing under `Check`: for a masternode in state
`VIN_SPENT`, whatever the force flag, the clocks, the chain, the mempool and
the outcome of the lock acquisition, the state after `Check` is `VIN_SPENT`. -/
theorem Check_VIN_SPENT_absorbing (env : Env) (lockMain forceCheck : Bool) (m : CMasternode)
    (h : m.activeState = MASTERNODE_VIN_SPENT) :
    (m.Check env lockMain forceCheck).activeState = MASTERNODE_VIN_SPENT := by
  rw [Check_activeState, if_pos h, h]
  simp

/-- Witness of C2 on a spent node that is checked by force. -/
theorem Check_VIN_SPENT_absorbing_witness :
    ((exampleNode 1 0 MASTERNODE_VIN_SPENT 999999 (examplePing 1 0 5 999990)).Check
      exampleEnv true true).activeState = MASTERNODE_VIN_SPENT :=
  Check_VIN_SPENT_absorbing exampleEnv true true _ rfl

/-- C3, refuted as stated: a node in state `REMOVE` whose broadcast lies
inside the just-announced window is moved to `ACTIVE` by a forced `Check`. -/
theorem Check_REMOVE_not_absorbing :
    (exampleNode 1 0 MASTERNODE_REMOVE 999999 (examplePing 1 0 5 999990)).activeState
        = MASTERNODE_REMOVE ∧
      ((exampleNode 1 0 MASTERNODE_REMOVE 999999 (examplePing 1 0 5 999990)).Check
        exampleEnv true true).activeState = MASTERNODE_ACTIVE := by
  decide

/-- C3, amended: a node in state `REMOVE` that is outside the just-announced
window and has no ping within the removal window is still in `REMOVE` after
`Check`, whatever the force flag and the environment. -/
theorem Check_REMOVE_stays (env : Env) (lockMain forceCheck : Bool) (m : CMasternode)
    (h : m.activeState = MASTERNODE_REMOVE)
    (hb : m.IsBroadcastedWithin env env.MN_WINNER_MINIMUM_AGE = false)
    (hp : m.IsPingedWithin env env.MASTERNODE_REMOVAL_SECONDS env.GetAdjustedTime = false) :
    (m.Check env lockMain forceCheck).activeState = MASTERNODE_REMOVE := by
  rw [Check_activeState, hb, hp, h]
  simp

/-- Witness of the amended C3: a removed node announced long ago whose last
ping is older than the removal window. -/
theorem Check_REMOVE_stays_witness :
    ((exampleNode 1 0 MASTERNODE_REMOVE 900000 (examplePing 1 0 5 900000)).Check
      exampleEnv true true).activeState = MASTERNODE_REMOVE :=
  Check_REMOVE_stays exampleEnv true true _ rfl (by decide) (by decide)

/-- C4, refuted as stated: a forced `Check` runs on a node that holds no ping
within the removal window, and yet the node is not moved to `REMOVE`: its
broadcast is inside the just-announced window and it becomes `ACTIVE`. -/
theorem Check_REMOVE_iff_fails :
    exampleEnv.ShutdownRequested = false ∧
      exampleEnv.MASTERNODE_EXPIRATION_SECONDS < exampleEnv.MASTERNODE_REMOVAL_SECONDS ∧
      (exampleNode 1 0 MASTERNODE_ENABLED 999999 (examplePing 1 0 5 900000)).IsPingedWithin
        exampleEnv exampleEnv.MASTERNODE_REMOVAL_SECONDS exampleEnv.GetAdjustedTime = false ∧
      ((exampleNode 1 0 MASTERNODE_ENABLED 999999 (examplePing 1 0 5 900000)).Check
        exampleEnv true true).activeState = MASTERNODE_ACTIVE := by
  decide

/-- C4, amended: on a node that is not `VIN_SPENT` and is outside the
just-announced window, a `Check` that runs (forced or rate limit elapsed, no
shutdown), with the expiration window shorter than the removal window, leaves
the state `REMOVE` when no ping is within the removal window and `EXPIRED`
when a ping is within the removal window but none within the expiration
window; conversely a state `REMOVE` (or `EXPIRED`) after the call that the
node was not in before comes from exactly that condition.  The windows nest,
so the cases are exclusive. -/
theorem Check_REMOVE_EXPIRED (env : Env) (lockMain forceCheck : Bool) (m : CMasternode)
    (hshut : env.ShutdownRequested = false)
    (hrun : forceCheck = true ∨
      ¬ (env.GetTime - m.lastTimeChecked < env.MASTERNODE_CHECK_SECONDS))
    (hwin : env.MASTERNODE_EXPIRATION_SECONDS < env.MASTERNODE_REMOVAL_SECONDS)
    (hs : m.activeState ≠ MASTERNODE_VIN_SPENT)
    (hb : m.IsBroadcastedWithin env env.MN_WINNER_MINIMUM_AGE = false) :
    (m.IsPingedWithin env env.MASTERNODE_REMOVAL_SECONDS env.GetAdjustedTime = false →
        (m.Check env lockMain forceCheck).activeState = MASTERNODE_REMOVE) ∧
      (m.IsPingedWithin env env.MASTERNODE_REMOVAL_SECONDS env.GetAdjustedTime = true →
        m.IsPingedWithin env env.MASTERNODE_EXPIRATION_SECONDS env.GetAdjustedTime = false →
        (m.Check env lockMain forceCheck).activeState = MASTERNODE_EXPIRED) ∧
      ((m.Check env lockMain forceCheck).activeState = MASTERNODE_REMOVE →
        m.activeState ≠ MASTERNODE_REMOVE →
        m.IsPingedWithin env env.MASTERNODE_REMOVAL_SECONDS env.GetAdjustedTime = false) ∧
      ((m.Check env lockMain forceCheck).activeState = MASTERNODE_EXPIRED →
        m.activeState ≠ MASTERNODE_EXPIRED →
        m.IsPingedWithin env env.MASTERNODE_REMOVAL_SECONDS env.GetAdjustedTime = true ∧
          m.IsPingedWithin env env.MASTERNODE_EXPIRATION_SECONDS env.GetAdjustedTime = false) ∧
      (m.IsPingedWithin env env.MASTERNODE_EXPIRATION_SECONDS env.GetAdjustedTime = true →
        m.IsPingedWithin env env.MASTERNODE_REMOVAL_SECONDS env.GetAdjustedTime = true) := by
  have hgate : (!forceCheck &&
      decide (env.GetTime - m.lastTimeChecked < env.MASTERNODE_CHECK_SECONDS)) = false := by
    rcases hrun with h | h
    · simp [h]
    · simp [h]
  have hmono := IsPingedWithin_mono env m _ _ env.GetAdjustedTime (le_of_lt hwin)
  rw [Check_activeState, hshut, hgate, hb]
  simp only [Bool.false_eq_true, if_false, if_neg hs]
  cases hr : m.IsPingedWithin env env.MASTERNODE_REMOVAL_SECONDS env.GetAdjustedTime <;>
    cases he : m.IsPingedWithin env env.MASTERNODE_EXPIRATION_SECONDS env.GetAdjustedTime <;>
    simp [hr, he] at hmono ⊢
  refine ⟨?_, ?_⟩ <;> intro h <;> split_ifs at h <;> simp_all

/-- Witness of the amended C4: a node announced long ago whose last ping is
7500 s old, between the two windows, is moved to `EXPIRED`. -/
theorem Check_REMOVE_EXPIRED_witness :
    ((exampleNode 1 0 MASTERNODE_ENABLED 900000 (examplePing 1 0 5 992500)).Check
      exampleEnv true true).activeState = MASTERNODE_EXPIRED :=
  (Check_REMOVE_EXPIRED exampleEnv true true _ rfl (Or.inl rfl) (by decide) (by decide)
    (by decide)).2.1 (by decide) (by decide)

/-! ## `CMasternode::CalculateScore` -/

/-- C5: `CalculateScore` returns 0 when there is no chain tip or when
`GetBlockHash` fails for the height; otherwise, with `h` the block hash
returned, `H = Hash(h)` and `H2 = Hash(h ‖ (txid + index))` as 256-bit unsigned
integers, it returns `max H H2 - min H H2`, which is `|H2 - H|` as an integer
and is below `2 ^ 256`: no wrap-around occurs.  The height is passed to
`GetBlockHash` as an `int`, unchanged when it fits 32 bits. -/
theorem CalculateScore_spec (env : Env) (w : World) (m : CMasternode) (mod nBlockHeight : Int) :
    (chainActive.Tip env = [] → (m.CalculateScore env w mod nBlockHeight).1 = 0) ∧
    ((GetBlockHash env w (toInt32 nBlockHeight)).1 = none →
      (m.CalculateScore env w mod nBlockHeight).1 = 0) ∧
    (∀ h, (GetBlockHash env w (toInt32 nBlockHeight)).1 = some h →
      (m.CalculateScore env w mod nBlockHeight).1 =
          max (env.Hash (serializeU256 h) % U256)
              (env.Hash (serializeU256 h ++ serializeU256 m.aux) % U256)
            - min (env.Hash (serializeU256 h) % U256)
              (env.Hash (serializeU256 h ++ serializeU256 m.aux) % U256) ∧
        ((m.CalculateScore env w mod nBlockHeight).1 : Int) =
          |((env.Hash (serializeU256 h ++ serializeU256 m.aux) % U256 : Nat) : Int)
            - ((env.Hash (serializeU256 h) % U256 : Nat) : Int)| ∧
        (m.CalculateScore env w mod nBlockHeight).1 < U256) ∧
    (-2 ^ 31 ≤ nBlockHeight → nBlockHeight < 2 ^ 31 → toInt32 nBlockHeight = nBlockHeight) := by
  refine ⟨?_, ?_, ?_, toInt32_of_fits nBlockHeight⟩
  · intro h
    unfold CMasternode.CalculateScore
    rw [h]
  · intro h
    unfold CMasternode.CalculateScore
    split
    · rfl
    · split
      · rfl
      · rename_i heq
        rw [heq] at h
        simp at h
  · intro h hh
    have htip : chainActive.Tip env ≠ [] := by
      intro hnil
      rw [GetBlockHash_no_tip env w _ hnil] at hh
      simp at hh
    have hscore : (m.CalculateScore env w mod nBlockHeight).1 =
        if env.Hash (serializeU256 h ++ serializeU256 m.aux) % U256 >
            env.Hash (serializeU256 h) % U256 then
          env.Hash (serializeU256 h ++ serializeU256 m.aux) % U256 -
            env.Hash (serializeU256 h) % U256
        else env.Hash (serializeU256 h) % U256 -
          env.Hash (serializeU256 h ++ serializeU256 m.aux) % U256 := by
      unfold CMasternode.CalculateScore
      split
      · rename_i hnil
        exact absurd hnil htip
      · split
        · rename_i heq
          rw [heq] at hh
          simp at hh
        · rename_i heq
          rw [heq] at hh
          simp only [Option.some.injEq] at hh
          subst hh
          rfl
    rw [hscore]
    have hlt1 : env.Hash (serializeU256 h) % U256 < U256 := Nat.mod_lt _ (by unfold U256; positivity)
    have hlt2 : env.Hash (serializeU256 h ++ serializeU256 m.aux) % U256 < U256 :=
      Nat.mod_lt _ (by unfold U256; positivity)
    generalize env.Hash (serializeU256 h) % U256 = a at *
    generalize env.Hash (serializeU256 h ++ serializeU256 m.aux) % U256 = b at *
    refine ⟨?_, ?_, ?_⟩
    · split_ifs <;> omega
    · split_ifs with hc
      · rw [abs_of_nonneg (by omega)]; omega
      · rw [abs_of_nonpos (by omega)]; omega
    · split_ifs <;> omega

/-- Witness of C5: the score at height 2 of the example chain is the distance
between the two hashes. -/
theorem CalculateScore_spec_witness :
    ((exampleNode 1 0 MASTERNODE_ENABLED 0 (examplePing 1 0 5 0)).CalculateScore exampleChainEnv
        (exampleWorld [] []) 0 2).1 =
      max (exampleChainEnv.Hash (serializeU256 1002) % U256)
          (exampleChainEnv.Hash (serializeU256 1002 ++ serializeU256
            (exampleNode 1 0 MASTERNODE_ENABLED 0 (examplePing 1 0 5 0)).aux) % U256)
        - min (exampleChainEnv.Hash (serializeU256 1002) % U256)
          (exampleChainEnv.Hash (serializeU256 1002 ++ serializeU256
            (exampleNode 1 0 MASTERNODE_ENABLED 0 (examplePing 1 0 5 0)).aux) % U256) :=
  ((CalculateScore_spec exampleChainEnv (exampleWorld [] [])
    (exampleNode 1 0 MASTERNODE_ENABLED 0 (examplePing 1 0 5 0)) 0 2).2.2.1 1002 (by decide)).1

/-- C6, refuted as stated: the masternodes with collateral references `(1, 0)`
and `(0, 1)` have different references and the same score, for every hash
function, chain state and height, in particular at height 2 of the example
chain where the block hash is available. -/
theorem CalculateScore_collision :
    (exampleNode 1 0 MASTERNODE_ENABLED 0 (examplePing 1 0 5 0)).vin.prevout ≠
        (exampleNode 0 1 MASTERNODE_ENABLED 0 (examplePing 0 1 5 0)).vin.prevout ∧
      (GetBlockHash exampleChainEnv (exampleWorld [] []) (toInt32 2)).1 = some 1002 ∧
      ∀ (env : Env) (w : World) (mod n : Int),
        ((exampleNode 1 0 MASTERNODE_ENABLED 0 (examplePing 1 0 5 0)).CalculateScore env w mod n).1 =
          ((exampleNode 0 1 MASTERNODE_ENABLED 0 (examplePing 0 1 5 0)).CalculateScore env w mod n).1 := by
  refine ⟨by decide, by decide, fun env w mod n => ?_⟩
  exact congrArg Prod.fst (CalculateScore_congr_aux env w
    (exampleNode 1 0 MASTERNODE_ENABLED 0 (examplePing 1 0 5 0))
    (exampleNode 0 1 MASTERNODE_ENABLED 0 (examplePing 0 1 5 0)) mod mod n (by decide))

/-- C6, amended: at a height whose block hash `h` is available, take two
masternodes and a hash function without collision on the two byte strings
`h ‖ (txid + index)`.  If the sums `txid + index` modulo `2 ^ 256` differ, the
two auxiliary hashes differ, and the scores differ unless the auxiliary hashes
are mirror images about `Hash(h)`.  The sums differ whenever the references
differ in exactly one of their two components, in particular in one bit. -/
theorem CalculateScore_distinct (env : Env) (w : World) (m1 m2 : CMasternode) (mod1 mod2 n : Int)
    (h : Nat) (hh : (GetBlockHash env w (toInt32 n)).1 = some h)
    (hinj : env.Hash (serializeU256 h ++ serializeU256 m1.aux) % U256 =
        env.Hash (serializeU256 h ++ serializeU256 m2.aux) % U256 →
      serializeU256 h ++ serializeU256 m1.aux = serializeU256 h ++ serializeU256 m2.aux) :
    (m1.aux ≠ m2.aux →
      env.Hash (serializeU256 h ++ serializeU256 m1.aux) % U256 ≠
          env.Hash (serializeU256 h ++ serializeU256 m2.aux) % U256 ∧
        (env.Hash (serializeU256 h ++ serializeU256 m1.aux) % U256 +
            env.Hash (serializeU256 h ++ serializeU256 m2.aux) % U256 ≠
            2 * (env.Hash (serializeU256 h) % U256) →
          (m1.CalculateScore env w mod1 n).1 ≠ (m2.CalculateScore env w mod2 n).1)) ∧
      (m1.vin.prevout.hash < 2 ^ 256 → m2.vin.prevout.hash < 2 ^ 256 →
        m1.vin.prevout.n < 2 ^ 32 → m2.vin.prevout.n < 2 ^ 32 →
        (m1.vin.prevout.hash ≠ m2.vin.prevout.hash ∧ m1.vin.prevout.n = m2.vin.prevout.n) ∨
          (m1.vin.prevout.hash = m2.vin.prevout.hash ∧ m1.vin.prevout.n ≠ m2.vin.prevout.n) →
        m1.aux ≠ m2.aux) := by
  refine ⟨fun haux => ?_, aux_ne_of_one_component m1 m2⟩
  have hne : env.Hash (serializeU256 h ++ serializeU256 m1.aux) % U256 ≠
      env.Hash (serializeU256 h ++ serializeU256 m2.aux) % U256 := by
    intro heq
    have hs := List.append_cancel_left (hinj heq)
    have hlt : ∀ m : CMasternode, m.aux < U256 := fun m =>
      Nat.mod_lt _ (by unfold U256; positivity)
    exact haux (serializeU256_injective _ _ (hlt m1) (hlt m2) hs)
  refine ⟨hne, fun hmir => ?_⟩
  rw [CalculateScore_of_hash env w m1 mod1 n h hh, CalculateScore_of_hash env w m2 mod2 n h hh]
  generalize env.Hash (serializeU256 h) % U256 = c at *
  generalize env.Hash (serializeU256 h ++ serializeU256 m1.aux) % U256 = a at *
  generalize env.Hash (serializeU256 h ++ serializeU256 m2.aux) % U256 = b at *
  split_ifs <;> omega

/-- Witness of the amended C6: the collaterals `(1, 0)` and `(2, 0)` score
differently at height 2 of the example chain. -/
theorem CalculateScore_distinct_witness :
    ((exampleNode 1 0 MASTERNODE_ENABLED 0 (examplePing 1 0 5 0)).CalculateScore exampleChainEnv
        (exampleWorld [] []) 0 2).1 ≠
      ((exampleNode 2 0 MASTERNODE_ENABLED 0 (examplePing 2 0 5 0)).CalculateScore exampleChainEnv
        (exampleWorld [] []) 0 2).1 :=
  ((CalculateScore_distinct exampleChainEnv (exampleWorld [] [])
    (exampleNode 1 0 MASTERNODE_ENABLED 0 (examplePing 1 0 5 0))
    (exampleNode 2 0 MASTERNODE_ENABLED 0 (examplePing 2 0 5 0)) 0 0 2 1002 (by decide)
    (by decide)).1 (by decide)).2 (by decide)

/-- C7, refuted as stated: with the same height, collateral reference and
active chain, the score computed with an empty cache differs from the score
computed with a cache that holds a different hash for the height. -/
theorem CalculateScore_cache_dependent :
    ((exampleNode 1 0 MASTERNODE_ENABLED 0 (examplePing 1 0 5 0)).CalculateScore exampleChainEnv
        (exampleWorld [] []) 0 2).1 ≠
      ((exampleNode 1 0 MASTERNODE_ENABLED 0 (examplePing 1 0 5 0)).CalculateScore exampleChainEnv
        (exampleWorld [] [(2, 77)]) 0 2).1 := by
  decide

/-- C7, amended: two calls of `CalculateScore` with the same height, the same
collateral reference and the same active chain return the same score,
whatever the modulus argument and whatever the block-hash cache holds at each
call, provided every cache entry agrees with the active chain; this holds in
particular for a second call made on the state left by the first. -/
theorem CalculateScore_pure (env : Env) (w1 w2 : World) (m1 m2 : CMasternode)
    (mod1 mod2 nBlockHeight : Int)
    (h1 : cacheAgrees env w1 = true) (h2 : cacheAgrees env w2 = true)
    (hv : m1.vin.prevout = m2.vin.prevout) :
    (m1.CalculateScore env w1 mod1 nBlockHeight).1 = (m2.CalculateScore env w2 mod2 nBlockHeight).1 ∧
      (m2.CalculateScore env (m1.CalculateScore env w1 mod1 nBlockHeight).2 mod2 nBlockHeight).1 =
        (m1.CalculateScore env w1 mod1 nBlockHeight).1 := by
  have haux : m1.aux = m2.aux := by unfold CMasternode.aux; rw [hv]
  have key : ∀ (wa wb : World) (ma mb : CMasternode) (a b : Int), ma.aux = mb.aux →
      cacheAgrees env wa = true → cacheAgrees env wb = true →
      (ma.CalculateScore env wa a nBlockHeight).1 = (mb.CalculateScore env wb b nBlockHeight).1 := by
    intro wa wb ma mb a b hab ha hb
    rw [CalculateScore_fst, CalculateScore_fst, GetBlockHash_eq_chain env wa _ ha,
      GetBlockHash_eq_chain env wb _ hb, hab]
  refine ⟨key w1 w2 m1 m2 mod1 mod2 haux h1 h2, ?_⟩
  refine key _ w1 m2 m1 mod2 mod1 haux.symm ?_ h1
  rw [CalculateScore_snd]
  exact GetBlockHash_cacheAgrees env w1 _ h1

/-- Witness of the amended C7: an empty cache and a cache holding the hash of
the block at height 2 give the same score, for different modulus arguments. -/
theorem CalculateScore_pure_witness :
    ((exampleNode 1 0 MASTERNODE_ENABLED 0 (examplePing 1 0 5 0)).CalculateScore exampleChainEnv
        (exampleWorld [] []) 0 2).1 =
      ((exampleNode 1 0 MASTERNODE_EXPIRED 7 (examplePing 1 0 5 0)).CalculateScore exampleChainEnv
        (exampleWorld [] [(2, 1002)]) 5 2).1 :=
  (CalculateScore_pure exampleChainEnv (exampleWorld [] []) (exampleWorld [] [(2, 1002)])
    (exampleNode 1 0 MASTERNODE_ENABLED 0 (examplePing 1 0 5 0))
    (exampleNode 1 0 MASTERNODE_EXPIRED 7 (examplePing 1 0 5 0)) 0 5 2
    (by decide) (by decide) rfl).1

/-! ## `CMasternodePing::CheckAndUpdate` -/

/-- C8: a ping whose `sigTime` is more than 3600 s ahead of, or more than
3600 s behind, the adjusted clock is refused with penalty weight 1 and the
state is left as it was, whatever the three flags and the registry; the
outcome is the same under every signature verifier, so that the signature
plays no part. -/
theorem Ping_CheckAndUpdate_skew (env : Env) (fuel : Nat) (w : World) (mnp : CMasternodePing)
    (nDos : Int) (fRequireEnabled fCheckSigTimeOnly fSkipCheckPingTimeAndRelay : Bool)
    (h : mnp.sigTime > env.GetAdjustedTime + 3600 ∨ mnp.sigTime < env.GetAdjustedTime - 3600) :
    CMasternodePing.CheckAndUpdate env (fuel + 1) w mnp nDos fRequireEnabled fCheckSigTimeOnly
        fSkipCheckPingTimeAndRelay = some (false, 1, w) ∧
      ∀ verify : List Nat → List Nat → CTxIn → Nat → Int → Bool,
        CMasternodePing.CheckAndUpdate { env with VerifyPingMessage := verify } (fuel + 1) w mnp nDos
          fRequireEnabled fCheckSigTimeOnly fSkipCheckPingTimeAndRelay = some (false, 1, w) := by
  have key : ∀ e : Env, e.GetAdjustedTime = env.GetAdjustedTime →
      CMasternodePing.CheckAndUpdate e (fuel + 1) w mnp nDos fRequireEnabled fCheckSigTimeOnly
        fSkipCheckPingTimeAndRelay = some (false, 1, w) := by
    intro e he
    rw [CMasternodePing.CheckAndUpdate, he]
    rcases h with h | h
    · rw [if_pos (by omega)]
    · rw [if_neg (by omega), if_pos (by omega)]
  exact ⟨key env rfl, fun verify => key _ rfl⟩

/-- Witness of C8: a ping signed 3601 s ahead of the clock. -/
theorem Ping_CheckAndUpdate_skew_witness :
    CMasternodePing.CheckAndUpdate exampleEnv 1
      (exampleWorld [exampleNode 1 0 MASTERNODE_ENABLED 0 (examplePing 1 0 5 0)] [])
      (examplePing 1 0 5 1003601) 0 true false false =
      some (false, 1, exampleWorld [exampleNode 1 0 MASTERNODE_ENABLED 0 (examplePing 1 0 5 0)] []) :=
  (Ping_CheckAndUpdate_skew exampleEnv 0 _ (examplePing 1 0 5 1003601) 0 true false false
    (Or.inl (by decide))).1

/-- C9, refuted as stated: a ping over an unknown block hash whose signature
verifies but whose `sigTime` is 3601 s ahead of the clock is refused with the
penalty weight raised from 0 to 1. -/
theorem Ping_unknown_block_penalised :
    exampleChainEnv.mapBlockIndex (examplePing 1 0 9999 1003601).blockHash = none ∧
      exampleChainEnv.VerifyPingMessage [3] (examplePing 1 0 9999 1003601).vchSig
        (examplePing 1 0 9999 1003601).vin (examplePing 1 0 9999 1003601).blockHash
        (examplePing 1 0 9999 1003601).sigTime = true ∧
      CMasternodePing.CheckAndUpdate exampleChainEnv 2
        (exampleWorld [exampleNode 1 0 MASTERNODE_ENABLED 990000 (examplePing 1 0 1003 999000)] [])
        (examplePing 1 0 9999 1003601) 0 true false false =
      some (false, 1,
        exampleWorld [exampleNode 1 0 MASTERNODE_ENABLED 990000 (examplePing 1 0 1003 999000)] []) := by
  decide

/-- C9, amended: in the mode that is not verify-only, a ping whose block hash
is absent from the block index, or whose block is lower than the tip height
less the maximum reorganisation depth, is refused, nothing is changed and
nothing is relayed; the penalty weight is untouched when moreover `sigTime` is
inside the clock-skew window and the signature verifies under the key of the
entry.  A ping that passes the earlier checks and names a block at or above
that height (in particular at exactly tip - depth) is not refused on this
ground: it is stored as the last ping of the entry. -/
theorem Ping_old_block_rejected (env : Env) (k : Nat) (w : World) (mnp : CMasternodePing)
    (nDos : Int) (fR fS : Bool) :
    ((∀ b rest, env.mapBlockIndex mnp.blockHash = some (b :: rest) →
        b.nHeight < chainActive.Height env - env.MaxReorganizationDepth) →
      ∃ nDos2, CMasternodePing.CheckAndUpdate env (k + 2) w mnp nDos fR false fS =
          some (false, nDos2, w) ∧
        (¬ mnp.sigTime > env.GetAdjustedTime + 60 * 60 →
          ¬ mnp.sigTime ≤ env.GetAdjustedTime - 60 * 60 →
          (∀ i pmn, w.Find mnp.vin = some i → w.vMasternodes.get? i = some pmn →
            env.VerifyPingMessage pmn.pubKeyMasternode mnp.vchSig mnp.vin mnp.blockHash
              mnp.sigTime = true) →
          nDos2 = nDos)) ∧
    (∀ i pmn b rest,
      ¬ mnp.sigTime > env.GetAdjustedTime + 60 * 60 →
      ¬ mnp.sigTime ≤ env.GetAdjustedTime - 60 * 60 →
      w.Find mnp.vin = some i → w.vMasternodes.get? i = some pmn →
      pmn.protocolVersion ≥ env.GetMinMasternodePaymentsProto →
      (fR = true → env.IsEnabled pmn true = true) →
      (pmn.IsPingedWithin env (env.MASTERNODE_MIN_MNP_SECONDS - 60) mnp.sigTime = false ∨
        fS = true) →
      env.VerifyPingMessage pmn.pubKeyMasternode mnp.vchSig mnp.vin mnp.blockHash
        mnp.sigTime = true →
      env.mapBlockIndex mnp.blockHash = some (b :: rest) →
      chainActive.Height env - env.MaxReorganizationDepth ≤ b.nHeight →
      ∃ ok w2 pmn2, CMasternodePing.CheckAndUpdate env (k + 2) w mnp nDos fR false fS =
          some (ok, nDos, w2) ∧
        w2.vMasternodes.get? i = some pmn2 ∧ pmn2.lastPing = mnp ∧
        ok = env.IsEnabled pmn2 true) := by
  constructor
  · intro hb
    rw [CheckAndUpdate_eq]
    have := pingCheck_cases env w mnp nDos fR false fS
      (fun r => r.1 = false ∧ r.2.2 = w ∧
        (¬ mnp.sigTime > env.GetAdjustedTime + 60 * 60 →
          ¬ mnp.sigTime ≤ env.GetAdjustedTime - 60 * 60 →
          (∀ i pmn, w.Find mnp.vin = some i → w.vMasternodes.get? i = some pmn →
            env.VerifyPingMessage pmn.pubKeyMasternode mnp.vchSig mnp.vin mnp.blockHash
              mnp.sigTime = true) →
          r.2.1 = nDos))
      (fun hs => ⟨rfl, rfl, fun h1 h2 _ => by rcases hs with h | h <;> contradiction⟩)
      (fun hC => by simp at hC)
      (fun hC => by simp at hC)
      (fun i pmn hF hget hV => ⟨rfl, rfl, fun _ _ hv => by
        rw [hv i pmn hF hget] at hV
        simp at hV⟩)
      (fun _ _ _ => ⟨rfl, rfl, fun _ _ _ => rfl⟩)
      (fun _ _ _ i pmn b rest _ _ _ _ _ _ hB h7 => absurd (hb b rest hB) h7)
    generalize pingCheck env w mnp nDos fR false fS = r at this
    obtain ⟨ok, nDos2, w2⟩ := r
    obtain ⟨h1, h2, h3⟩ := this
    simp only at h1 h2 h3
    subst h1 h2
    exact ⟨nDos2, rfl, h3⟩
  · intro i pmn b rest h1 h2 hF hget h3 h4 h5 hV hB h7
    rw [CheckAndUpdate_eq, pingCheck_accept env w mnp nDos fR fS i pmn b rest h1 h2 hF hget h3 h4
      h5 hV hB (not_lt.mpr h7)]
    obtain ⟨g1, g2, g3⟩ := pingAccept_get env w i pmn mnp nDos fS hget
    generalize pingAccept env w i pmn mnp nDos fS = r at g1 g2 g3
    obtain ⟨ok, nDos2, w2⟩ := r
    simp only at g1 g2 g3
    subst g3
    exact ⟨ok, w2, _, rfl, g1, Check_lastPing env _ true _, g2⟩

/-- Witness of the amended C9: against a tip at height 3 and a depth of 1, a
ping over the block at height 1 is refused without penalty and without any
change, and a ping over the block at height 2 is stored. -/
theorem Ping_old_block_rejected_witness :
    CMasternodePing.CheckAndUpdate exampleChainEnv 2
        (exampleWorld [exampleNode 1 0 MASTERNODE_ENABLED 990000 (examplePing 1 0 1003 999000)] [])
        (examplePing 1 0 1001 999990) 0 true false false =
      some (false, 0,
        exampleWorld [exampleNode 1 0 MASTERNODE_ENABLED 990000 (examplePing 1 0 1003 999000)] []) ∧
    ∃ ok w2 pmn2, CMasternodePing.CheckAndUpdate exampleChainEnv 2
        (exampleWorld [exampleNode 1 0 MASTERNODE_ENABLED 990000 (examplePing 1 0 1003 999000)] [])
        (examplePing 1 0 1002 999990) 0 true false false = some (ok, 0, w2) ∧
      w2.vMasternodes.get? 0 = some pmn2 ∧ pmn2.lastPing = examplePing 1 0 1002 999990 ∧
      ok = exampleChainEnv.IsEnabled pmn2 true := by
  constructor
  · obtain ⟨nDos2, h, hn⟩ := (Ping_old_block_rejected exampleChainEnv 0
      (exampleWorld [exampleNode 1 0 MASTERNODE_ENABLED 990000 (examplePing 1 0 1003 999000)] [])
      (examplePing 1 0 1001 999990) 0 true false).1 (by
        intro b rest hb
        have : b = exampleBlocks.get ⟨2, by decide⟩ := by
          have h2 : exampleChainEnv.mapBlockIndex (examplePing 1 0 1001 999990).blockHash =
            some (exampleBlocks.drop 2) := by decide
          rw [h2] at hb
          simp only [Option.some.injEq] at hb
          have := congrArg List.head? hb
          simpa [exampleBlocks] using this.symm
        subst this
        decide)
    rw [h, hn (by decide) (by decide) (fun _ _ _ _ => rfl)]
  · exact (Ping_old_block_rejected exampleChainEnv 0
      (exampleWorld [exampleNode 1 0 MASTERNODE_ENABLED 990000 (examplePing 1 0 1003 999000)] [])
      (examplePing 1 0 1002 999990) 0 true false).2 0 _ (exampleBlocks.get ⟨1, by decide⟩)
      (exampleBlocks.drop 2) (by decide) (by decide) (by decide) rfl (by decide) (fun _ => rfl)
      (Or.inl (by decide)) rfl (by decide) (by decide)

/-! ## `CMasternode::GetLastPaid` -/

/-- C10: `GetLastPaid` inspects at most `trunc(1.25 * CountEnabled(tier))`
blocks, a prefix of the ancestry of the tip made of blocks of positive height,
and returns 0 when none of them has a payment-history entry giving the payee
of the node at least 2 votes; in particular it returns 0 without a tip and
when the enabled count is 0, and the payment history outside the inspected
blocks has no influence on the result. -/
theorem GetLastPaid_zero (env : Env) (m : CMasternode) :
    (GetLastPaid.inspected (m.nMnCount env) (chainActive.Tip env)).length ≤ (m.nMnCount env).toNat ∧
    GetLastPaid.inspected (m.nMnCount env) (chainActive.Tip env) <+: chainActive.Tip env ∧
    (∀ b ∈ GetLastPaid.inspected (m.nMnCount env) (chainActive.Tip env), 0 < b.nHeight) ∧
    (0 ≤ env.CountEnabled (env.LevelOf m) →
      4 * m.nMnCount env ≤ 5 * env.CountEnabled (env.LevelOf m) ∧
        5 * env.CountEnabled (env.LevelOf m) < 4 * m.nMnCount env + 4) ∧
    ((∀ b ∈ GetLastPaid.inspected (m.nMnCount env) (chainActive.Tip env),
        paidAt env (env.GetScriptForDestination m.pubKeyCollateralAddress) m.vin b = false) →
      m.GetLastPaid env = 0) ∧
    (chainActive.Tip env = [] → m.GetLastPaid env = 0) ∧
    (env.CountEnabled (env.LevelOf m) = 0 → m.GetLastPaid env = 0) ∧
    (∀ history : Int → Option (List Nat → CTxIn → Int → Bool),
      (∀ b ∈ GetLastPaid.inspected (m.nMnCount env) (chainActive.Tip env),
        paidAt { env with mapMasternodeBlocks := history }
            (env.GetScriptForDestination m.pubKeyCollateralAddress) m.vin b =
          paidAt env (env.GetScriptForDestination m.pubKeyCollateralAddress) m.vin b) →
      m.GetLastPaid { env with mapMasternodeBlocks := history } = m.GetLastPaid env) := by
  have hzero : (∀ b ∈ GetLastPaid.inspected (m.nMnCount env) (chainActive.Tip env),
        paidAt env (env.GetScriptForDestination m.pubKeyCollateralAddress) m.vin b = false) →
      m.GetLastPaid env = 0 := by
    intro h
    unfold CMasternode.GetLastPaid
    cases htip : chainActive.Tip env with
    | nil => rfl
    | cons tip anc =>
      dsimp only
      apply GetLastPaid.loop_zero
      rw [htip] at h
      simpa using h
  refine ⟨?_, ?_, ?_, ?_, hzero, ?_, ?_, ?_⟩
  · unfold GetLastPaid.inspected
    rw [List.length_take]
    exact Nat.min_le_left _ _
  · unfold GetLastPaid.inspected
    exact (List.take_prefix _ _).trans (List.takeWhile_prefix _)
  · intro b hb
    unfold GetLastPaid.inspected at hb
    have := List.mem_takeWhile_imp (List.mem_of_mem_take hb)
    simpa using this
  · intro h
    unfold CMasternode.nMnCount
    rw [Int.tdiv_eq_ediv (by omega) (by norm_num)]
    constructor <;> omega
  · intro h
    unfold CMasternode.GetLastPaid
    rw [h]
  · intro h
    apply hzero
    intro b hb
    unfold GetLastPaid.inspected CMasternode.nMnCount at hb
    rw [h] at hb
    simp at hb
  · intro history h
    exact GetLastPaid_congr _ env m rfl rfl rfl rfl h

/-- Witness of C10: with four enabled nodes and an empty payment history the
result on the example chain is 0. -/
theorem GetLastPaid_zero_witness :
    (exampleNode 1 0 MASTERNODE_ENABLED 0 (examplePing 1 0 5 0)).GetLastPaid exampleChainEnv = 0 :=
  (GetLastPaid_zero exampleChainEnv
    (exampleNode 1 0 MASTERNODE_ENABLED 0 (examplePing 1 0 5 0))).2.2.2.2.1 (by decide)

/-! ## `CMasternode::GetLastPaid`, the paid case -/

/-- The loop of `GetLastPaid` returns the time of the first paid block within
its remaining budget, plus the offset, and 0 when there is none. -/
theorem GetLastPaid.loop_eq_find (env : Env) (mnpayee : List Nat) (vin : CTxIn)
    (nOffset nMnCount : Int) :
    ∀ (blocks : BlockPtr) (n : Int),
      GetLastPaid.loop env mnpayee vin nOffset nMnCount blocks n =
        match (GetLastPaid.inspected (nMnCount - n) blocks).find? (paidAt env mnpayee vin) with
        | some b => (b.nTime : Int) + nOffset
        | none => 0
  | [], _ => by simp [GetLastPaid.loop, GetLastPaid.inspected]
  | b :: pprev, n => by
    unfold GetLastPaid.loop
    by_cases hpos : b.nHeight > 0
    · rw [if_pos hpos]
      by_cases hn : n ≥ nMnCount
      · rw [if_pos hn]
        have h0 : (nMnCount - n).toNat = 0 := by omega
        simp [GetLastPaid.inspected, h0]
      · rw [if_neg hn]
        obtain ⟨k, hk⟩ : ∃ k : Nat, (nMnCount - n).toNat = k + 1 :=
          ⟨(nMnCount - n).toNat - 1, by omega⟩
        have hk2 : (nMnCount - (n + 1)).toNat = k := by omega
        have hins : GetLastPaid.inspected (nMnCount - n) (b :: pprev) =
            b :: GetLastPaid.inspected (nMnCount - (n + 1)) pprev := by
          simp [GetLastPaid.inspected, List.takeWhile_cons, hpos, hk, hk2]
        rw [hins]
        by_cases hp : paidAt env mnpayee vin b = true
        · rw [if_pos hp, List.find?_cons_of_pos _ hp]
        · rw [if_neg hp, List.find?_cons_of_neg _ hp]
          cases pprev with
          | nil => simp [GetLastPaid.inspected]
          | cons c rest =>
            simp only [List.isEmpty_cons, Bool.false_eq_true, if_false]
            exact GetLastPaid.loop_eq_find env mnpayee vin nOffset nMnCount (c :: rest) (n + 1)
    · rw [if_neg hpos]
      simp [GetLastPaid.inspected, List.takeWhile_cons, hpos]

/-- The result of `GetLastPaid` is 0 or the time of a block of the ancestry of
the tip plus the offset. -/
theorem GetLastPaid_range (env : Env) (m : CMasternode) :
    m.GetLastPaid env = 0 ∨
      ∃ b ∈ chainActive.Tip env, m.GetLastPaid env = (b.nTime : Int) + m.nOffset env := by
  unfold CMasternode.GetLastPaid
  cases htip : chainActive.Tip env with
  | nil => exact Or.inl rfl
  | cons tip anc =>
    dsimp only
    rw [GetLastPaid.loop_eq_find]
    cases hf : (GetLastPaid.inspected (m.nMnCount env - 0) (tip :: anc)).find?
        (paidAt env (env.GetScriptForDestination m.pubKeyCollateralAddress) m.vin) with
    | none => exact Or.inl rfl
    | some b =>
      refine Or.inr ⟨b, ?_, rfl⟩
      have hb := List.mem_of_find?_eq_some hf
      unfold GetLastPaid.inspected at hb
      exact (List.takeWhile_prefix _).subset (List.mem_of_mem_take hb)

theorem nOffset_range (env : Env) (m : CMasternode) : 0 ≤ m.nOffset env ∧ m.nOffset env ≤ 149 := by
  unfold CMasternode.nOffset
  have : env.GetCompact (env.Hash (env.SerializeVinSigTime m.vin m.sigTime) % U256) % 2 ^ 32 % 150
      < 150 := Nat.mod_lt _ (by norm_num)
  omega

/-- C11: when some inspected block has a payment-history entry giving the payee
of the node at least 2 votes, `GetLastPaid` returns `t + offset`, where `t` is
the time of the first such block on the walk from the tip, the highest one
when heights decrease along the ancestry, and
`offset = GetCompact(Hash(vin ‖ sigTime)) mod 150` lies between 0 and 149 and
is the same for all nodes with the same `vin` and `sigTime`. -/
theorem GetLastPaid_paid (env : Env) (m : CMasternode)
    (hex : ∃ c ∈ GetLastPaid.inspected (m.nMnCount env) (chainActive.Tip env),
      paidAt env (env.GetScriptForDestination m.pubKeyCollateralAddress) m.vin c = true) :
    (∃ b ∈ GetLastPaid.inspected (m.nMnCount env) (chainActive.Tip env),
      paidAt env (env.GetScriptForDestination m.pubKeyCollateralAddress) m.vin b = true ∧
      m.GetLastPaid env = (b.nTime : Int) + m.nOffset env ∧
      ((chainActive.Tip env).Pairwise (fun x y => y.nHeight < x.nHeight) →
        ∀ c ∈ GetLastPaid.inspected (m.nMnCount env) (chainActive.Tip env),
          paidAt env (env.GetScriptForDestination m.pubKeyCollateralAddress) m.vin c = true →
          c.nHeight ≤ b.nHeight)) ∧
    m.nOffset env =
      ((env.GetCompact (env.Hash (env.SerializeVinSigTime m.vin m.sigTime) % U256) % 2 ^ 32 % 150
        : Nat) : Int) ∧
    0 ≤ m.nOffset env ∧ m.nOffset env ≤ 149 ∧
    (∀ m2 : CMasternode, m2.vin = m.vin → m2.sigTime = m.sigTime →
      m2.nOffset env = m.nOffset env) := by
  refine ⟨?_, rfl, ?_, ?_, ?_⟩
  · obtain ⟨c, hc, hpc⟩ := hex
    cases hf : (GetLastPaid.inspected (m.nMnCount env) (chainActive.Tip env)).find?
        (paidAt env (env.GetScriptForDestination m.pubKeyCollateralAddress) m.vin) with
    | none =>
      rw [List.find?_eq_none] at hf
      exact absurd hpc (hf c hc)
    | some b =>
      refine ⟨b, List.mem_of_find?_eq_some hf, List.find?_some hf, ?_, ?_⟩
      · unfold CMasternode.GetLastPaid
        cases htip : chainActive.Tip env with
        | nil =>
          rw [htip] at hc
          simp [GetLastPaid.inspected] at hc
        | cons tip anc =>
          dsimp only
          rw [GetLastPaid.loop_eq_find, sub_zero, ← htip, hf]
      · intro hpw d hd hpd
        obtain ⟨-, as, bs, hsplit, hnone⟩ := List.find?_eq_some.mp hf
        have hsub : (GetLastPaid.inspected (m.nMnCount env) (chainActive.Tip env)).Pairwise
            (fun x y => y.nHeight < x.nHeight) := by
          refine List.Pairwise.sublist ?_ hpw
          unfold GetLastPaid.inspected
          exact ((List.take_prefix _ _).trans (List.takeWhile_prefix _)).sublist
        rw [hsplit] at hd hsub
        rw [List.mem_append, List.mem_cons] at hd
        rcases hd with hd | hd | hd
        · have := hnone d hd
          rw [hpd] at this
          simp at this
        · rw [hd]
        · have h2 := (List.pairwise_append.mp hsub).2.1
          rw [List.pairwise_cons] at h2
          exact le_of_lt (h2.1 d hd)
  · unfold CMasternode.nOffset
    exact Int.ofNat_nonneg _
  · unfold CMasternode.nOffset
    have : env.GetCompact (env.Hash (env.SerializeVinSigTime m.vin m.sigTime) % U256) % 2 ^ 32 % 150
        < 150 := Nat.mod_lt _ (by norm_num)
    omega
  · intro m2 hv hs
    unfold CMasternode.nOffset
    rw [hv, hs]

/-- Witness of C11: the payee of the node has three votes at height 2 of the
example chain, within the scan bound of 5 blocks. -/
theorem GetLastPaid_paid_witness :
    ∃ b ∈ GetLastPaid.inspected
        ((exampleNode 1 0 MASTERNODE_ENABLED 0 (examplePing 1 0 5 0)).nMnCount examplePaidEnv)
        (chainActive.Tip examplePaidEnv),
      paidAt examplePaidEnv (examplePaidEnv.GetScriptForDestination
        (exampleNode 1 0 MASTERNODE_ENABLED 0 (examplePing 1 0 5 0)).pubKeyCollateralAddress)
        (exampleNode 1 0 MASTERNODE_ENABLED 0 (examplePing 1 0 5 0)).vin b = true ∧
      (exampleNode 1 0 MASTERNODE_ENABLED 0 (examplePing 1 0 5 0)).GetLastPaid examplePaidEnv =
        (b.nTime : Int) +
          (exampleNode 1 0 MASTERNODE_ENABLED 0 (examplePing 1 0 5 0)).nOffset examplePaidEnv ∧
      ((chainActive.Tip examplePaidEnv).Pairwise (fun x y => y.nHeight < x.nHeight) →
        ∀ c ∈ GetLastPaid.inspected
            ((exampleNode 1 0 MASTERNODE_ENABLED 0 (examplePing 1 0 5 0)).nMnCount examplePaidEnv)
            (chainActive.Tip examplePaidEnv),
          paidAt examplePaidEnv (examplePaidEnv.GetScriptForDestination
            (exampleNode 1 0 MASTERNODE_ENABLED 0 (examplePing 1 0 5 0)).pubKeyCollateralAddress)
            (exampleNode 1 0 MASTERNODE_ENABLED 0 (examplePing 1 0 5 0)).vin c = true →
          c.nHeight ≤ b.nHeight) :=
  (GetLastPaid_paid examplePaidEnv (exampleNode 1 0 MASTERNODE_ENABLED 0 (examplePing 1 0 5 0))
    ⟨exampleBlocks.get ⟨1, by decide⟩, by decide, by decide⟩).1

/-! ## `CMasternode::SecondsSincePayment` -/

/-- C12: with `sec` the adjusted time less `GetLastPaid()`, `SecondsSincePayment`
returns `sec` when `sec < 2592000` and otherwise `2592000 + c`, where
`c = GetCompact(Hash(vin ‖ sigTime))` is below `2 ^ 32`.  Hence the result is at
least 30 days exactly when `sec` is; the surrogate fits 64-bit signed
arithmetic, as do `sec` and the result when the clock is a 64-bit value not
within `2 ^ 33` of the least one and block times are 32-bit; and two never-paid
nodes with the same `vin` and `sigTime` get the same result. -/
theorem SecondsSincePayment_spec (env : Env) (m : CMasternode) :
    (env.GetAdjustedTime - m.GetLastPaid env < 2592000 →
      m.SecondsSincePayment env = env.GetAdjustedTime - m.GetLastPaid env) ∧
    (2592000 ≤ env.GetAdjustedTime - m.GetLastPaid env →
      m.SecondsSincePayment env = 2592000 +
        ((env.GetCompact (env.Hash (env.SerializeVinSigTime m.vin m.sigTime) % U256) % 2 ^ 32
          : Nat) : Int)) ∧
    env.GetCompact (env.Hash (env.SerializeVinSigTime m.vin m.sigTime) % U256) % 2 ^ 32 < 2 ^ 32 ∧
    (2592000 ≤ m.SecondsSincePayment env ↔ 2592000 ≤ env.GetAdjustedTime - m.GetLastPaid env) ∧
    (2592000 + ((env.GetCompact (env.Hash (env.SerializeVinSigTime m.vin m.sigTime) % U256)
        % 2 ^ 32 : Nat) : Int) < 2 ^ 63) ∧
    (-2 ^ 63 + 2 ^ 33 ≤ env.GetAdjustedTime → env.GetAdjustedTime < 2 ^ 63 →
      (∀ b ∈ chainActive.Tip env, b.nTime < 2 ^ 32) →
      -2 ^ 63 ≤ env.GetAdjustedTime - m.GetLastPaid env ∧
        env.GetAdjustedTime - m.GetLastPaid env < 2 ^ 63 ∧
        -2 ^ 63 ≤ m.SecondsSincePayment env ∧ m.SecondsSincePayment env < 2 ^ 63) ∧
    (∀ m2 : CMasternode, m2.vin = m.vin → m2.sigTime = m.sigTime →
      m.GetLastPaid env = 0 → m2.GetLastPaid env = 0 →
      m2.SecondsSincePayment env = m.SecondsSincePayment env) := by
  have hc : env.GetCompact (env.Hash (env.SerializeVinSigTime m.vin m.sigTime) % U256) % 2 ^ 32
      < 2 ^ 32 := Nat.mod_lt _ (by norm_num)
  have hdef : m.SecondsSincePayment env =
      if env.GetAdjustedTime - m.GetLastPaid env < 2592000 then
        env.GetAdjustedTime - m.GetLastPaid env
      else 2592000 +
        ((env.GetCompact (env.Hash (env.SerializeVinSigTime m.vin m.sigTime) % U256) % 2 ^ 32
          : Nat) : Int) := by
    unfold CMasternode.SecondsSincePayment
    norm_num
  refine ⟨?_, ?_, hc, ?_, ?_, ?_, ?_⟩
  · intro h
    rw [hdef, if_pos h]
  · intro h
    rw [hdef, if_neg (by omega)]
  · rw [hdef]
    split_ifs <;> omega
  · omega
  · intro h1 h2 ht
    have hr : 0 ≤ m.GetLastPaid env ∧ m.GetLastPaid env < 2 ^ 32 + 150 := by
      have ho := nOffset_range env m
      rcases GetLastPaid_range env m with h | ⟨b, hb, h⟩
      · rw [h]; omega
      · have := ht b hb
        rw [h]
        omega
    rw [hdef]
    split_ifs <;> omega
  · intro m2 hv hs h0 h20
    unfold CMasternode.SecondsSincePayment
    rw [h0, h20, hv, hs]

/-- Witness of C12: a never-paid node under a clock of 1000000 s gets the clock
itself. -/
theorem SecondsSincePayment_spec_witness :
    (exampleNode 1 0 MASTERNODE_ENABLED 0 (examplePing 1 0 5 0)).SecondsSincePayment
        exampleChainEnv =
      exampleChainEnv.GetAdjustedTime -
        (exampleNode 1 0 MASTERNODE_ENABLED 0 (examplePing 1 0 5 0)).GetLastPaid exampleChainEnv :=
  (SecondsSincePayment_spec exampleChainEnv
    (exampleNode 1 0 MASTERNODE_ENABLED 0 (examplePing 1 0 5 0))).1 (by decide)

/-! ## The constructors -/

/-- C13: round trip.  For every masternode `M` and every outcome of the
collateral lookup, the masternode built from the broadcast built from `M` has
the `vin`, address, both keys, signature, `sigTime`, last ping, protocol
version and `nLastDsq` of `M`; the lifecycle state and the deposit are derived
from the lookup (`ENABLED` with the value found, or `REMOVE` with 0), and the
remaining members take the fixed values the constructor assigns. -/
theorem roundtrip_identity (env : Env) (M : CMasternode) :
    (CMasternode.ofBroadcast env (CMasternodeBroadcast.ofMasternode M)).vin = M.vin ∧
    (CMasternode.ofBroadcast env (CMasternodeBroadcast.ofMasternode M)).addr = M.addr ∧
    (CMasternode.ofBroadcast env (CMasternodeBroadcast.ofMasternode M)).pubKeyCollateralAddress =
      M.pubKeyCollateralAddress ∧
    (CMasternode.ofBroadcast env (CMasternodeBroadcast.ofMasternode M)).pubKeyMasternode =
      M.pubKeyMasternode ∧
    (CMasternode.ofBroadcast env (CMasternodeBroadcast.ofMasternode M)).sig = M.sig ∧
    (CMasternode.ofBroadcast env (CMasternodeBroadcast.ofMasternode M)).sigTime = M.sigTime ∧
    (CMasternode.ofBroadcast env (CMasternodeBroadcast.ofMasternode M)).lastPing = M.lastPing ∧
    (CMasternode.ofBroadcast env (CMasternodeBroadcast.ofMasternode M)).protocolVersion =
      M.protocolVersion ∧
    (CMasternode.ofBroadcast env (CMasternodeBroadcast.ofMasternode M)).nLastDsq = M.nLastDsq ∧
    CMasternode.ofBroadcast env (CMasternodeBroadcast.ofMasternode M) =
      { M with
        activeState :=
          if (CMasternode.IsDepositCoins env M.vin 0).1 then MASTERNODE_ENABLED
          else MASTERNODE_REMOVE
        deposit :=
          if (CMasternode.IsDepositCoins env M.vin 0).1 then
            (CMasternode.IsDepositCoins env M.vin 0).2
          else 0
        cacheInputAge := 0
        cacheInputAgeBlock := 0
        unitTest := false
        allowFreeTx := true
        lastTimeChecked := 0 } :=
  ⟨rfl, rfl, rfl, rfl, rfl, rfl, rfl, rfl, rfl, rfl⟩

/-! ## Collateral tiers -/

/-- C14: `Level(amount, height)` is a total function that does not read the
height: one coin is tier 1, four coins are the unspecified tier 0 (so tier 2 or
unspecified), and every amount other than one coin is the unspecified tier 0
at every height. -/
theorem Level_spec (env : Env) (hcoin : env.COIN ≠ 0) :
    (∀ h : Int, CMasternode.Level env (1 * env.COIN) h = 1) ∧
    (∀ h : Int, CMasternode.Level env (4 * env.COIN) h = 0) ∧
    (∀ h : Int, CMasternode.Level env (4 * env.COIN) h = 2 ∨
      CMasternode.Level env (4 * env.COIN) h = 0) ∧
    (∀ (a h : Int), a ≠ 1 * env.COIN → CMasternode.Level env a h = 0) ∧
    (∀ (a h1 h2 : Int), CMasternode.Level env a h1 = CMasternode.Level env a h2) := by
  have h4 : ∀ h : Int, CMasternode.Level env (4 * env.COIN) h = 0 := by
    intro h
    unfold CMasternode.Level
    rw [if_neg (by omega)]
  refine ⟨?_, h4, fun h => Or.inr (h4 h), ?_, fun _ _ _ => rfl⟩
  · intro h
    unfold CMasternode.Level
    rw [if_pos rfl]
  · intro a h ha
    unfold CMasternode.Level
    rw [if_neg ha]

/-- Witness of C14 with a coin of 100000000 units. -/
theorem Level_spec_witness :
    CMasternode.Level exampleEnv 100000000 7 = 1 ∧ CMasternode.Level exampleEnv 400000000 7 = 0 :=
  ⟨(Level_spec exampleEnv (by decide)).1 7, (Level_spec exampleEnv (by decide)).2.1 7⟩

/-- C15: `IsDepositCoins(vin, amount)` returns true exactly when the prior
transaction is found, the output index is below its output count and `Level`
of the value of that output at the height of the active chain is not the
unspecified tier; it returns false when the transaction or the output is
unknown; on true the out-parameter is the value of the output, on false it is
left as it was. -/
theorem IsDepositCoins_spec (env : Env) (vin : CTxIn) (vin_val : Int) :
    ((CMasternode.IsDepositCoins env vin vin_val).1 = true ↔
      ∃ tx hashBlock, env.GetTransaction vin.prevout.hash = some (tx, hashBlock) ∧
        ∃ h : vin.prevout.n < tx.vout.length,
          CMasternode.Level env (tx.vout.get ⟨vin.prevout.n, h⟩).nValue (chainActive.Height env)
            ≠ 0) ∧
    (env.GetTransaction vin.prevout.hash = none →
      (CMasternode.IsDepositCoins env vin vin_val).1 = false) ∧
    (∀ tx hashBlock, env.GetTransaction vin.prevout.hash = some (tx, hashBlock) →
      ¬ vin.prevout.n < tx.vout.length → (CMasternode.IsDepositCoins env vin vin_val).1 = false) ∧
    ((CMasternode.IsDepositCoins env vin vin_val).1 = true →
      ∃ tx hashBlock, env.GetTransaction vin.prevout.hash = some (tx, hashBlock) ∧
        ∃ h : vin.prevout.n < tx.vout.length,
          (CMasternode.IsDepositCoins env vin vin_val).2 =
            (tx.vout.get ⟨vin.prevout.n, h⟩).nValue) ∧
    ((CMasternode.IsDepositCoins env vin vin_val).1 = false →
      (CMasternode.IsDepositCoins env vin vin_val).2 = vin_val) := by
  unfold CMasternode.IsDepositCoins
  cases hT : env.GetTransaction vin.prevout.hash with
  | none => simp
  | some r =>
    obtain ⟨tx, hashBlock⟩ := r
    dsimp only
    by_cases hn : vin.prevout.n < tx.vout.length
    · rw [dif_pos hn]
      by_cases hl : CMasternode.Level env (tx.vout.get ⟨vin.prevout.n, hn⟩).nValue
          (chainActive.Height env) = 0
      · have hd : CMasternode.IsDepositCoinsOfAmount env
            (tx.vout.get ⟨vin.prevout.n, hn⟩).nValue = false := by
          unfold CMasternode.IsDepositCoinsOfAmount
          rw [hl]
          rfl
        simp only [List.get_eq_getElem] at hd hl
        simp [hd, hn, hl]
      · have hd : CMasternode.IsDepositCoinsOfAmount env
            (tx.vout.get ⟨vin.prevout.n, hn⟩).nValue = true := by
          unfold CMasternode.IsDepositCoinsOfAmount
          simpa using hl
        simp only [List.get_eq_getElem] at hd hl
        simp [hd, hn, hl]
    · rw [dif_neg hn]
      simp [hn]

/-- Witness of C15: the first output of transaction 1 is one coin, a recognised
tier, and the second is four coins, which is not. -/
theorem IsDepositCoins_spec_witness :
    (CMasternode.IsDepositCoins exampleDepositEnv
        (exampleNode 1 0 MASTERNODE_ENABLED 0 (examplePing 1 0 5 0)).vin 7).1 = true ∧
      (CMasternode.IsDepositCoins exampleDepositEnv
        (exampleNode 1 1 MASTERNODE_ENABLED 0 (examplePing 1 1 5 0)).vin 7).2 = 7 :=
  ⟨(IsDepositCoins_spec exampleDepositEnv
      (exampleNode 1 0 MASTERNODE_ENABLED 0 (examplePing 1 0 5 0)).vin 7).1.mpr
      ⟨_, _, rfl, by decide, by decide⟩,
    (IsDepositCoins_spec exampleDepositEnv
      (exampleNode 1 1 MASTERNODE_ENABLED 0 (examplePing 1 1 5 0)).vin 7).2.2.2.2 (by decide)⟩

/-! ## `CMasternodeBroadcast::CheckAndUpdate` -/

/-- In verify-only mode the ping check changes nothing, and leaves the penalty
weight as it was when it returns true. -/
theorem pingCheck_verifyOnly (env : Env) (w : World) (mnp : CMasternodePing) (nDos : Int)
    (fR fS : Bool) :
    (pingCheck env w mnp nDos fR true fS).2.2 = w ∧
      ((pingCheck env w mnp nDos fR true fS).1 = true →
        (pingCheck env w mnp nDos fR true fS).2.1 = nDos) := by
  apply pingCheck_cases env w mnp nDos fR true fS
    (fun r => r.2.2 = w ∧ (r.1 = true → r.2.1 = nDos))
  · intro _; exact ⟨rfl, fun h => by simp at h⟩
  · intro _ _; exact ⟨rfl, fun _ => rfl⟩
  · intro _ _ _ _ _ _; exact ⟨rfl, fun _ => rfl⟩
  · intro _ _ _ _ _; exact ⟨rfl, fun h => by simp at h⟩
  · intro _ _ h; simp at h
  · intro _ _ h; simp at h

/-- The broadcast check with its embedded ping check in closed form. -/
theorem mnb_CheckAndUpdate_eq (env : Env) (k : Nat) (w : World) (mnb : CMasternodeBroadcast)
    (nDos : Int) :
    CMasternodeBroadcast.CheckAndUpdate env (k + 2) w mnb nDos =
      if mnb.sigTime > env.GetAdjustedTime + 60 * 60 then some (false, 1, w)
      else if env.pingIsEmpty mnb.lastPing then some (false, nDos, w)
      else if (pingCheck env w mnb.lastPing nDos false true
          env.defaultSkipCheckPingTimeAndRelay).1 = false then
        some (false, (pingCheck env w mnb.lastPing nDos false true
          env.defaultSkipCheckPingTimeAndRelay).2.1, w)
      else if mnb.protocolVersion < env.GetMinMasternodePaymentsProto then some (false, nDos, w)
      else if (env.GetScriptForDestination mnb.pubKeyCollateralAddress).length ≠ 25 then
        some (false, 100, w)
      else if (env.GetScriptForDestination mnb.pubKeyMasternode).length ≠ 25 then
        some (false, 100, w)
      else if !mnb.vin.scriptSig.isEmpty then some (false, nDos, w)
      else if !env.VerifyBroadcastMessage mnb.pubKeyCollateralAddress mnb.sig mnb.GetStrMessage then
        some (false, 100, w)
      else if !CMasternodeBroadcast.CheckDefaultPort env mnb.addr then some (false, nDos, w)
      else CMasternodeBroadcast.updateExisting env (k + 2) w mnb nDos := by
  unfold CMasternodeBroadcast.CheckAndUpdate
  rw [CheckAndUpdate_eq]
  obtain ⟨hw, hn⟩ := pingCheck_verifyOnly env w mnb.lastPing nDos false
    env.defaultSkipCheckPingTimeAndRelay
  generalize pingCheck env w mnb.lastPing nDos false true
    env.defaultSkipCheckPingTimeAndRelay = r at hw hn
  obtain ⟨ok, nDos2, w2⟩ := r
  simp only at hw hn
  subst hw
  cases ok
  · simp
  · have := hn rfl
    subst this
    simp

/-- What passing the first `n` ordered checks means, check by check. -/
theorem passesFirst_iff (env : Env) (w : World) (mnb : CMasternodeBroadcast) (nDos : Int) :
    (mnb.passesFirst env w nDos 1 = true ↔ ¬ mnb.sigTime > env.GetAdjustedTime + 60 * 60) ∧
    (mnb.passesFirst env w nDos 2 = true ↔ mnb.passesFirst env w nDos 1 = true ∧
      env.pingIsEmpty mnb.lastPing = false ∧
      (pingCheck env w mnb.lastPing nDos false true env.defaultSkipCheckPingTimeAndRelay).1 = true) ∧
    (mnb.passesFirst env w nDos 3 = true ↔ mnb.passesFirst env w nDos 2 = true ∧
      ¬ mnb.protocolVersion < env.GetMinMasternodePaymentsProto) ∧
    (mnb.passesFirst env w nDos 4 = true ↔ mnb.passesFirst env w nDos 3 = true ∧
      (env.GetScriptForDestination mnb.pubKeyCollateralAddress).length = 25 ∧
      (env.GetScriptForDestination mnb.pubKeyMasternode).length = 25) ∧
    (mnb.passesFirst env w nDos 5 = true ↔ mnb.passesFirst env w nDos 4 = true ∧
      mnb.vin.scriptSig.isEmpty = true) ∧
    (mnb.passesFirst env w nDos 6 = true ↔ mnb.passesFirst env w nDos 5 = true ∧
      env.VerifyBroadcastMessage mnb.pubKeyCollateralAddress mnb.sig mnb.GetStrMessage = true) ∧
    (mnb.passesFirst env w nDos 7 = true ↔ mnb.passesFirst env w nDos 6 = true ∧
      CMasternodeBroadcast.CheckDefaultPort env mnb.addr = true) := by
  simp only [CMasternodeBroadcast.passesFirst, CMasternodeBroadcast.orderedChecks, List.take,
    List.all_cons, List.all_nil, id, Bool.and_true, Bool.and_eq_true, Bool.not_eq_true',
    decide_eq_false_iff_not, decide_eq_true_eq]
  tauto

/-- A broadcast that passes the seven checks reaches the registry update. -/
theorem mnb_CheckAndUpdate_passed (env : Env) (k : Nat) (w : World) (mnb : CMasternodeBroadcast)
    (nDos : Int) (h : mnb.passesFirst env w nDos 7 = true) :
    CMasternodeBroadcast.CheckAndUpdate env (k + 2) w mnb nDos =
      CMasternodeBroadcast.updateExisting env (k + 2) w mnb nDos := by
  obtain ⟨p1, p2, p3, p4, p5, p6, p7⟩ := passesFirst_iff env w mnb nDos
  obtain ⟨h6, c7⟩ := p7.mp h
  obtain ⟨h5, c6⟩ := p6.mp h6
  obtain ⟨h4, c5⟩ := p5.mp h5
  obtain ⟨h3, c4a, c4b⟩ := p4.mp h4
  obtain ⟨h2, c3⟩ := p3.mp h3
  obtain ⟨h1, c2a, c2b⟩ := p2.mp h2
  have c1 := p1.mp h1
  rw [mnb_CheckAndUpdate_eq, if_neg c1, c2a, c2b, if_neg c3, c4a, c4b, c5, c6, c7]
  simp

/-- The method `Check` through a handle leaves the relay log as it was. -/
theorem World_Check_relayed (env : Env) (w : World) (i : Nat) (f : Bool) :
    (w.Check env i f).relayed = w.relayed := by
  unfold World.Check
  cases w.vMasternodes.get? i <;> rfl

/-- The check and the relay that follow an applied broadcast. -/
theorem checkAndRelay_eq (env : Env) (w : World) (i : Nat) (m : CMasternode)
    (mnb : CMasternodeBroadcast) (h : w.vMasternodes.get? i = some m) :
    CMasternodeBroadcast.checkAndRelay env w i mnb =
      some (if env.IsEnabled (m.Check env (env.tryLockMain w.nTryLock) env.defaultForceCheck) true
        then (w.Check env i env.defaultForceCheck).RelayInv
          (CInv.MSG_MASTERNODE_ANNOUNCE (env.mnbHash mnb))
        else w.Check env i env.defaultForceCheck) := by
  unfold CMasternodeBroadcast.checkAndRelay
  dsimp only
  rw [World_Check_get env w i m _ h]
  dsimp only
  split_ifs <;> rfl

/-- The registry update of the broadcast check on an enabled entry that is
older than the broadcast. -/
theorem updateExisting_enabled (env : Env) (k : Nat) (w : World) (mnb : CMasternodeBroadcast)
    (nDos : Int) (i : Nat) (M : CMasternode)
    (hF : w.Find mnb.vin = some i) (hM : w.vMasternodes.get? i = some M)
    (hs : M.sigTime < mnb.sigTime) (hen : env.IsEnabled M true = true) :
    CMasternodeBroadcast.updateExisting env (k + 3) w mnb nDos =
      if (M.pubKeyCollateralAddress == mnb.pubKeyCollateralAddress
          && !M.IsBroadcastedWithin env env.MASTERNODE_MIN_MNB_SECONDS) = true then
        match CMasternode.UpdateFromNewBroadcast env (k + 3) w i mnb with
        | none => none
        | some (true, w2) =>
          match CMasternodeBroadcast.checkAndRelay env w2 i mnb with
          | none => none
          | some w3 => some (true, nDos, w3.AddedMasternodeList env (env.mnbHash mnb))
        | some (false, w2) => some (true, nDos, w2.AddedMasternodeList env (env.mnbHash mnb))
      else some (true, nDos, w) := by
  unfold CMasternodeBroadcast.updateExisting
  rw [hF]
  dsimp only
  rw [hM]
  dsimp only
  rw [if_neg (not_le.mpr hs), hen]
  simp only [Bool.not_true, Bool.false_eq_true, if_false]
  try rfl

/-- C16: the checks of `CMasternodeBroadcast::CheckAndUpdate` are evaluated in
the order (1) to (7) and the call returns false at the first that fails,
whatever the later ones would give: with penalty weight 1 for (1), the weight
of the ping check for (2), 100 for (4) and for (6), and the weight left as it
was for (3), (5) and (7).  The state is unchanged on each of these failures. -/
theorem mnb_CheckAndUpdate_ordered (env : Env) (k : Nat) (w : World)
    (mnb : CMasternodeBroadcast) (nDos : Int) :
    (mnb.sigTime > env.GetAdjustedTime + 60 * 60 →
      CMasternodeBroadcast.CheckAndUpdate env (k + 3) w mnb nDos = some (false, 1, w)) ∧
    (mnb.passesFirst env w nDos 1 = true →
      (env.pingIsEmpty mnb.lastPing = true →
        CMasternodeBroadcast.CheckAndUpdate env (k + 3) w mnb nDos = some (false, nDos, w)) ∧
      (env.pingIsEmpty mnb.lastPing = false →
        (pingCheck env w mnb.lastPing nDos false true
          env.defaultSkipCheckPingTimeAndRelay).1 = false →
        CMasternodeBroadcast.CheckAndUpdate env (k + 3) w mnb nDos =
          some (false, (pingCheck env w mnb.lastPing nDos false true
            env.defaultSkipCheckPingTimeAndRelay).2.1, w))) ∧
    (mnb.passesFirst env w nDos 2 = true →
      mnb.protocolVersion < env.GetMinMasternodePaymentsProto →
      CMasternodeBroadcast.CheckAndUpdate env (k + 3) w mnb nDos = some (false, nDos, w)) ∧
    (mnb.passesFirst env w nDos 3 = true →
      ((env.GetScriptForDestination mnb.pubKeyCollateralAddress).length ≠ 25 ∨
        (env.GetScriptForDestination mnb.pubKeyMasternode).length ≠ 25) →
      CMasternodeBroadcast.CheckAndUpdate env (k + 3) w mnb nDos = some (false, 100, w)) ∧
    (mnb.passesFirst env w nDos 4 = true → mnb.vin.scriptSig ≠ [] →
      CMasternodeBroadcast.CheckAndUpdate env (k + 3) w mnb nDos = some (false, nDos, w)) ∧
    (mnb.passesFirst env w nDos 5 = true →
      env.VerifyBroadcastMessage mnb.pubKeyCollateralAddress mnb.sig mnb.GetStrMessage = false →
      CMasternodeBroadcast.CheckAndUpdate env (k + 3) w mnb nDos = some (false, 100, w)) ∧
    (mnb.passesFirst env w nDos 6 = true →
      CMasternodeBroadcast.CheckDefaultPort env mnb.addr = false →
      CMasternodeBroadcast.CheckAndUpdate env (k + 3) w mnb nDos = some (false, nDos, w)) := by
  obtain ⟨p1, p2, p3, p4, p5, p6, -⟩ := passesFirst_iff env w mnb nDos
  have heq := mnb_CheckAndUpdate_eq env (k + 1) w mnb nDos
  rw [show k + 1 + 2 = k + 3 from rfl] at heq
  rw [heq]
  refine ⟨?_, ?_, ?_, ?_, ?_, ?_, ?_⟩
  · intro h
    rw [if_pos h]
  · intro h1
    have c1 := p1.mp h1
    constructor
    · intro he
      rw [if_neg c1, he]
      simp
    · intro he hp
      rw [if_neg c1, he, hp]
      simp
  · intro h2 hf
    obtain ⟨h1, c2a, c2b⟩ := p2.mp h2
    have c1 := p1.mp h1
    rw [if_neg c1, c2a, c2b, if_pos hf]
    simp
  · intro h3 hf
    obtain ⟨h2, c3⟩ := p3.mp h3
    obtain ⟨h1, c2a, c2b⟩ := p2.mp h2
    have c1 := p1.mp h1
    rw [if_neg c1, c2a, c2b, if_neg c3]
    rcases hf with hf | hf
    · simp [hf]
    · by_cases hg : (env.GetScriptForDestination mnb.pubKeyCollateralAddress).length = 25
      · simp [hf, hg]
      · simp [hg]
  · intro h4 hf
    obtain ⟨h3, c4a, c4b⟩ := p4.mp h4
    obtain ⟨h2, c3⟩ := p3.mp h3
    obtain ⟨h1, c2a, c2b⟩ := p2.mp h2
    have c1 := p1.mp h1
    rw [if_neg c1, c2a, c2b, if_neg c3, c4a, c4b]
    simp [hf]
  · intro h5 hf
    obtain ⟨h4, c5⟩ := p5.mp h5
    obtain ⟨h3, c4a, c4b⟩ := p4.mp h4
    obtain ⟨h2, c3⟩ := p3.mp h3
    obtain ⟨h1, c2a, c2b⟩ := p2.mp h2
    have c1 := p1.mp h1
    rw [if_neg c1, c2a, c2b, if_neg c3, c4a, c4b, c5, hf]
    simp
  · intro h6 hf
    obtain ⟨h5, c6⟩ := p6.mp h6
    obtain ⟨h4, c5⟩ := p5.mp h5
    obtain ⟨h3, c4a, c4b⟩ := p4.mp h4
    obtain ⟨h2, c3⟩ := p3.mp h3
    obtain ⟨h1, c2a, c2b⟩ := p2.mp h2
    have c1 := p1.mp h1
    rw [if_neg c1, c2a, c2b, if_neg c3, c4a, c4b, c5, c6, hf]
    simp

/-- Witness of C16: a broadcast with a bad signature and a wrong port reports
the weight 100 of the signature check, the earlier of the two. -/
theorem mnb_CheckAndUpdate_ordered_witness :
    CMasternodeBroadcast.CheckAndUpdate exampleBroadcastEnv 3 (exampleWorld [] [])
      { exampleBroadcast 1 0 999000 (examplePing 1 0 1003 999990) 9999 with sig := [5] } 0 =
      some (false, 100, exampleWorld [] []) :=
  (mnb_CheckAndUpdate_ordered exampleBroadcastEnv 0 (exampleWorld [] [])
    { exampleBroadcast 1 0 999000 (examplePing 1 0 1003 999990) 9999 with sig := [5] } 0).2.2.2.2.2.1
    (by decide) (by decide)

/-- C17, refuted as stated: a broadcast that passes checks 1 to 6 and announces
port 9999 instead of the default 1945 is refused with the penalty weight left
at 0. -/
theorem mnb_wrong_port_no_penalty :
    (exampleBroadcast 1 0 999000 (examplePing 1 0 1003 999990) 9999).passesFirst
        exampleBroadcastEnv (exampleWorld [] []) 0 6 = true ∧
      (exampleBroadcast 1 0 999000 (examplePing 1 0 1003 999990) 9999).addr.port ≠
        exampleBroadcastEnv.GetDefaultPort ∧
      CMasternodeBroadcast.CheckAndUpdate exampleBroadcastEnv 3 (exampleWorld [] [])
        (exampleBroadcast 1 0 999000 (examplePing 1 0 1003 999990) 9999) 0 =
        some (false, 0, exampleWorld [] []) := by
  decide

/-- C17, amended: a broadcast that passes checks 1 to 6 and whose declared port
differs from the default port of the network is refused, the penalty weight is
left as it was (no weight is assigned for a wrong port) and nothing is
changed. -/
theorem mnb_wrong_port (env : Env) (k : Nat) (w : World) (mnb : CMasternodeBroadcast)
    (nDos : Int) (h6 : mnb.passesFirst env w nDos 6 = true)
    (hport : mnb.addr.port ≠ env.GetDefaultPort) :
    CMasternodeBroadcast.CheckAndUpdate env (k + 3) w mnb nDos = some (false, nDos, w) := by
  obtain ⟨p1, p2, p3, p4, p5, p6, -⟩ := passesFirst_iff env w mnb nDos
  obtain ⟨h5, c6⟩ := p6.mp h6
  obtain ⟨h4, c5⟩ := p5.mp h5
  obtain ⟨h3, c4a, c4b⟩ := p4.mp h4
  obtain ⟨h2, c3⟩ := p3.mp h3
  obtain ⟨h1, c2a, c2b⟩ := p2.mp h2
  have c1 := p1.mp h1
  have c7 : CMasternodeBroadcast.CheckDefaultPort env mnb.addr = false := by
    unfold CMasternodeBroadcast.CheckDefaultPort
    simp [hport]
  have heq := mnb_CheckAndUpdate_eq env (k + 1) w mnb nDos
  rw [show k + 1 + 2 = k + 3 from rfl] at heq
  rw [heq, if_neg c1, c2a, c2b, if_neg c3, c4a, c4b, c5, c6, c7]
  simp

/-- Witness of the amended C17 on the broadcast announcing port 9999. -/
theorem mnb_wrong_port_witness :
    CMasternodeBroadcast.CheckAndUpdate exampleBroadcastEnv 3 (exampleWorld [] [])
      (exampleBroadcast 1 0 999000 (examplePing 1 0 1003 999990) 9999) 5 =
      some (false, 5, exampleWorld [] []) :=
  mnb_wrong_port exampleBroadcastEnv 0 (exampleWorld [] [])
    (exampleBroadcast 1 0 999000 (examplePing 1 0 1003 999990) 9999) 5 (by decide) (by decide)

/-- C18: a broadcast `B` that passes checks 1 to 7 while the registry holds, for
its collateral reference, an entry `M` with `M.sigTime >= B.sigTime` is
refused: the call returns false, the penalty weight is left as it was, nothing
is relayed and nothing is changed. -/
theorem mnb_stale_rejected (env : Env) (k : Nat) (w : World) (mnb : CMasternodeBroadcast)
    (nDos : Int) (i : Nat) (M : CMasternode)
    (h7 : mnb.passesFirst env w nDos 7 = true)
    (hF : w.Find mnb.vin = some i) (hM : w.vMasternodes.get? i = some M)
    (hs : M.sigTime ≥ mnb.sigTime) :
    CMasternodeBroadcast.CheckAndUpdate env (k + 3) w mnb nDos = some (false, nDos, w) := by
  have heq := mnb_CheckAndUpdate_passed env (k + 1) w mnb nDos h7
  rw [show k + 1 + 2 = k + 3 from rfl] at heq
  rw [heq]
  unfold CMasternodeBroadcast.updateExisting
  rw [hF]
  dsimp only
  rw [hM]
  dsimp only
  rw [if_pos hs]

/-- Witness of C18: the entry is signed at 1000 and the broadcast at 999. -/
theorem mnb_stale_rejected_witness :
    CMasternodeBroadcast.CheckAndUpdate
      { exampleBroadcastEnv with GetAdjustedTime := 1100, GetTime := 1100 } 3
      (exampleWorld [exampleNode 1 0 MASTERNODE_ENABLED 1000 (examplePing 1 0 1003 1000)] [])
      (exampleBroadcast 1 0 999 (examplePing 1 0 1003 1050) 1945) 0 =
      some (false, 0,
        exampleWorld [exampleNode 1 0 MASTERNODE_ENABLED 1000 (examplePing 1 0 1003 1000)] []) :=
  mnb_stale_rejected { exampleBroadcastEnv with GetAdjustedTime := 1100, GetTime := 1100 } 0
    (exampleWorld [exampleNode 1 0 MASTERNODE_ENABLED 1000 (examplePing 1 0 1003 1000)] [])
    (exampleBroadcast 1 0 999 (examplePing 1 0 1003 1050) 1945) 0 0
    (exampleNode 1 0 MASTERNODE_ENABLED 1000 (examplePing 1 0 1003 1000))
    (by decide) (by decide) (by decide) (by decide)

/-- C19: let a broadcast `B` pass checks 1 to 7 and find an enabled entry `M`
with `M.sigTime < B.sigTime`.  The call returns true in every case.  When the
collateral key of `M` differs from that of `B`, or `M` was broadcast within
`MASTERNODE_MIN_MNB_SECONDS`, nothing is applied, relayed or changed.
Otherwise `B` is applied by `UpdateFromNewBroadcast`, `Check` is run on the
entry, which then carries the keys, `sigTime`, signature, protocol version and
address of `B`, and `B` is relayed exactly when the entry is enabled after
that `Check`.  Hence `B` is applied if and only if the keys are equal and `M`
was not broadcast within the interval. -/
theorem mnb_update_enabled (env : Env) (k : Nat) (w : World) (mnb : CMasternodeBroadcast)
    (nDos : Int) (i : Nat) (M : CMasternode)
    (h7 : mnb.passesFirst env w nDos 7 = true)
    (hF : w.Find mnb.vin = some i) (hM : w.vMasternodes.get? i = some M)
    (hs : M.sigTime < mnb.sigTime) (hen : env.IsEnabled M true = true) :
    (¬ (M.pubKeyCollateralAddress = mnb.pubKeyCollateralAddress ∧
        M.IsBroadcastedWithin env env.MASTERNODE_MIN_MNB_SECONDS = false) →
      CMasternodeBroadcast.CheckAndUpdate env (k + 3) w mnb nDos = some (true, nDos, w)) ∧
    (M.pubKeyCollateralAddress = mnb.pubKeyCollateralAddress ∧
        M.IsBroadcastedWithin env env.MASTERNODE_MIN_MNB_SECONDS = false →
      ∃ w2 m2 w3,
        CMasternode.UpdateFromNewBroadcast env (k + 3) w i mnb = some (true, w2) ∧
        w2.vMasternodes.get? i = some m2 ∧
        CMasternodeBroadcast.CheckAndUpdate env (k + 3) w mnb nDos = some (true, nDos, w3) ∧
        w3.vMasternodes.get? i =
          some (m2.Check env (env.tryLockMain w2.nTryLock) env.defaultForceCheck) ∧
        w3.relayed =
          (if env.IsEnabled (m2.Check env (env.tryLockMain w2.nTryLock) env.defaultForceCheck)
              true then
            CInv.MSG_MASTERNODE_ANNOUNCE (env.mnbHash mnb) :: w2.relayed
          else w2.relayed) ∧
        (m2.Check env (env.tryLockMain w2.nTryLock) env.defaultForceCheck).pubKeyMasternode =
          mnb.pubKeyMasternode ∧
        (m2.Check env (env.tryLockMain w2.nTryLock) env.defaultForceCheck).pubKeyCollateralAddress =
          mnb.pubKeyCollateralAddress ∧
        (m2.Check env (env.tryLockMain w2.nTryLock) env.defaultForceCheck).sigTime =
          mnb.sigTime ∧
        (m2.Check env (env.tryLockMain w2.nTryLock) env.defaultForceCheck).sig = mnb.sig ∧
        (m2.Check env (env.tryLockMain w2.nTryLock) env.defaultForceCheck).protocolVersion =
          mnb.protocolVersion ∧
        (m2.Check env (env.tryLockMain w2.nTryLock) env.defaultForceCheck).addr = mnb.addr) ∧
    ((∃ w3 m3, CMasternodeBroadcast.CheckAndUpdate env (k + 3) w mnb nDos = some (true, nDos, w3) ∧
        w3.vMasternodes.get? i = some m3 ∧ m3.sigTime = mnb.sigTime) ↔
      (M.pubKeyCollateralAddress = mnb.pubKeyCollateralAddress ∧
        M.IsBroadcastedWithin env env.MASTERNODE_MIN_MNB_SECONDS = false)) := by
  have heq := mnb_CheckAndUpdate_passed env (k + 1) w mnb nDos h7
  rw [show k + 1 + 2 = k + 3 from rfl] at heq
  rw [heq, updateExisting_enabled env k w mnb nDos i M hF hM hs hen]
  have hA : ¬ (M.pubKeyCollateralAddress = mnb.pubKeyCollateralAddress ∧
        M.IsBroadcastedWithin env env.MASTERNODE_MIN_MNB_SECONDS = false) →
      ¬ (M.pubKeyCollateralAddress == mnb.pubKeyCollateralAddress
          && !M.IsBroadcastedWithin env env.MASTERNODE_MIN_MNB_SECONDS) = true := by
    intro hc hb
    apply hc
    simpa using hb
  have hB : M.pubKeyCollateralAddress = mnb.pubKeyCollateralAddress ∧
        M.IsBroadcastedWithin env env.MASTERNODE_MIN_MNB_SECONDS = false →
      (M.pubKeyCollateralAddress == mnb.pubKeyCollateralAddress
          && !M.IsBroadcastedWithin env env.MASTERNODE_MIN_MNB_SECONDS) = true := by
    intro hc
    simpa using hc
  have happlied : M.pubKeyCollateralAddress = mnb.pubKeyCollateralAddress ∧
        M.IsBroadcastedWithin env env.MASTERNODE_MIN_MNB_SECONDS = false →
      ∃ w2 m2 w3,
        CMasternode.UpdateFromNewBroadcast env (k + 3) w i mnb = some (true, w2) ∧
        w2.vMasternodes.get? i = some m2 ∧
        (match CMasternode.UpdateFromNewBroadcast env (k + 3) w i mnb with
          | none => none
          | some (true, w2) =>
            match CMasternodeBroadcast.checkAndRelay env w2 i mnb with
            | none => none
            | some w3 => some (true, nDos, w3.AddedMasternodeList env (env.mnbHash mnb))
          | some (false, w2) => some (true, nDos, w2.AddedMasternodeList env (env.mnbHash mnb)))
          = some (true, nDos, w3) ∧
        w3.vMasternodes.get? i =
          some (m2.Check env (env.tryLockMain w2.nTryLock) env.defaultForceCheck) ∧
        w3.relayed =
          (if env.IsEnabled (m2.Check env (env.tryLockMain w2.nTryLock) env.defaultForceCheck)
              true then
            CInv.MSG_MASTERNODE_ANNOUNCE (env.mnbHash mnb) :: w2.relayed
          else w2.relayed) ∧
        (m2.Check env (env.tryLockMain w2.nTryLock) env.defaultForceCheck).pubKeyMasternode =
          mnb.pubKeyMasternode ∧
        (m2.Check env (env.tryLockMain w2.nTryLock) env.defaultForceCheck).pubKeyCollateralAddress =
          mnb.pubKeyCollateralAddress ∧
        (m2.Check env (env.tryLockMain w2.nTryLock) env.defaultForceCheck).sigTime =
          mnb.sigTime ∧
        (m2.Check env (env.tryLockMain w2.nTryLock) env.defaultForceCheck).sig = mnb.sig ∧
        (m2.Check env (env.tryLockMain w2.nTryLock) env.defaultForceCheck).protocolVersion =
          mnb.protocolVersion ∧
        (m2.Check env (env.tryLockMain w2.nTryLock) env.defaultForceCheck).addr = mnb.addr := by
    intro _
    obtain ⟨w2, m2, hu, hg, e1, e2, e3, e4, e5, e6, -⟩ :=
      UpdateFromNewBroadcast_newer env k w i M mnb hM hs
    obtain ⟨f1, f2, f3, f4, f5, f6, f7⟩ := sameIdentity_fields _ _
      (Check_sameIdentity env (env.tryLockMain w2.nTryLock) env.defaultForceCheck m2)
    have hg3 := World_Check_get env w2 i m2 env.defaultForceCheck hg
    have hr3 := World_Check_relayed env w2 i env.defaultForceCheck
    refine ⟨w2, m2,
      (if env.IsEnabled (m2.Check env (env.tryLockMain w2.nTryLock) env.defaultForceCheck) true
        then (w2.Check env i env.defaultForceCheck).RelayInv
          (CInv.MSG_MASTERNODE_ANNOUNCE (env.mnbHash mnb))
        else w2.Check env i env.defaultForceCheck).AddedMasternodeList env (env.mnbHash mnb),
      hu, hg, ?_, ?_, ?_, f4.trans e1, f3.trans e2, f6.trans e3, f5.trans e4,
      f7.trans e5, f2.trans e6⟩
    · rw [hu]
      dsimp only
      rw [checkAndRelay_eq env w2 i m2 mnb hg]
    · split_ifs
      · exact hg3
      · exact hg3
    · split_ifs
      · show CInv.MSG_MASTERNODE_ANNOUNCE (env.mnbHash mnb) :: (w2.Check env i _).relayed = _
        rw [hr3]
      · exact hr3
  refine ⟨fun hc => ?_, fun hc => ?_, ?_⟩
  · rw [if_neg (hA hc)]
  · rw [if_pos (hB hc)]
    exact happlied hc
  · constructor
    · rintro ⟨w3, m3, hr, hg, hst⟩
      by_contra hc
      rw [if_neg (hA hc)] at hr
      simp only [Option.some.injEq, Prod.mk.injEq, true_and] at hr
      rw [← hr, hM] at hg
      simp only [Option.some.injEq] at hg
      rw [← hg] at hst
      omega
    · intro hc
      rw [if_pos (hB hc)]
      obtain ⟨w2, m2, w3, -, -, hr, hg, -, -, -, hst, -⟩ := happlied hc
      exact ⟨w3, _, hr, hg, hst⟩

/-- Witness of C19: an enabled entry signed at 990000 receives a broadcast of
the same collateral key signed at 999000, which is applied. -/
theorem mnb_update_enabled_witness :
    ∃ w3 m3, CMasternodeBroadcast.CheckAndUpdate exampleBroadcastEnv 3
        (exampleWorld [exampleNode 1 0 MASTERNODE_ENABLED 990000 (examplePing 1 0 1003 999000)] [])
        (exampleBroadcast 1 0 999000 (examplePing 1 0 1003 999990) 1945) 0 = some (true, 0, w3) ∧
      w3.vMasternodes.get? 0 = some m3 ∧
      m3.sigTime = (exampleBroadcast 1 0 999000 (examplePing 1 0 1003 999990) 1945).sigTime :=
  (mnb_update_enabled exampleBroadcastEnv 0
    (exampleWorld [exampleNode 1 0 MASTERNODE_ENABLED 990000 (examplePing 1 0 1003 999000)] [])
    (exampleBroadcast 1 0 999000 (examplePing 1 0 1003 999990) 1945) 0 0
    (exampleNode 1 0 MASTERNODE_ENABLED 990000 (examplePing 1 0 1003 999000))
    (by decide) (by decide) (by decide) (by decide) (by decide)).2.2.mpr ⟨by decide, by decide⟩

/-- C20: a broadcast `B` that passes checks 1 to 7 and finds no entry for its
collateral reference, or finds an entry `M` with `M.sigTime < B.sigTime` that
is not enabled, is accepted without any effect: the call returns true, the
penalty weight is left as it was, nothing is relayed and the registry, `M`
included, is unchanged. -/
theorem mnb_not_enabled_accepted (env : Env) (k : Nat) (w : World) (mnb : CMasternodeBroadcast)
    (nDos : Int) (h7 : mnb.passesFirst env w nDos 7 = true) :
    (w.Find mnb.vin = none →
      CMasternodeBroadcast.CheckAndUpdate env (k + 3) w mnb nDos = some (true, nDos, w)) ∧
    (∀ i M, w.Find mnb.vin = some i → w.vMasternodes.get? i = some M →
      M.sigTime < mnb.sigTime → env.IsEnabled M true = false →
      CMasternodeBroadcast.CheckAndUpdate env (k + 3) w mnb nDos = some (true, nDos, w)) := by
  have heq := mnb_CheckAndUpdate_passed env (k + 1) w mnb nDos h7
  rw [show k + 1 + 2 = k + 3 from rfl] at heq
  rw [heq]
  constructor
  · intro hF
    unfold CMasternodeBroadcast.updateExisting
    rw [hF]
  · intro i M hF hM hs hen
    unfold CMasternodeBroadcast.updateExisting
    rw [hF]
    dsimp only
    rw [hM]
    dsimp only
    rw [if_neg (not_le.mpr hs), hen]
    simp

/-- Witness of C20: an expired entry signed at 990000 is left as it is by a
broadcast signed at 999000. -/
theorem mnb_not_enabled_accepted_witness :
    CMasternodeBroadcast.CheckAndUpdate exampleBroadcastEnv 3
      (exampleWorld [exampleNode 1 0 MASTERNODE_EXPIRED 990000 (examplePing 1 0 1003 999000)] [])
      (exampleBroadcast 1 0 999000 (examplePing 1 0 1003 999990) 1945) 0 =
      some (true, 0,
        exampleWorld [exampleNode 1 0 MASTERNODE_EXPIRED 990000 (examplePing 1 0 1003 999000)] []) :=
  (mnb_not_enabled_accepted exampleBroadcastEnv 0
    (exampleWorld [exampleNode 1 0 MASTERNODE_EXPIRED 990000 (examplePing 1 0 1003 999000)] [])
    (exampleBroadcast 1 0 999000 (examplePing 1 0 1003 999990) 1945) 0 (by decide)).2 0
    (exampleNode 1 0 MASTERNODE_EXPIRED 990000 (examplePing 1 0 1003 999000))
    (by decide) (by decide) (by decide) (by decide)

/-! ## The ping check in verify-only mode -/

/-- C21: for a ping whose `sigTime` is inside the one-hour clock-skew window,
the check in verify-only mode returns and leaves the whole state (registry,
seen caches, relayed items) as it was; when the registry holds an entry for the
collateral reference of the ping, the result and the penalty weight are those
of `VerifySignature` under the operational key stored in the entry, that is
the verdict of the signer and weight 33 when it is negative; when there is no
such entry the call returns true with the weight untouched, whatever the
signer would answer. -/
theorem Ping_verifyOnly (env : Env) (k : Nat) (w : World) (mnp : CMasternodePing) (nDos : Int)
    (fR fS : Bool)
    (h1 : ¬ mnp.sigTime > env.GetAdjustedTime + 60 * 60)
    (h2 : ¬ mnp.sigTime ≤ env.GetAdjustedTime - 60 * 60) :
    (∃ r, CMasternodePing.CheckAndUpdate env (k + 1) w mnp nDos fR true fS = some r ∧ r.2.2 = w) ∧
    (∀ i pmn, w.Find mnp.vin = some i → w.vMasternodes.get? i = some pmn →
      CMasternodePing.CheckAndUpdate env (k + 1) w mnp nDos fR true fS =
          some ((mnp.VerifySignature env pmn.pubKeyMasternode nDos).1,
            (mnp.VerifySignature env pmn.pubKeyMasternode nDos).2, w) ∧
        mnp.VerifySignature env pmn.pubKeyMasternode nDos =
          (env.VerifyPingMessage pmn.pubKeyMasternode mnp.vchSig mnp.vin mnp.blockHash mnp.sigTime,
            if env.VerifyPingMessage pmn.pubKeyMasternode mnp.vchSig mnp.vin mnp.blockHash
              mnp.sigTime = true then nDos else 33)) ∧
    (w.Find mnp.vin = none → ∀ verify : List Nat → List Nat → CTxIn → Nat → Int → Bool,
      CMasternodePing.CheckAndUpdate { env with VerifyPingMessage := verify } (k + 1) w mnp nDos
        fR true fS = some (true, nDos, w)) := by
  have hsome : ∀ i pmn, w.Find mnp.vin = some i → w.vMasternodes.get? i = some pmn →
      CMasternodePing.CheckAndUpdate env (k + 1) w mnp nDos fR true fS =
          some ((mnp.VerifySignature env pmn.pubKeyMasternode nDos).1,
            (mnp.VerifySignature env pmn.pubKeyMasternode nDos).2, w) := by
    intro i pmn hF hget
    rw [CMasternodePing.CheckAndUpdate, if_neg h1, if_neg h2]
    simp only [if_true, hF, hget]
  have hnone : w.Find mnp.vin = none → ∀ verify : List Nat → List Nat → CTxIn → Nat → Int → Bool,
      CMasternodePing.CheckAndUpdate { env with VerifyPingMessage := verify } (k + 1) w mnp nDos
        fR true fS = some (true, nDos, w) := by
    intro hF verify
    rw [CMasternodePing.CheckAndUpdate, if_neg h1, if_neg h2]
    simp only [if_true, hF]
  refine ⟨?_, ?_, hnone⟩
  · cases hF : w.Find mnp.vin with
    | none =>
      have := hnone hF env.VerifyPingMessage
      exact ⟨_, this, rfl⟩
    | some i =>
      obtain ⟨pmn, hget, -⟩ := Find_some w mnp.vin i hF
      exact ⟨_, hsome i pmn hF hget, rfl⟩
  · intro i pmn hF hget
    refine ⟨hsome i pmn hF hget, ?_⟩
    unfold CMasternodePing.VerifySignature
    cases env.VerifyPingMessage pmn.pubKeyMasternode mnp.vchSig mnp.vin mnp.blockHash mnp.sigTime <;>
      rfl

/-- Witness of C21: a ping signed 10 s ago for a registered collateral is
verified and nothing changes; for an unknown collateral the call returns true
under a signer that rejects everything. -/
theorem Ping_verifyOnly_witness :
    CMasternodePing.CheckAndUpdate exampleEnv 1
        (exampleWorld [exampleNode 1 0 MASTERNODE_ENABLED 990000 (examplePing 1 0 5 999000)] [])
        (examplePing 1 0 5 999990) 0 false true false =
      some (true, 0,
        exampleWorld [exampleNode 1 0 MASTERNODE_ENABLED 990000 (examplePing 1 0 5 999000)] []) ∧
    CMasternodePing.CheckAndUpdate { exampleEnv with VerifyPingMessage := fun _ _ _ _ _ => false } 1
        (exampleWorld [exampleNode 1 0 MASTERNODE_ENABLED 990000 (examplePing 1 0 5 999000)] [])
        (examplePing 2 0 5 999990) 0 false true false =
      some (true, 0,
        exampleWorld [exampleNode 1 0 MASTERNODE_ENABLED 990000 (examplePing 1 0 5 999000)] []) :=
  ⟨((Ping_verifyOnly exampleEnv 0
      (exampleWorld [exampleNode 1 0 MASTERNODE_ENABLED 990000 (examplePing 1 0 5 999000)] [])
      (examplePing 1 0 5 999990) 0 false false (by decide) (by decide)).2.1 0
      (exampleNode 1 0 MASTERNODE_ENABLED 990000 (examplePing 1 0 5 999000)) (by decide)
      (by decide)).1,
   (Ping_verifyOnly exampleEnv 0
      (exampleWorld [exampleNode 1 0 MASTERNODE_ENABLED 990000 (examplePing 1 0 5 999000)] [])
      (examplePing 2 0 5 999990) 0 false false (by decide) (by decide)).2.2 (by decide) _⟩

/-! ## The minimum interval between pings -/

/-- The closed form of the ping check does not read the minimum ping interval
when the interval test is skipped. -/
theorem pingCheck_skip_interval (env : Env) (x : Int) (w : World) (mnp : CMasternodePing)
    (nDos : Int) (fR : Bool) :
    pingCheck { env with MASTERNODE_MIN_MNP_SECONDS := x } w mnp nDos fR false true =
      pingCheck env w mnp nDos fR false true := by
  unfold pingCheck
  simp only [Bool.or_true]
  rfl

/-- C22, refuted as stated: a ping for a registered, protocol-compatible entry
that holds a ping 400 s older is refused with the penalty weight raised from 0
to 1, because its `sigTime` is an hour behind the clock. -/
theorem Ping_too_early_penalised :
    (exampleWorld [exampleNode 1 0 MASTERNODE_ENABLED 900000 (examplePing 1 0 5 996000)] []).Find
        (examplePing 1 0 5 996400).vin = some 0 ∧
      (exampleNode 1 0 MASTERNODE_ENABLED 900000 (examplePing 1 0 5 996000)).protocolVersion ≥
        exampleEnv.GetMinMasternodePaymentsProto ∧
      (exampleNode 1 0 MASTERNODE_ENABLED 900000 (examplePing 1 0 5 996000)).IsPingedWithin
        exampleEnv (exampleEnv.MASTERNODE_MIN_MNP_SECONDS - 60)
        (examplePing 1 0 5 996400).sigTime = true ∧
      CMasternodePing.CheckAndUpdate exampleEnv 2
        (exampleWorld [exampleNode 1 0 MASTERNODE_ENABLED 900000 (examplePing 1 0 5 996000)] [])
        (examplePing 1 0 5 996400) 0 false false false =
      some (false, 1,
        exampleWorld [exampleNode 1 0 MASTERNODE_ENABLED 900000 (examplePing 1 0 5 996000)] []) := by
  decide

/-- C22, amended: for a ping whose `sigTime` is inside the one-hour clock-skew
window, addressed to a registered entry of a compatible protocol version that
holds a ping recorded within `MASTERNODE_MIN_MNP_SECONDS - 60` seconds of the
`sigTime` of the new ping, the check that is not verify-only and does not skip
the interval test returns false, leaves the penalty weight as it was and
changes nothing (no relay, entry untouched).  With the interval test skipped
the outcome does not depend on the interval at all, and the ping is taken to
the closing steps (stored in the entry) when the remaining checks pass. -/
theorem Ping_too_early (env : Env) (k : Nat) (w : World) (mnp : CMasternodePing) (nDos : Int)
    (fR : Bool) (i : Nat) (pmn : CMasternode)
    (h1 : ¬ mnp.sigTime > env.GetAdjustedTime + 60 * 60)
    (h2 : ¬ mnp.sigTime ≤ env.GetAdjustedTime - 60 * 60)
    (hF : w.Find mnp.vin = some i) (hget : w.vMasternodes.get? i = some pmn)
    (hproto : pmn.protocolVersion ≥ env.GetMinMasternodePaymentsProto)
    (hrecent : pmn.IsPingedWithin env (env.MASTERNODE_MIN_MNP_SECONDS - 60) mnp.sigTime = true) :
    CMasternodePing.CheckAndUpdate env (k + 2) w mnp nDos fR false false = some (false, nDos, w) ∧
    (∀ x : Int,
      CMasternodePing.CheckAndUpdate { env with MASTERNODE_MIN_MNP_SECONDS := x } (k + 2) w mnp nDos
          fR false true =
        CMasternodePing.CheckAndUpdate env (k + 2) w mnp nDos fR false true) ∧
    ((fR = true → env.IsEnabled pmn true = true) →
      env.VerifyPingMessage pmn.pubKeyMasternode mnp.vchSig mnp.vin mnp.blockHash
        mnp.sigTime = true →
      ∀ b rest, env.mapBlockIndex mnp.blockHash = some (b :: rest) →
      ¬ b.nHeight < chainActive.Height env - env.MaxReorganizationDepth →
      ∃ ok w2 pmn2, CMasternodePing.CheckAndUpdate env (k + 2) w mnp nDos fR false true =
          some (ok, nDos, w2) ∧
        w2.vMasternodes.get? i = some pmn2 ∧ pmn2.lastPing = mnp) := by
  refine ⟨?_, ?_, ?_⟩
  · rw [CheckAndUpdate_eq]
    unfold pingCheck
    rw [if_neg h1, if_neg h2]
    simp only [hF, hget, Bool.false_eq_true, if_false, if_pos hproto, hrecent, Bool.not_true,
      Bool.or_false]
    by_cases h4 : (fR && !env.IsEnabled pmn true) = true
    · simp only [if_pos h4]
    · simp only [if_neg h4]
  · intro x
    rw [CheckAndUpdate_eq, CheckAndUpdate_eq, pingCheck_skip_interval]
  · intro h4 hV b rest hB h7
    rw [CheckAndUpdate_eq,
      pingCheck_accept env w mnp nDos fR true i pmn b rest h1 h2 hF hget hproto h4 (Or.inr rfl)
        hV hB h7]
    obtain ⟨g1, -, g3⟩ := pingAccept_get env w i pmn mnp nDos true hget
    exact ⟨(pingAccept env w i pmn mnp nDos true).1, (pingAccept env w i pmn mnp nDos true).2.2, _,
      congrArg some (Prod.ext rfl (Prod.ext g3 rfl)), g1, Check_lastPing env _ true _⟩

/-- Witness of the amended C22: a ping signed 400 s after the stored one and
inside the clock-skew window is refused without penalty. -/
theorem Ping_too_early_witness :
    CMasternodePing.CheckAndUpdate exampleEnv 2
        (exampleWorld [exampleNode 1 0 MASTERNODE_ENABLED 900000 (examplePing 1 0 5 999000)] [])
        (examplePing 1 0 5 999400) 0 false false false =
      some (false, 0,
        exampleWorld [exampleNode 1 0 MASTERNODE_ENABLED 900000 (examplePing 1 0 5 999000)] []) :=
  (Ping_too_early exampleEnv 0
    (exampleWorld [exampleNode 1 0 MASTERNODE_ENABLED 900000 (examplePing 1 0 5 999000)] [])
    (examplePing 1 0 5 999400) 0 false 0
    (exampleNode 1 0 MASTERNODE_ENABLED 900000 (examplePing 1 0 5 999000))
    (by decide) (by decide) (by decide) (by decide) (by decide) (by decide)).1

/-! ## Collateral references are stable under the ping check -/

/-- Overwriting an entry by a record with the same input keeps the list of
inputs of the registry. -/
theorem map_vin_set : ∀ (l : List CMasternode) (i : Nat) (m x : CMasternode),
    l.get? i = some m → x.vin = m.vin →
    (l.set i x).map (fun mn => mn.vin) = l.map (fun mn => mn.vin)
  | [], _, _, _, h, _ => by simp at h
  | a :: l, 0, m, x, h, hv => by
    simp only [List.get?_cons_zero, Option.some.injEq] at h
    subst h
    simp [hv]
  | a :: l, i + 1, m, x, h, hv => by
    simp only [List.get?_cons_succ] at h
    simp only [List.set_cons_succ, List.map_cons, List.cons.injEq, true_and]
    exact map_vin_set l i m x h hv

/-- The search of the registry reads the inputs of the entries only. -/
theorem findPos_congr_vins (v : CTxIn) : ∀ (l1 l2 : List CMasternode),
    l1.map (fun mn => mn.vin) = l2.map (fun mn => mn.vin) →
    findPos (fun mn => mn.vin.prevout == v.prevout) l1 =
      findPos (fun mn => mn.vin.prevout == v.prevout) l2
  | [], [], _ => rfl
  | [], _ :: _, h => by simp at h
  | _ :: _, [], h => by simp at h
  | a :: l1, b :: l2, h => by
    simp only [List.map_cons, List.cons.injEq] at h
    unfold findPos
    rw [h.1, findPos_congr_vins v l1 l2 h.2]

theorem Find_congr_vins (w1 w2 : World) (v : CTxIn)
    (h : w2.vMasternodes.map (fun mn => mn.vin) = w1.vMasternodes.map (fun mn => mn.vin)) :
    w2.Find v = w1.Find v :=
  findPos_congr_vins v _ _ h

theorem World_Check_vins (env : Env) (w : World) (i : Nat) (f : Bool) :
    (w.Check env i f).vMasternodes.map (fun mn => mn.vin) =
      w.vMasternodes.map (fun mn => mn.vin) := by
  unfold World.Check
  cases h : w.vMasternodes.get? i with
  | none => rfl
  | some m =>
    exact map_vin_set _ i m _ h (sameIdentity_fields _ _ (Check_sameIdentity env _ f m)).1

theorem storePing_relayed (env : Env) (w : World) (i : Nat) (pmn : CMasternode)
    (mnp : CMasternodePing) : (w.storePing env i pmn mnp).relayed = w.relayed := by
  unfold World.storePing
  dsimp only
  split_ifs <;> rfl

/-- The closing steps of the ping check keep the inputs of the registry. -/
theorem pingAccept_vins (env : Env) (w : World) (i : Nat) (pmn : CMasternode)
    (mnp : CMasternodePing) (nDos : Int) (fSkip : Bool) (h : w.vMasternodes.get? i = some pmn) :
    (pingAccept env w i pmn mnp nDos fSkip).2.2.vMasternodes.map (fun mn => mn.vin) =
      w.vMasternodes.map (fun mn => mn.vin) := by
  have h2 : (w.storePing env i pmn mnp).vMasternodes.map (fun mn => mn.vin) =
      w.vMasternodes.map (fun mn => mn.vin) := by
    rw [storePing_vMasternodes]
    exact map_vin_set _ i pmn _ h rfl
  unfold pingAccept
  dsimp only
  cases env.spork7
  · simp only [Bool.false_eq_true, if_false]
    split_ifs
    · rw [World_Check_vins, h2]
    · exact (World_Check_vins env _ i true).trans h2
    · rw [World_Check_vins, h2]
  · simp only [if_true]
    split_ifs
    · exact (World_Check_vins env _ i true).trans h2
    · exact (World_Check_vins env _ i true).trans h2
    · exact (World_Check_vins env _ i true).trans h2

/-- The ping check keeps the inputs of the registry. -/
theorem pingCheck_vins (env : Env) (w : World) (mnp : CMasternodePing) (nDos : Int)
    (fR fC fS : Bool) :
    (pingCheck env w mnp nDos fR fC fS).2.2.vMasternodes.map (fun mn => mn.vin) =
      w.vMasternodes.map (fun mn => mn.vin) := by
  apply pingCheck_cases env w mnp nDos fR fC fS
    (fun r => r.2.2.vMasternodes.map (fun mn => mn.vin) = w.vMasternodes.map (fun mn => mn.vin))
  · intro _; rfl
  · intro _ _; rfl
  · intro _ _ _ _ _ _; rfl
  · intro _ _ _ _ _; rfl
  · intro _ _ _; rfl
  · intro _ _ _ i pmn _ _ _ hget _ _ _ _ _ _
    exact pingAccept_vins env w i pmn mnp nDos fS hget

/-- The items relayed by the closing steps of the ping check: the broadcast of
the entry when the rebroadcast flag is active, then the ping when the entry is
enabled after its check and the relay is not skipped. -/
theorem pingAccept_relayed (env : Env) (w : World) (i : Nat) (pmn : CMasternode)
    (mnp : CMasternodePing) (nDos : Int) (fSkip : Bool) :
    (pingAccept env w i pmn mnp nDos fSkip).2.2.relayed =
      (if (pingAccept env w i pmn mnp nDos fSkip).1 = true ∧ fSkip = false then
          [CInv.MSG_MASTERNODE_PING (env.pingHash mnp)] else []) ++
        (if env.spork7 = true then
          [CInv.MSG_MASTERNODE_ANNOUNCE
            (env.mnbHash (CMasternodeBroadcast.ofMasternode { pmn with lastPing := mnp }))]
          else []) ++ w.relayed := by
  unfold pingAccept
  dsimp only
  cases env.spork7 <;> cases fSkip <;>
    cases env.IsEnabled (({ pmn with lastPing := mnp } : CMasternode).Check env
      (env.tryLockMain w.nTryLock) true) true <;>
    simp [World_Check_relayed, storePing_relayed, World.RelayInv]

/-! ## What an accepted ping guarantees -/

/-- C23: when the ping check that is not verify-only returns true, the registry
held before the call, and holds after it at the same place, an entry for the
collateral reference of the ping; the protocol version of the entry is at
least the minimum payments protocol; the entry after the call is the entry
with this ping stored, after its forced check, so its stored ping is this
ping, and it is enabled; the signature verified under the operational key of
the entry; the block hash of the ping is in the block index at a height that
is at least the tip height less the maximum reorganisation depth; and the
items relayed by the call contain the ping if and only if the relay was not
skipped. -/
theorem Ping_accepted (env : Env) (k : Nat) (w : World) (mnp : CMasternodePing) (nDos : Int)
    (fR fS : Bool) (nDos2 : Int) (w2 : World)
    (h : CMasternodePing.CheckAndUpdate env (k + 2) w mnp nDos fR false fS =
      some (true, nDos2, w2)) :
    ∃ i pmn pmn2 b rest, w.Find mnp.vin = some i ∧ w.vMasternodes.get? i = some pmn ∧
      pmn.protocolVersion ≥ env.GetMinMasternodePaymentsProto ∧
      w2.Find mnp.vin = some i ∧ w2.vMasternodes.get? i = some pmn2 ∧
      pmn2.protocolVersion = pmn.protocolVersion ∧
      pmn2.pubKeyMasternode = pmn.pubKeyMasternode ∧
      pmn2 = ({ pmn with lastPing := mnp } : CMasternode).Check env
        (env.tryLockMain w.nTryLock) true ∧
      pmn2.lastPing = mnp ∧ env.IsEnabled pmn2 true = true ∧
      env.VerifyPingMessage pmn.pubKeyMasternode mnp.vchSig mnp.vin mnp.blockHash
        mnp.sigTime = true ∧
      env.mapBlockIndex mnp.blockHash = some (b :: rest) ∧
      b.nHeight ≥ chainActive.Height env - env.MaxReorganizationDepth ∧
      (∃ items, w2.relayed = items ++ w.relayed ∧
        (CInv.MSG_MASTERNODE_PING (env.pingHash mnp) ∈ items ↔ fS = false)) ∧
      nDos2 = nDos := by
  rw [CheckAndUpdate_eq] at h
  simp only [Option.some.injEq] at h
  have main : (pingCheck env w mnp nDos fR false fS).1 = true →
      ∃ i pmn pmn2 b rest, w.Find mnp.vin = some i ∧ w.vMasternodes.get? i = some pmn ∧
        pmn.protocolVersion ≥ env.GetMinMasternodePaymentsProto ∧
        (pingCheck env w mnp nDos fR false fS).2.2.Find mnp.vin = some i ∧
        (pingCheck env w mnp nDos fR false fS).2.2.vMasternodes.get? i = some pmn2 ∧
        pmn2.protocolVersion = pmn.protocolVersion ∧
        pmn2.pubKeyMasternode = pmn.pubKeyMasternode ∧
        pmn2 = ({ pmn with lastPing := mnp } : CMasternode).Check env
          (env.tryLockMain w.nTryLock) true ∧
        pmn2.lastPing = mnp ∧ env.IsEnabled pmn2 true = true ∧
        env.VerifyPingMessage pmn.pubKeyMasternode mnp.vchSig mnp.vin mnp.blockHash
          mnp.sigTime = true ∧
        env.mapBlockIndex mnp.blockHash = some (b :: rest) ∧
        b.nHeight ≥ chainActive.Height env - env.MaxReorganizationDepth ∧
        (∃ items, (pingCheck env w mnp nDos fR false fS).2.2.relayed = items ++ w.relayed ∧
          (CInv.MSG_MASTERNODE_PING (env.pingHash mnp) ∈ items ↔ fS = false)) ∧
        (pingCheck env w mnp nDos fR false fS).2.1 = nDos := by
    apply pingCheck_cases env w mnp nDos fR false fS (fun r => r.1 = true →
      ∃ i pmn pmn2 b rest, w.Find mnp.vin = some i ∧ w.vMasternodes.get? i = some pmn ∧
        pmn.protocolVersion ≥ env.GetMinMasternodePaymentsProto ∧
        r.2.2.Find mnp.vin = some i ∧ r.2.2.vMasternodes.get? i = some pmn2 ∧
        pmn2.protocolVersion = pmn.protocolVersion ∧
        pmn2.pubKeyMasternode = pmn.pubKeyMasternode ∧
        pmn2 = ({ pmn with lastPing := mnp } : CMasternode).Check env
          (env.tryLockMain w.nTryLock) true ∧
        pmn2.lastPing = mnp ∧ env.IsEnabled pmn2 true = true ∧
        env.VerifyPingMessage pmn.pubKeyMasternode mnp.vchSig mnp.vin mnp.blockHash
          mnp.sigTime = true ∧
        env.mapBlockIndex mnp.blockHash = some (b :: rest) ∧
        b.nHeight ≥ chainActive.Height env - env.MaxReorganizationDepth ∧
        (∃ items, r.2.2.relayed = items ++ w.relayed ∧
          (CInv.MSG_MASTERNODE_PING (env.pingHash mnp) ∈ items ↔ fS = false)) ∧
        r.2.1 = nDos)
    · intro _ h; simp at h
    · intro h; simp at h
    · intro h; simp at h
    · intro _ _ _ _ _ h; simp at h
    · intro _ _ _ h; simp at h
    · intro _ _ _ i pmn b rest hF hget hproto _ _ hV hB h7 hok
      obtain ⟨g1, g2, g3⟩ := pingAccept_get env w i pmn mnp nDos fS hget
      have hr := pingAccept_relayed env w i pmn mnp nDos fS
      have hv := pingAccept_vins env w i pmn mnp nDos fS hget
      have hid := sameIdentity_fields _ _ (Check_sameIdentity env (env.tryLockMain w.nTryLock)
        true ({ pmn with lastPing := mnp } : CMasternode))
      refine ⟨i, pmn, _, b, rest, hF, hget, hproto, ?_, g1, hid.2.2.2.2.2.2, hid.2.2.2.1, rfl,
        Check_lastPing env _ true _, ?_, hV, hB, not_lt.mp h7, ⟨_, hr, ?_⟩, g3⟩
      · rw [Find_congr_vins w _ mnp.vin hv]
        exact hF
      · rw [← g2]
        exact hok
      · rw [hok]
        cases fS <;> cases env.spork7 <;> simp
  rw [h] at main
  exact main rfl

/-- Witness of C23: a ping over the block at height 2, signed 10 s ago for a
registered collateral, is accepted; the entry holds it and is enabled, and the
ping is the one item relayed. -/
theorem Ping_accepted_witness :
    ∃ pmn2,
      ({ exampleWorld
          [{ exampleNode 1 0 MASTERNODE_ENABLED 990000 (examplePing 1 0 1002 999990) with
            lastTimeChecked := 1000000 }] [] with
        relayed := [CInv.MSG_MASTERNODE_PING 999990]
        nTryLock := 1 } : World).vMasternodes.get? 0 = some pmn2 ∧
      pmn2.lastPing = examplePing 1 0 1002 999990 ∧
      exampleChainEnv.IsEnabled pmn2 true = true := by
  obtain ⟨i, pmn, pmn2, b, rest, hF, -, -, -, hget, -, -, -, hping, hen, -⟩ :=
    Ping_accepted exampleChainEnv 0
      (exampleWorld [exampleNode 1 0 MASTERNODE_ENABLED 990000 (examplePing 1 0 1003 999000)] [])
      (examplePing 1 0 1002 999990) 0 true false 0
      { exampleWorld
          [{ exampleNode 1 0 MASTERNODE_ENABLED 990000 (examplePing 1 0 1002 999990) with
            lastTimeChecked := 1000000 }] [] with
        relayed := [CInv.MSG_MASTERNODE_PING 999990]
        nTryLock := 1 } (by decide)
  have hi : i = 0 := by
    have h0 : (exampleWorld
        [exampleNode 1 0 MASTERNODE_ENABLED 990000 (examplePing 1 0 1003 999000)] []).Find
        (examplePing 1 0 1002 999990).vin = some 0 := by decide
    rw [h0] at hF
    exact (Option.some.inj hF).symm
  subst hi
  exact ⟨pmn2, hget, hping, hen⟩

/-! ## The rate limit and the decisions of `Check` -/

/-- C24: `Check` is rate-limited.  Called without force less than
`MASTERNODE_CHECK_SECONDS` after the last check, it returns the record as it
was, lifecycle state and time of the last check included.  Called with force
while no shutdown is requested, it runs whatever the time of the last check:
that time is set to the clock and the outcome is the one computed from any
other value of it.  Called without force once the interval has elapsed, it
does what the forced call does. -/
theorem Check_rate_limited (env : Env) (lockMain : Bool) (m : CMasternode) :
    (env.GetTime - m.lastTimeChecked < env.MASTERNODE_CHECK_SECONDS →
      m.Check env lockMain false = m) ∧
    (env.ShutdownRequested = false →
      (m.Check env lockMain true).lastTimeChecked = env.GetTime ∧
      ∀ t : Int, ({ m with lastTimeChecked := t } : CMasternode).Check env lockMain true =
        m.Check env lockMain true) ∧
    (¬ env.GetTime - m.lastTimeChecked < env.MASTERNODE_CHECK_SECONDS →
      m.Check env lockMain false = m.Check env lockMain true) := by
  refine ⟨?_, ?_, ?_⟩
  · intro hlim
    unfold CMasternode.Check
    simp only [Bool.not_false, Bool.true_and, decide_eq_true_eq, if_pos hlim, ite_self]
  · intro hshut
    constructor
    · unfold CMasternode.Check
      rw [hshut]
      simp only [Bool.false_eq_true, if_false, Bool.not_true, Bool.false_and,
        apply_ite CMasternode.lastTimeChecked, ite_self]
    · intro t
      unfold CMasternode.Check
      rw [hshut]
      simp only [Bool.false_eq_true, if_false, Bool.not_true, Bool.false_and]
      try rfl
  · intro hlim
    unfold CMasternode.Check
    simp only [Bool.not_false, Bool.true_and, decide_eq_true_eq, if_neg hlim, Bool.not_true,
      Bool.false_and, Bool.false_eq_true, if_false]

/-- Witness of C24: a node checked 3 s ago is left as it was by a call without
force, although its ping is too old for it to stay enabled. -/
theorem Check_rate_limited_witness :
    ({ exampleNode 1 0 MASTERNODE_ENABLED 900000 (examplePing 1 0 5 900000) with
        lastTimeChecked := 999997 } : CMasternode).Check exampleEnv true false =
      { exampleNode 1 0 MASTERNODE_ENABLED 900000 (examplePing 1 0 5 900000) with
        lastTimeChecked := 999997 } :=
  (Check_rate_limited exampleEnv true
    { exampleNode 1 0 MASTERNODE_ENABLED 900000 (examplePing 1 0 5 900000) with
      lastTimeChecked := 999997 }).1 (by decide)

/-- C25: when `Check` runs (no shutdown; forced or past the rate limit) on a
node that is not `VIN_SPENT` and whose broadcast `sigTime` is within
`MN_WINNER_MINIMUM_AGE` of the clock, the record after the call is the record
before it with the time of the last check set and the state `ACTIVE`: neither
the stored ping, nor the validity of the collateral, nor the chain lock is
consulted. -/
theorem Check_just_announced (env : Env) (lockMain forceCheck : Bool) (m : CMasternode)
    (hshut : env.ShutdownRequested = false)
    (hrun : forceCheck = true ∨
      ¬ (env.GetTime - m.lastTimeChecked < env.MASTERNODE_CHECK_SECONDS))
    (hs : m.activeState ≠ MASTERNODE_VIN_SPENT)
    (hb : m.IsBroadcastedWithin env env.MN_WINNER_MINIMUM_AGE = true) :
    m.Check env lockMain forceCheck =
        { m with lastTimeChecked := env.GetTime, activeState := MASTERNODE_ACTIVE } ∧
      ∀ (ping : CMasternodePing) (valid acceptable : CTxIn → Bool) (empty : CMasternodePing → Bool)
        (lock : Bool),
        (({ m with lastPing := ping } : CMasternode).Check
          { env with
            InputCheckingTxValid := valid
            AcceptableInputs := acceptable
            pingIsEmpty := empty } lock forceCheck).activeState = MASTERNODE_ACTIVE := by
  have hgate : (!forceCheck &&
      decide (env.GetTime - m.lastTimeChecked < env.MASTERNODE_CHECK_SECONDS)) = false := by
    rcases hrun with h | h
    · simp [h]
    · simp [h]
  have key : ∀ (env : Env) (l : Bool) (m : CMasternode), env.ShutdownRequested = false →
      (!forceCheck &&
        decide (env.GetTime - m.lastTimeChecked < env.MASTERNODE_CHECK_SECONDS)) = false →
      m.activeState ≠ MASTERNODE_VIN_SPENT →
      m.IsBroadcastedWithin env env.MN_WINNER_MINIMUM_AGE = true →
      m.Check env l forceCheck =
        { m with lastTimeChecked := env.GetTime, activeState := MASTERNODE_ACTIVE } := by
    intro env l m hshut hgate hs hb
    unfold CMasternode.Check
    rw [hshut, hgate]
    simp only [Bool.false_eq_true, if_false]
    rw [if_neg hs, if_pos (show CMasternode.IsBroadcastedWithin env
      { m with lastTimeChecked := env.GetTime } env.MN_WINNER_MINIMUM_AGE = true from hb)]
  exact ⟨key env lockMain m hshut hgate hs hb, fun ping valid acceptable empty lock =>
    congrArg CMasternode.activeState
      (key { env with
          InputCheckingTxValid := valid
          AcceptableInputs := acceptable
          pingIsEmpty := empty } lock { m with lastPing := ping } hshut hgate hs hb)⟩

/-- Witness of C25: a node announced 100 s ago that holds no usable ping is
moved from `EXPIRED` to `ACTIVE` by a forced check. -/
theorem Check_just_announced_witness :
    (exampleNode 1 0 MASTERNODE_EXPIRED 999900 (examplePing 1 0 5 0)).Check exampleEnv true true =
      { exampleNode 1 0 MASTERNODE_EXPIRED 999900 (examplePing 1 0 5 0) with
        lastTimeChecked := 1000000, activeState := MASTERNODE_ACTIVE } :=
  (Check_just_announced exampleEnv true true _ rfl (Or.inl rfl) (by decide) (by decide)).1

/-- C26: when `Check` runs on a node that is not `VIN_SPENT`, is outside the
just-announced window and holds a ping within the expiration window (the
expiration window being no longer than the removal window), the state after
the call is `ENABLED` in unit-test mode; otherwise it is `VIN_SPENT` when the
input-checking transaction is invalid, else the state before the call when the
chain lock is not acquired, else `VIN_SPENT` when the inputs are not
acceptable, else `ENABLED`. -/
theorem Check_collateral (env : Env) (lockMain forceCheck : Bool) (m : CMasternode)
    (hshut : env.ShutdownRequested = false)
    (hrun : forceCheck = true ∨
      ¬ (env.GetTime - m.lastTimeChecked < env.MASTERNODE_CHECK_SECONDS))
    (hwin : env.MASTERNODE_EXPIRATION_SECONDS ≤ env.MASTERNODE_REMOVAL_SECONDS)
    (hs : m.activeState ≠ MASTERNODE_VIN_SPENT)
    (hb : m.IsBroadcastedWithin env env.MN_WINNER_MINIMUM_AGE = false)
    (hp : m.IsPingedWithin env env.MASTERNODE_EXPIRATION_SECONDS env.GetAdjustedTime = true) :
    (m.Check env lockMain forceCheck).activeState =
      (if m.unitTest = true then MASTERNODE_ENABLED
        else if env.InputCheckingTxValid m.vin = false then MASTERNODE_VIN_SPENT
        else if lockMain = false then m.activeState
        else if env.AcceptableInputs m.vin = false then MASTERNODE_VIN_SPENT
        else MASTERNODE_ENABLED) := by
  have hgate : (!forceCheck &&
      decide (env.GetTime - m.lastTimeChecked < env.MASTERNODE_CHECK_SECONDS)) = false := by
    rcases hrun with h | h
    · simp [h]
    · simp [h]
  have hr := IsPingedWithin_mono env m _ _ env.GetAdjustedTime hwin hp
  rw [Check_activeState, hshut, hgate, hb, hr, hp]
  simp only [Bool.false_eq_true, if_false, if_neg hs, Bool.not_true]
  cases m.unitTest <;> cases env.InputCheckingTxValid m.vin <;> cases lockMain <;>
    cases env.AcceptableInputs m.vin <;> simp

/-- Witness of C26: a node with a ping 1000 s old whose inputs are acceptable
stays `EXPIRED` when the chain lock is not acquired and becomes `ENABLED` when
it is. -/
theorem Check_collateral_witness :
    ((exampleNode 1 0 MASTERNODE_EXPIRED 900000 (examplePing 1 0 5 999000)).Check
        exampleEnv false true).activeState = MASTERNODE_EXPIRED ∧
      ((exampleNode 1 0 MASTERNODE_EXPIRED 900000 (examplePing 1 0 5 999000)).Check
        exampleEnv true true).activeState = MASTERNODE_ENABLED :=
  ⟨Check_collateral exampleEnv false true _ rfl (Or.inl rfl) (by decide) (by decide) (by decide)
      (by decide),
    Check_collateral exampleEnv true true _ rfl (Or.inl rfl) (by decide) (by decide) (by decide)
      (by decide)⟩

/-! ## `CMasternodeBroadcast::CheckInputsAndAdd` -/

/-- The removal reads the collateral reference of its argument only. -/
theorem Remove_congr (w : World) (v1 v2 : CTxIn) (h : v1.prevout = v2.prevout) :
    w.Remove v1 = w.Remove v2 := by
  unfold World.Remove World.Find
  rw [h]

/-- The removal inserts nothing and touches nothing but the registry. -/
theorem Remove_frame (w : World) (v : CTxIn) :
    (w.Remove v).vMasternodes.Sublist w.vMasternodes ∧ (w.Remove v).relayed = w.relayed ∧
      (w.Remove v).nTryLock = w.nTryLock ∧ (w.Remove v).hotColdEnabled = w.hotColdEnabled ∧
      (w.Remove v).mapSeenMasternodeBroadcast = w.mapSeenMasternodeBroadcast ∧
      (w.Remove v).mapSeenSyncMNB = w.mapSeenSyncMNB ∧
      (w.Remove v).mapSeenMasternodePing = w.mapSeenMasternodePing := by
  unfold World.Remove
  cases w.Find v with
  | none => exact ⟨List.Sublist.refl _, rfl, rfl, rfl, rfl, rfl, rfl⟩
  | some i => exact ⟨List.eraseIdx_sublist _ _, rfl, rfl, rfl, rfl, rfl, rfl⟩

/-- The admission check with its embedded ping check in closed form. -/
theorem CheckInputsAndAdd_closed (env : Env) (k : Nat) (w : World) (mnb : CMasternodeBroadcast)
    (nDoS : Int) :
    CMasternodeBroadcast.CheckInputsAndAdd env (k + 2) w mnb nDoS =
      if (env.fMasterNode && mnb.vin.prevout == env.activeMasternodeVin.prevout
          && mnb.pubKeyMasternode == env.activeMasternodePubKey) = true then some (true, nDoS, w)
      else if env.pingIsEmpty mnb.lastPing then some (false, nDoS, w)
      else if (pingCheck env w mnb.lastPing nDoS false true
          env.defaultSkipCheckPingTimeAndRelay).1 = false then
        some (false, (pingCheck env w mnb.lastPing nDoS false true
          env.defaultSkipCheckPingTimeAndRelay).2.1, w)
      else
        match w.Find mnb.vin with
        | none => mnb.checkInputs env (k + 2) w nDoS
        | some i =>
          match w.vMasternodes.get? i with
          | none => none
          | some pmn =>
            if env.IsEnabled pmn true then some (true, nDoS, w)
            else mnb.checkInputs env (k + 2) (w.Remove pmn.vin) nDoS := by
  unfold CMasternodeBroadcast.CheckInputsAndAdd
  rw [CheckAndUpdate_eq]
  obtain ⟨hw, hn⟩ := pingCheck_verifyOnly env w mnb.lastPing nDoS false
    env.defaultSkipCheckPingTimeAndRelay
  generalize pingCheck env w mnb.lastPing nDoS false true
    env.defaultSkipCheckPingTimeAndRelay = r at hw hn
  obtain ⟨ok, nDoS2, w2⟩ := r
  simp only at hw hn
  subst hw
  cases ok
  · simp
  · have := hn rfl
    subst this
    simp
    try rfl

/-- A broadcast that passes the preliminaries is taken to the checks of its
collateral input, the entry of its reference, if any, having been removed. -/
theorem CheckInputsAndAdd_passed (env : Env) (k : Nat) (w : World) (mnb : CMasternodeBroadcast)
    (nDoS : Int) (h : mnb.passesPreliminaries env w nDoS = true) :
    CMasternodeBroadcast.CheckInputsAndAdd env (k + 2) w mnb nDoS =
      mnb.checkInputs env (k + 2) (w.Remove mnb.vin) nDoS := by
  unfold CMasternodeBroadcast.passesPreliminaries at h
  simp only [Bool.and_eq_true, Bool.not_eq_true'] at h
  obtain ⟨⟨⟨h1, h2⟩, h3⟩, h4⟩ := h
  have c1 : ¬ (env.fMasterNode && mnb.vin.prevout == env.activeMasternodeVin.prevout
      && mnb.pubKeyMasternode == env.activeMasternodePubKey) = true := by
    rw [h1]; simp
  have c3 : ¬ (pingCheck env w mnb.lastPing nDoS false true
      env.defaultSkipCheckPingTimeAndRelay).1 = false := by
    rw [h3]; simp
  rw [CheckInputsAndAdd_closed, if_neg c1, h2]
  simp only [Bool.false_eq_true, if_false]
  rw [if_neg c3]
  cases hF : w.Find mnb.vin with
  | none =>
    simp only
    unfold World.Remove
    rw [hF]
  | some i =>
    obtain ⟨pmn, hget, hprev⟩ := Find_some w mnb.vin i hF
    simp only [hF, hget, Bool.not_eq_true'] at h4
    simp only [hget, h4, Bool.false_eq_true, if_false]
    rw [Remove_congr w pmn.vin mnb.vin hprev]

/-- A broadcast that does not pass the preliminaries leaves the state as it
was. -/
theorem CheckInputsAndAdd_early (env : Env) (k : Nat) (w : World) (mnb : CMasternodeBroadcast)
    (nDoS : Int) (h : mnb.passesPreliminaries env w nDoS = false) :
    ∃ ok nd, CMasternodeBroadcast.CheckInputsAndAdd env (k + 2) w mnb nDoS = some (ok, nd, w) := by
  rw [CheckInputsAndAdd_closed]
  by_cases h1 : (env.fMasterNode && mnb.vin.prevout == env.activeMasternodeVin.prevout
      && mnb.pubKeyMasternode == env.activeMasternodePubKey) = true
  · exact ⟨_, _, if_pos h1⟩
  rw [if_neg h1]
  cases h2 : env.pingIsEmpty mnb.lastPing
  swap
  · exact ⟨_, _, if_pos rfl⟩
  simp only [Bool.false_eq_true, if_false]
  by_cases h3 : (pingCheck env w mnb.lastPing nDoS false true
      env.defaultSkipCheckPingTimeAndRelay).1 = false
  · exact ⟨_, _, if_pos h3⟩
  rw [if_neg h3]
  unfold CMasternodeBroadcast.passesPreliminaries at h
  simp only [Bool.not_eq_false] at h3
  simp only [Bool.not_eq_true] at h1
  rw [h1, h2, h3] at h
  simp only [Bool.not_false, Bool.and_self, Bool.true_and] at h
  cases hF : w.Find mnb.vin with
  | none => simp [hF] at h
  | some i =>
    obtain ⟨pmn, hget, -⟩ := Find_some w mnb.vin i hF
    simp only [hF, hget, Bool.not_eq_false'] at h
    simp only [hget, h, if_true]
    exact ⟨_, _, rfl⟩

/-- After `erase` the map has no entry under the key and keeps every other
entry. -/
theorem mapErase_spec {β : Type} (k : Nat) (l : List (Nat × β)) :
    (mapErase k l).any (fun e => e.1 == k) = false ∧
      ∀ e : Nat × β, e.1 ≠ k → (e ∈ mapErase k l ↔ e ∈ l) := by
  unfold mapErase
  constructor
  · rw [List.any_eq_false]
    intro e he
    have := (List.mem_filter.mp he).2
    simpa using this
  · intro e hk
    rw [List.mem_filter]
    simp [hk]

/-- C27: a broadcast that passes the preliminaries of `CheckInputsAndAdd` and
whose input-checking transaction is valid, when either the chain lock is not
acquired, or the lock is acquired, the collateral is acceptable to chain and
mempool and its age is below `MASTERNODE_MIN_CONFIRMATIONS`: the call returns
false with the penalty weight as it was; afterwards neither seen-broadcast
cache has an entry under the hash of the broadcast, their other entries are
kept, no masternode has been inserted (the registry is the one before the call,
less the stale entry of the reference) and nothing has been relayed. -/
theorem mnb_unconfirmed_collateral (env : Env) (k : Nat) (w : World)
    (mnb : CMasternodeBroadcast) (nDoS : Int)
    (hpre : mnb.passesPreliminaries env w nDoS = true)
    (hvalid : env.InputCheckingTxValid mnb.vin = true)
    (hfail : env.tryLockMain w.nTryLock = false ∨
      (env.tryLockMain w.nTryLock = true ∧ env.AcceptableInputs mnb.vin = true ∧
        env.GetInputAge mnb.vin < env.MASTERNODE_MIN_CONFIRMATIONS)) :
    ∃ w2, CMasternodeBroadcast.CheckInputsAndAdd env (k + 2) w mnb nDoS = some (false, nDoS, w2) ∧
      w2.mapSeenMasternodeBroadcast.any (fun e => e.1 == env.mnbHash mnb) = false ∧
      w2.mapSeenSyncMNB.any (fun e => e.1 == env.mnbHash mnb) = false ∧
      (∀ e, e.1 ≠ env.mnbHash mnb →
        (e ∈ w2.mapSeenMasternodeBroadcast ↔ e ∈ w.mapSeenMasternodeBroadcast)) ∧
      (∀ e, e.1 ≠ env.mnbHash mnb → (e ∈ w2.mapSeenSyncMNB ↔ e ∈ w.mapSeenSyncMNB)) ∧
      w2.vMasternodes = (w.Remove mnb.vin).vMasternodes ∧
      w2.vMasternodes.Sublist w.vMasternodes ∧ w2.relayed = w.relayed := by
  obtain ⟨hsub, hrel, hlock, -, hmb, hsync, -⟩ := Remove_frame w mnb.vin
  have key : mnb.checkInputs env (k + 2) (w.Remove mnb.vin) nDoS =
      some (false, nDoS,
        ({ w.Remove mnb.vin with nTryLock := (w.Remove mnb.vin).nTryLock + 1 } : World).eraseSeen
          (env.mnbHash mnb)) := by
    unfold CMasternodeBroadcast.checkInputs
    rw [hvalid, hlock]
    rcases hfail with hl | ⟨hl, ha, hage⟩
    · simp [hl]
    · simp [hl, ha, hage]
  rw [CheckInputsAndAdd_passed env k w mnb nDoS hpre, key]
  refine ⟨_, rfl, ?_, ?_, ?_, ?_, rfl, hsub, hrel⟩
  · exact (mapErase_spec _ _).1
  · exact (mapErase_spec _ _).1
  · intro e he
    rw [← hmb]
    exact (mapErase_spec _ _).2 e he
  · intro e he
    rw [← hsync]
    exact (mapErase_spec _ _).2 e he

/-- Witness of C27: a broadcast whose collateral has one confirmation where two
are required is refused without penalty and dropped from both caches. -/
theorem mnb_unconfirmed_collateral_witness :
    ∃ w2, CMasternodeBroadcast.CheckInputsAndAdd
        { exampleAdmissionEnv with GetInputAge := fun _ => 1 } 2
        { exampleWorld [] [] with
          mapSeenMasternodeBroadcast :=
            [(990007, exampleBroadcast 1 0 990000 (examplePing 1 0 1003 999990) 1945)]
          mapSeenSyncMNB := [(990007, 1), (6, 2)] }
        (exampleBroadcast 1 0 990000 (examplePing 1 0 1003 999990) 1945) 0 =
        some (false, 0, w2) ∧
      w2.mapSeenMasternodeBroadcast.any (fun e => e.1 == 990007) = false ∧
      w2.mapSeenSyncMNB.any (fun e => e.1 == 990007) = false ∧
      ((6, 2) ∈ w2.mapSeenSyncMNB) ∧ w2.relayed = [] := by
  obtain ⟨w2, h, h1, h2, -, h4, -, -, h7⟩ := mnb_unconfirmed_collateral
    { exampleAdmissionEnv with GetInputAge := fun _ => 1 } 0
    { exampleWorld [] [] with
      mapSeenMasternodeBroadcast :=
        [(990007, exampleBroadcast 1 0 990000 (examplePing 1 0 1003 999990) 1945)]
      mapSeenSyncMNB := [(990007, 1), (6, 2)] }
    (exampleBroadcast 1 0 990000 (examplePing 1 0 1003 999990) 1945) 0
    (by decide) (by decide) (Or.inr ⟨by decide, by decide, by decide⟩)
  exact ⟨w2, h, h1, h2, (h4 (6, 2) (by decide)).mpr (by decide), h7⟩

/-- The insertion steps return, given depth for the ping check. -/
theorem addNew_total (env : Env) (k : Nat) (w : World) (mnb : CMasternodeBroadcast)
    (nDoS : Int) : ∃ r, mnb.addNew env (k + 2) w nDoS = some r := by
  unfold CMasternodeBroadcast.addNew
  dsimp only
  rw [CheckAndUpdate_eq]
  generalize pingCheck env _ _ nDoS true false true = r
  obtain ⟨ok, nd, w2⟩ := r
  cases ok
  · exact ⟨_, rfl⟩
  · dsimp only
    split_ifs <;> exact ⟨_, rfl⟩

/-- The test of `sigTime` when the block of the collateral transaction and the
block of its last required confirmation are found. -/
theorem badSigTime_found (env : Env) (mnb : CMasternodeBroadcast) (tx : CTransaction)
    (hashBlock : Nat) (pMNIndex pConfIndex : CBlockIndex) (rest rest2 : List CBlockIndex)
    (hT : env.GetTransaction mnb.vin.prevout.hash = some (tx, hashBlock))
    (hB : env.mapBlockIndex hashBlock = some (pMNIndex :: rest))
    (hC : chainActive.atHeight env (pMNIndex.nHeight + env.MASTERNODE_MIN_CONFIRMATIONS - 1) =
      pConfIndex :: rest2) :
    mnb.badSigTime env = some (decide ((pConfIndex.nTime : Int) > mnb.sigTime)) := by
  unfold CMasternodeBroadcast.badSigTime
  simp only [hT, hB, hC]

/-- The checks of the collateral input refuse a broadcast whose `sigTime` is
refused, at the latest at that test, and change neither the registry nor the
relayed items. -/
theorem checkInputs_badSigTime (env : Env) (fuel : Nat) (w : World) (mnb : CMasternodeBroadcast)
    (nDoS : Int) (hbad : mnb.badSigTime env = some true) :
    ∃ nd w2, mnb.checkInputs env fuel w nDoS = some (false, nd, w2) ∧
      w2.vMasternodes = w.vMasternodes ∧ w2.relayed = w.relayed ∧
      w2.hotColdEnabled = w.hotColdEnabled := by
  unfold CMasternodeBroadcast.checkInputs
  rw [hbad]
  dsimp only
  split_ifs <;> exact ⟨_, _, rfl, rfl, rfl, rfl⟩

/-- The checks of the collateral input return when the test of `sigTime`
does. -/
theorem checkInputs_total (env : Env) (k : Nat) (w : World) (mnb : CMasternodeBroadcast)
    (nDoS : Int) (b : Bool) (hbad : mnb.badSigTime env = some b) :
    ∃ r, mnb.checkInputs env (k + 2) w nDoS = some r := by
  unfold CMasternodeBroadcast.checkInputs
  rw [hbad]
  dsimp only
  cases b
  · split_ifs
    · exact ⟨_, rfl⟩
    · exact ⟨_, rfl⟩
    · exact ⟨_, rfl⟩
    · exact ⟨_, rfl⟩
    · exact addNew_total env k _ mnb nDoS
  · split_ifs <;> exact ⟨_, rfl⟩

/-- C29: let the collateral transaction of a broadcast be in a block of the
block index, and let the active chain have a block at the height of that
block plus `MASTERNODE_MIN_CONFIRMATIONS - 1`.  Then `CheckInputsAndAdd`
returns, and when `sigTime` is earlier than the time of that second block the
broadcast is not admitted: the registry after the call is the registry before
it, or that registry less the stale entry of the reference; nothing is
relayed, the local node is not activated, and a result true leaves the state
untouched.  Hence a call after which the registry holds a node it did not hold
before has `sigTime` not earlier than that block time. -/
theorem mnb_backdated (env : Env) (k : Nat) (w : World) (mnb : CMasternodeBroadcast) (nDoS : Int)
    (tx : CTransaction) (hashBlock : Nat) (pMNIndex pConfIndex : CBlockIndex)
    (rest rest2 : List CBlockIndex)
    (hT : env.GetTransaction mnb.vin.prevout.hash = some (tx, hashBlock))
    (hB : env.mapBlockIndex hashBlock = some (pMNIndex :: rest))
    (hC : chainActive.atHeight env (pMNIndex.nHeight + env.MASTERNODE_MIN_CONFIRMATIONS - 1) =
      pConfIndex :: rest2) :
    ∃ r, CMasternodeBroadcast.CheckInputsAndAdd env (k + 2) w mnb nDoS = some r ∧
      (mnb.sigTime < (pConfIndex.nTime : Int) →
        (r.2.2.vMasternodes = w.vMasternodes ∨
          r.2.2.vMasternodes = (w.Remove mnb.vin).vMasternodes) ∧
        r.2.2.relayed = w.relayed ∧ r.2.2.hotColdEnabled = w.hotColdEnabled ∧
        (r.1 = true → r.2.2 = w)) ∧
      ((∃ m, m ∈ r.2.2.vMasternodes ∧ m ∉ w.vMasternodes) →
        (pConfIndex.nTime : Int) ≤ mnb.sigTime) := by
  have hbad := badSigTime_found env mnb tx hashBlock pMNIndex pConfIndex rest rest2 hT hB hC
  have main : ∃ r, CMasternodeBroadcast.CheckInputsAndAdd env (k + 2) w mnb nDoS = some r ∧
      (mnb.sigTime < (pConfIndex.nTime : Int) →
        (r.2.2.vMasternodes = w.vMasternodes ∨
          r.2.2.vMasternodes = (w.Remove mnb.vin).vMasternodes) ∧
        r.2.2.relayed = w.relayed ∧ r.2.2.hotColdEnabled = w.hotColdEnabled ∧
        (r.1 = true → r.2.2 = w)) := by
    cases hpre : mnb.passesPreliminaries env w nDoS
    · obtain ⟨ok, nd, h⟩ := CheckInputsAndAdd_early env k w mnb nDoS hpre
      exact ⟨_, h, fun _ => ⟨Or.inl rfl, rfl, rfl, fun _ => rfl⟩⟩
    · rw [CheckInputsAndAdd_passed env k w mnb nDoS hpre]
      obtain ⟨r, hr⟩ := checkInputs_total env k (w.Remove mnb.vin) mnb nDoS _ hbad
      refine ⟨r, hr, fun hlt => ?_⟩
      have hb2 : mnb.badSigTime env = some true := by
        rw [hbad]
        simp [hlt]
      obtain ⟨nd, w2, h2, g1, g2, g3⟩ :=
        checkInputs_badSigTime env (k + 2) (w.Remove mnb.vin) mnb nDoS hb2
      rw [hr] at h2
      simp only [Option.some.injEq] at h2
      subst h2
      obtain ⟨-, hrel, -, hhc, -⟩ := Remove_frame w mnb.vin
      exact ⟨Or.inr g1, g2.trans hrel, g3.trans hhc, fun h => by simp at h⟩
  obtain ⟨r, hr, hlt⟩ := main
  refine ⟨r, hr, hlt, ?_⟩
  rintro ⟨m, hm, hnm⟩
  by_contra hcon
  obtain ⟨hreg, -⟩ := hlt (not_le.mp hcon)
  rcases hreg with h | h
  · rw [h] at hm
    exact hnm hm
  · rw [h] at hm
    exact hnm ((Remove_frame w mnb.vin).1.subset hm)

/-- Witness of C29: the collateral is in the block at height 1 and needs two
confirmations, the block at height 2 has time 501200; a broadcast signed at
501199 is refused and the registry stays empty. -/
theorem mnb_backdated_witness :
    ∃ r, CMasternodeBroadcast.CheckInputsAndAdd exampleAdmissionEnv 2 (exampleWorld [] [])
        (exampleBroadcast 1 0 501199 (examplePing 1 0 1003 999990) 1945) 0 = some r ∧
      r.2.2.vMasternodes = [] := by
  obtain ⟨r, hr, hlt, -⟩ := mnb_backdated exampleAdmissionEnv 0 (exampleWorld [] [])
    (exampleBroadcast 1 0 501199 (examplePing 1 0 1003 999990) 1945) 0
    { vout := [{ nValue := 100000000, scriptPubKey := [] },
      { nValue := 400000000, scriptPubKey := [] }] } 1001
    { nHeight := 1, hashBlock := 1001, nTime := 500600 }
    { nHeight := 2, hashBlock := 1002, nTime := 501200 }
    [{ nHeight := 0, hashBlock := 1000, nTime := 500000 }]
    [{ nHeight := 1, hashBlock := 1001, nTime := 500600 },
      { nHeight := 0, hashBlock := 1000, nTime := 500000 }]
    (by decide) (by decide) (by decide)
  refine ⟨r, hr, ?_⟩
  rcases (hlt (by decide)).1 with h | h
  · exact h
  · exact h

/-! ## Rollback of an admission -/

theorem map_vin_eraseIdx : ∀ (l : List CMasternode) (i : Nat),
    (l.eraseIdx i).map (fun mn => mn.vin) = (l.map (fun mn => mn.vin)).eraseIdx i
  | [], _ => rfl
  | _ :: _, 0 => rfl
  | a :: l, i + 1 => by
    simp only [List.eraseIdx_cons_succ, List.map_cons, List.cons.injEq, true_and]
    exact map_vin_eraseIdx l i

/-- The search of a list extended by a matching record, when no earlier record
matches, finds the added record. -/
theorem findPos_append_new (p : CMasternode → Bool) (m : CMasternode) (hp : p m = true) :
    ∀ l : List CMasternode, findPos p l = none → findPos p (l ++ [m]) = some l.length
  | [], _ => by simp [findPos, hp]
  | a :: l, h => by
    unfold findPos at h
    by_cases ha : p a = true
    · rw [if_pos ha] at h
      simp at h
    · rw [if_neg ha] at h
      have hl : findPos p l = none := by
        cases hf : findPos p l with
        | none => rfl
        | some j => rw [hf] at h; simp at h
      simp only [List.cons_append, List.length_cons]
      unfold findPos
      rw [if_neg ha, findPos_append_new p m hp l hl]
      rfl

/-- Removing a reference from a registry in which it was the last entry added,
and the only one, leaves a registry without it. -/
theorem Remove_added (w1 wp : World) (mn : CMasternode)
    (hnew : w1.Find mn.vin = none)
    (hv : wp.vMasternodes.map (fun m => m.vin) = (w1.vMasternodes ++ [mn]).map (fun m => m.vin)) :
    (wp.Remove mn.vin).Find mn.vin = none ∧ (wp.Remove mn.vin).relayed = wp.relayed ∧
      (wp.Remove mn.vin).hotColdEnabled = wp.hotColdEnabled := by
  have hF : wp.Find mn.vin = some w1.vMasternodes.length := by
    unfold World.Find
    rw [findPos_congr_vins mn.vin _ _ hv]
    exact findPos_append_new _ mn (by simp) _ hnew
  unfold World.Remove
  rw [hF]
  refine ⟨?_, rfl, rfl⟩
  unfold World.Find
  dsimp only
  rw [← hnew]
  unfold World.Find
  apply findPos_congr_vins
  rw [map_vin_eraseIdx, hv, List.map_append,
    List.eraseIdx_append_of_length_le (by simp)]
  simp

/-- A broadcast that passes the checks of its collateral input is taken to the
insertion. -/
theorem checkInputs_passed (env : Env) (fuel : Nat) (w : World) (mnb : CMasternodeBroadcast)
    (nDoS : Int) (h : mnb.passesInputs env w = true) :
    mnb.checkInputs env fuel w nDoS =
      mnb.addNew env fuel { w with nTryLock := w.nTryLock + 1 } nDoS := by
  unfold CMasternodeBroadcast.passesInputs at h
  simp only [Bool.and_eq_true, Bool.not_eq_true', decide_eq_false_iff_not, beq_iff_eq] at h
  obtain ⟨⟨⟨⟨h1, h2⟩, h3⟩, h4⟩, h5⟩ := h
  unfold CMasternodeBroadcast.checkInputs
  rw [h1, h2, h3, h5]
  simp only [Bool.not_true, Bool.false_eq_true, if_false, if_neg h4]

/-- A failed ping check relays nothing when the rebroadcast flag is off. -/
theorem pingCheck_failed_relayed (env : Env) (w : World) (mnp : CMasternodePing) (nDos : Int)
    (fR fC fS : Bool) (hs : env.spork7 = false)
    (hf : (pingCheck env w mnp nDos fR fC fS).1 = false) :
    (pingCheck env w mnp nDos fR fC fS).2.2.relayed = w.relayed := by
  revert hf
  apply pingCheck_cases env w mnp nDos fR fC fS (fun r => r.1 = false → r.2.2.relayed = w.relayed)
  · intro _ _; rfl
  · intro _ _ _; rfl
  · intro _ _ _ _ _ _ _; rfl
  · intro _ _ _ _ _ _; rfl
  · intro _ _ _ _; rfl
  · intro _ _ _ i pmn _ _ _ _ _ _ _ _ _ _ hf
    rw [pingAccept_relayed, hf, hs]
    simp

/-- The node built from a broadcast carries its input and its ping. -/
theorem newNode_fields (env : Env) (w : World) (mnb : CMasternodeBroadcast) :
    (mnb.newNode env w).vin = mnb.vin ∧ (mnb.newNode env w).lastPing = mnb.lastPing := by
  unfold CMasternodeBroadcast.newNode
  exact ⟨(sameIdentity_fields _ _ (Check_sameIdentity env _ true _)).1,
    Check_lastPing env _ true _⟩

/-- The ping check does not activate the local node. -/
theorem pingCheck_hotColdEnabled (env : Env) (w : World) (mnp : CMasternodePing) (nDos : Int)
    (fR fC fS : Bool) :
    (pingCheck env w mnp nDos fR fC fS).2.2.hotColdEnabled = w.hotColdEnabled := by
  have hsp : ∀ i pmn, (w.storePing env i pmn mnp).hotColdEnabled = w.hotColdEnabled := by
    intro i pmn
    unfold World.storePing
    dsimp only
    split_ifs <;> rfl
  have hck : ∀ (w3 : World) i, (w3.Check env i true).hotColdEnabled = w3.hotColdEnabled := by
    intro w3 i
    unfold World.Check
    cases w3.vMasternodes.get? i <;> rfl
  apply pingCheck_cases env w mnp nDos fR fC fS
    (fun r => r.2.2.hotColdEnabled = w.hotColdEnabled)
  · intro _; rfl
  · intro _ _; rfl
  · intro _ _ _ _ _ _; rfl
  · intro _ _ _ _ _; rfl
  · intro _ _ _; rfl
  · intro _ _ _ i pmn _ _ _ _ _ _ _ _ _ _
    unfold pingAccept
    dsimp only
    cases env.spork7 <;> cases fS <;>
      cases env.IsEnabled (({ pmn with lastPing := mnp } : CMasternode).Check env
        (env.tryLockMain w.nTryLock) true) true <;>
      simp [hck, hsp, World.RelayInv]

/-- The insertion steps when the full validation of the embedded ping fails:
the node is removed again and the call returns false. -/
theorem addNew_failed (env : Env) (k : Nat) (w : World) (mnb : CMasternodeBroadcast)
    (nDoS : Int)
    (hfail : (pingCheck env (mnb.inserted env w) mnb.lastPing nDoS true false true).1 = false) :
    mnb.addNew env (k + 2)
        { w.Remove mnb.vin with nTryLock := (w.Remove mnb.vin).nTryLock + 1 } nDoS =
      some (false, (pingCheck env (mnb.inserted env w) mnb.lastPing nDoS true false true).2.1,
        (pingCheck env (mnb.inserted env w) mnb.lastPing nDoS true false true).2.2.Remove
          mnb.vin) := by
  have hlock := (Remove_frame w mnb.vin).2.2.1
  obtain ⟨hvin, hping⟩ := newNode_fields env w mnb
  unfold CMasternodeBroadcast.addNew
  dsimp only
  rw [CheckAndUpdate_eq, hlock]
  have e1 : (CMasternode.ofBroadcast env mnb).Check env (env.tryLockMain (w.nTryLock + 1)) true =
      mnb.newNode env w := rfl
  rw [e1, hvin, hping]
  have e2 : ({ w.Remove mnb.vin with nTryLock := w.nTryLock + 1 + 1 } : World).Add
      (mnb.newNode env w) = mnb.inserted env w := rfl
  rw [e2]
  generalize pingCheck env (mnb.inserted env w) mnb.lastPing nDoS true false true = r at hfail
  obtain ⟨ok, nd, w2⟩ := r
  simp only at hfail
  subst hfail
  rfl

/-- C28: a broadcast that passes the preliminaries and the checks of its
collateral input, for whose reference the registry then holds no entry, is
inserted; when the full validation of its embedded ping (entry required to be
enabled, block hash known and recent, interval test skipped) then fails, the
call returns false, the registry afterwards holds no entry for the collateral
reference of the broadcast, the call relays nothing after that validation (the
items relayed are the ones the validation left, which are the ones before the
call when the rebroadcast flag is off), and the local node is not activated. -/
theorem mnb_rollback (env : Env) (k : Nat) (w : World) (mnb : CMasternodeBroadcast) (nDoS : Int)
    (hpre : mnb.passesPreliminaries env w nDoS = true)
    (hin : mnb.passesInputs env (w.Remove mnb.vin) = true)
    (hnew : (w.Remove mnb.vin).Find mnb.vin = none)
    (hfail : (pingCheck env (mnb.inserted env w) mnb.lastPing nDoS true false true).1 = false) :
    (mnb.inserted env w).vMasternodes =
        (w.Remove mnb.vin).vMasternodes ++ [mnb.newNode env w] ∧
      ∃ nd w2, CMasternodeBroadcast.CheckInputsAndAdd env (k + 2) w mnb nDoS =
          some (false, nd, w2) ∧
        w2.Find mnb.vin = none ∧
        w2.relayed =
          (pingCheck env (mnb.inserted env w) mnb.lastPing nDoS true false true).2.2.relayed ∧
        (env.spork7 = false → w2.relayed = w.relayed) ∧
        w2.hotColdEnabled = w.hotColdEnabled := by
  obtain ⟨hvin, hping⟩ := newNode_fields env w mnb
  have hins : (mnb.inserted env w).vMasternodes =
      (w.Remove mnb.vin).vMasternodes ++ [mnb.newNode env w] ∧
      (mnb.inserted env w).relayed = w.relayed ∧
      (mnb.inserted env w).hotColdEnabled = w.hotColdEnabled := by
    have hF : ({ w.Remove mnb.vin with nTryLock := w.nTryLock + 2 } : World).Find
        (mnb.newNode env w).vin = none := by
      rw [hvin]
      exact hnew
    unfold CMasternodeBroadcast.inserted World.Add
    rw [hF]
    exact ⟨rfl, (Remove_frame w mnb.vin).2.1, (Remove_frame w mnb.vin).2.2.2.1⟩
  refine ⟨hins.1, ?_⟩
  rw [CheckInputsAndAdd_passed env k w mnb nDoS hpre, checkInputs_passed env _ _ mnb nDoS hin,
    addNew_failed env k w mnb nDoS hfail]
  have hv := pingCheck_vins env (mnb.inserted env w) mnb.lastPing nDoS true false true
  rw [hins.1] at hv
  have hrem := Remove_added (w.Remove mnb.vin) _ (mnb.newNode env w) (by rw [hvin]; exact hnew) hv
  rw [hvin] at hrem
  have hhc : (pingCheck env (mnb.inserted env w) mnb.lastPing nDoS true false
      true).2.2.hotColdEnabled = (mnb.inserted env w).hotColdEnabled := by
    exact pingCheck_hotColdEnabled env _ _ nDoS true false true
  refine ⟨_, _, rfl, hrem.1, hrem.2.1, ?_, ?_⟩
  · intro hs
    rw [hrem.2.1, pingCheck_failed_relayed env _ _ nDoS true false true hs hfail]
    exact hins.2.1
  · rw [hrem.2.2, hhc]
    exact hins.2.2

/-- Witness of C28: a broadcast whose ping names a block hash that is not in
the block index passes the verify-only check and is inserted; the full
validation fails and the registry is empty again. -/
theorem mnb_rollback_witness :
    ∃ nd w2, CMasternodeBroadcast.CheckInputsAndAdd exampleAdmissionEnv 2 (exampleWorld [] [])
        (exampleBroadcast 1 0 990000 (examplePing 1 0 9999 999990) 1945) 0 =
        some (false, nd, w2) ∧
      w2.Find (exampleBroadcast 1 0 990000 (examplePing 1 0 9999 999990) 1945).vin = none ∧
      w2.relayed = [] :=
  match (mnb_rollback exampleAdmissionEnv 0 (exampleWorld [] [])
    (exampleBroadcast 1 0 990000 (examplePing 1 0 9999 999990) 1945) 0
    (by decide) (by decide) (by decide) (by decide)).2 with
  | ⟨nd, w2, h, hF, _, hr, _⟩ => ⟨nd, w2, h, hF, hr rfl⟩

/-! ## The constructor of a fresh ping -/

/-- The constructor succeeds exactly when the active chain has a block 12 below
its tip, and then yields the ping over the hash of that block, signed with the
empty signature at the adjusted time. -/
theorem ofVin_eq_some (env : Env) (newVin : CTxIn) (ping : CMasternodePing) :
    CMasternodePing.ofVin env newVin = some ping ↔
      ∃ b rest, chainActive.atHeight env (chainActive.Height env - 12) = b :: rest ∧
        ping =
          { vin := newVin
            blockHash := b.hashBlock
            sigTime := env.GetAdjustedTime
            vchSig := [] } := by
  unfold CMasternodePing.ofVin
  cases h : chainActive.atHeight env (chainActive.Height env - 12) with
  | nil => simp
  | cons b rest =>
    constructor
    · intro hp
      exact ⟨b, rest, rfl, (Option.some.inj hp).symm⟩
    · rintro ⟨b2, rest2, hb, hp⟩
      cases hb
      rw [hp]

/-- C30, the code at a failing input: on the active chain of four blocks, of
height 3, the lookup `chainActive[Height - 12]` is `chainActive[-9]`, the null
pointer, and the constructor, which dereferences it, yields no ping; the same
on the empty chain, of height -1. -/
theorem Ping_ofVin_short_chain :
    chainActive.Height exampleChainEnv = 3 ∧
      chainActive.atHeight exampleChainEnv (chainActive.Height exampleChainEnv - 12) = [] ∧
      CMasternodePing.ofVin exampleChainEnv (examplePing 1 0 0 0).vin = none ∧
      chainActive.Height exampleEnv = -1 ∧
      CMasternodePing.ofVin exampleEnv (examplePing 1 0 0 0).vin = none := by
  decide

/-! ## The block-hash cache under `GetBlockHash` -/

/-- The outcomes of `GetBlockHash` with a tip, by the effective height `k`. -/
theorem GetBlockHash_cases (env : Env) (w : World) (n : Int) (tip : CBlockIndex)
    (anc : List CBlockIndex) (htip : chainActive.Tip env = tip :: anc) :
    GetBlockHash env w n =
      if tip.nHeight < (if n ≤ 0 then tip.nHeight else n) then (none, w)
      else
        match w.mapCacheBlockHashes.lookup (if n ≤ 0 then tip.nHeight else n) with
        | some cached => (some cached, w)
        | none =>
          match (tip :: anc).find? (fun b => b.nHeight == (if n ≤ 0 then tip.nHeight else n)) with
          | some b =>
            (some b.hashBlock,
              { w with
                mapCacheBlockHashes :=
                  ((if n ≤ 0 then tip.nHeight else n), b.hashBlock) :: w.mapCacheBlockHashes })
          | none => (none, w) := by
  unfold GetBlockHash
  rw [htip]
  try rfl

/-- The three outcomes of `GetBlockHash` with a tip: failure, a hit of the
cache, and a block found on the chain and stored. -/
theorem GetBlockHash_outcomes (env : Env) (w : World) (n : Int) (tip : CBlockIndex)
    (anc : List CBlockIndex) (htip : chainActive.Tip env = tip :: anc) :
    ((tip.nHeight < (if n ≤ 0 then tip.nHeight else n) ∨
        w.mapCacheBlockHashes.lookup (if n ≤ 0 then tip.nHeight else n) = none) ∧
      GetBlockHash env w n = (none, w)) ∨
    (∃ cached, w.mapCacheBlockHashes.lookup (if n ≤ 0 then tip.nHeight else n) = some cached ∧
      GetBlockHash env w n = (some cached, w)) ∨
    (∃ b : CBlockIndex,
      w.mapCacheBlockHashes.lookup (if n ≤ 0 then tip.nHeight else n) = none ∧
      GetBlockHash env w n = (some b.hashBlock,
        { w with
          mapCacheBlockHashes :=
            ((if n ≤ 0 then tip.nHeight else n), b.hashBlock) :: w.mapCacheBlockHashes })) := by
  rw [GetBlockHash_cases env w n tip anc htip]
  generalize (if n ≤ 0 then tip.nHeight else n) = k
  by_cases hlt : tip.nHeight < k
  · rw [if_pos hlt]
    exact Or.inl ⟨Or.inl hlt, rfl⟩
  · rw [if_neg hlt]
    cases hl : w.mapCacheBlockHashes.lookup k with
    | some cached => exact Or.inr (Or.inl ⟨cached, rfl, rfl⟩)
    | none =>
      cases hf : (tip :: anc).find? (fun b => b.nHeight == k) with
      | none => exact Or.inl ⟨Or.inr rfl, rfl⟩
      | some b => exact Or.inr (Or.inr ⟨b, rfl, rfl⟩)

theorem lookup_cons_other (l : List (Int × Nat)) (k j : Int) (h x : Nat)
    (hk : l.lookup k = none) (hj : l.lookup j = some x) : ((k, h) :: l).lookup j = some x := by
  have hne : (j == k) = false := by
    rw [beq_eq_false_iff_ne]
    intro hjk
    rw [hjk, hk] at hj
    simp at hj
  simp only [List.lookup, hne, hj]

/-- C31: the block-hash cache is append-only under `GetBlockHash`.  Every entry
of the cache before a call is an entry, with the same hash, after it; the call
changes nothing but the cache; the cache after the call is the cache before
it, or that cache with one entry more, and then the call returned true, the
entry is under the effective height requested (the tip height for a request
not above 0), that height had no entry, and the hash returned is the one
stored; and when the effective height is not above the tip and has an entry,
the call returns the hash of that entry and changes nothing, whatever the
blocks of the active chain are. -/
theorem GetBlockHash_append_only (env : Env) (w : World) (n : Int) :
    (∀ k h, w.mapCacheBlockHashes.lookup k = some h →
      (GetBlockHash env w n).2.mapCacheBlockHashes.lookup k = some h) ∧
    { (GetBlockHash env w n).2 with mapCacheBlockHashes := w.mapCacheBlockHashes } = w ∧
    ((GetBlockHash env w n).2 = w ∨
      ∃ tip anc hash, chainActive.Tip env = tip :: anc ∧
        (GetBlockHash env w n).1 = some hash ∧
        w.mapCacheBlockHashes.lookup (if n ≤ 0 then tip.nHeight else n) = none ∧
        (GetBlockHash env w n).2.mapCacheBlockHashes =
          ((if n ≤ 0 then tip.nHeight else n), hash) :: w.mapCacheBlockHashes) ∧
    ((GetBlockHash env w n).1 = none → (GetBlockHash env w n).2 = w) ∧
    (∀ tip anc cached, chainActive.Tip env = tip :: anc →
      ¬ tip.nHeight < (if n ≤ 0 then tip.nHeight else n) →
      w.mapCacheBlockHashes.lookup (if n ≤ 0 then tip.nHeight else n) = some cached →
      GetBlockHash env w n = (some cached, w)) := by
  cases htip : chainActive.Tip env with
  | nil =>
    rw [GetBlockHash_no_tip env w n htip]
    refine ⟨fun _ _ h => h, rfl, Or.inl rfl, fun _ => rfl, ?_⟩
    intro tip anc cached h
    simp at h
  | cons tip anc =>
    rcases GetBlockHash_outcomes env w n tip anc htip with ⟨hwhy, h⟩ | ⟨c, hl, h⟩ | ⟨b, hl, h⟩
    · rw [h]
      refine ⟨fun _ _ h => h, rfl, Or.inl rfl, fun _ => rfl, ?_⟩
      intro tip2 anc2 cached heq hlt hl2
      cases heq
      rcases hwhy with hw | hw
      · exact absurd hw hlt
      · rw [hw] at hl2
        simp at hl2
    · rw [h]
      refine ⟨fun _ _ h => h, rfl, Or.inl rfl, fun _ => rfl, ?_⟩
      intro tip2 anc2 cached heq hlt hl2
      cases heq
      rw [hl] at hl2
      rw [Option.some.inj hl2]
    · rw [h]
      refine ⟨?_, rfl, Or.inr ⟨tip, anc, b.hashBlock, rfl, rfl, hl, rfl⟩, ?_, ?_⟩
      · intro k x hk
        exact lookup_cons_other _ _ k b.hashBlock x hl hk
      · intro hn
        simp at hn
      · intro tip2 anc2 cached heq hlt hl2
        cases heq
        rw [hl] at hl2
        simp at hl2

/-- Witness of C31: with the entry (2, 77) in the cache, a request for height 2
returns 77 although the block of the chain at that height has hash 1002, and
the cache is left as it was; a request for height 1 adds the entry (1, 1001)
in front of it. -/
theorem GetBlockHash_append_only_witness :
    GetBlockHash exampleChainEnv (exampleWorld [] [(2, 77)]) 2 =
        (some 77, exampleWorld [] [(2, 77)]) ∧
      GetBlockHash exampleChainEnv (exampleWorld [] [(2, 77)]) 1 =
        (some 1001, exampleWorld [] [(1, 1001), (2, 77)]) :=
  ⟨(GetBlockHash_append_only exampleChainEnv (exampleWorld [] [(2, 77)]) 2).2.2.2.2
      { nHeight := 3, hashBlock := 1003, nTime := 501800 } (exampleBlocks.drop 1) 77
      (by decide) (by decide) (by decide),
    by decide⟩

/-- On a well-formed ancestry every height from 0 to the height of the first
block is the height of exactly one block, which is the one the walk finds. -/
theorem chainWellFormed_find : ∀ (l : BlockPtr), chainWellFormed l = true →
    ∀ b rest, l = b :: rest →
      (∀ y ∈ l, 0 ≤ y.nHeight ∧ y.nHeight ≤ b.nHeight) ∧
      ∀ n : Int, 0 ≤ n → n ≤ b.nHeight →
        ∃ x, l.find? (fun c => c.nHeight == n) = some x ∧ x ∈ l ∧ x.nHeight = n ∧
          ∀ y ∈ l, y.nHeight = n → y = x
  | [], _, _, _, h => by simp at h
  | [b0], hwf, b, rest, h => by
    simp only [List.cons.injEq] at h
    obtain ⟨hb, -⟩ := h
    subst hb
    have h0 : b0.nHeight = 0 := by simpa [chainWellFormed] using hwf
    constructor
    · intro y hy
      rw [List.mem_singleton] at hy
      subst hy
      omega
    · intro n hn1 hn2
      have hn : n = 0 := by omega
      subst hn
      refine ⟨b0, by simp [List.find?, h0], List.mem_singleton.mpr rfl, h0, ?_⟩
      intro y hy _
      exact List.mem_singleton.mp hy
  | b0 :: c :: rest0, hwf, b, rest, h => by
    simp only [List.cons.injEq] at h
    obtain ⟨hb, -⟩ := h
    subst hb
    simp only [chainWellFormed, Bool.and_eq_true, beq_iff_eq] at hwf
    obtain ⟨hstep, hwf2⟩ := hwf
    obtain ⟨hrange, hfind⟩ := chainWellFormed_find (c :: rest0) hwf2 c rest0 rfl
    have hc0 := (hrange c (List.mem_cons_self _ _)).1
    constructor
    · intro y hy
      rcases List.mem_cons.mp hy with hy | hy
      · subst hy
        omega
      · have := hrange y hy
        omega
    · intro n hn1 hn2
      by_cases hnb : b0.nHeight = n
      · refine ⟨b0, by simp [List.find?, hnb], List.mem_cons_self _ _, hnb, ?_⟩
        intro y hy hyn
        rcases List.mem_cons.mp hy with hy | hy
        · exact hy
        · have := hrange y hy
          omega
      · obtain ⟨x, hx1, hx2, hx3, hx4⟩ := hfind n hn1 (by omega)
        refine ⟨x, ?_, List.mem_cons_of_mem _ hx2, hx3, ?_⟩
        · rw [List.find?_cons_of_neg _ (by simpa using hnb)]
          exact hx1
        · intro y hy hyn
          rcases List.mem_cons.mp hy with hy | hy
          · subst hy
            exact absurd hyn hnb
          · exact hx4 y hy hyn

/-- C32: on a well-formed active chain and with a cache whose entries agree
with that chain, `GetBlockHash` returns what the lookup on the chain alone
returns.  It fails exactly when there is no tip or the height requested is
above the tip height; for a height not above 0 it returns the hash of the tip;
for a height from 1 to the tip height it returns the hash of the block of that
height on the chain, of which there is exactly one. -/
theorem GetBlockHash_refines (env : Env) (w : World) (n : Int)
    (hwf : chainWellFormed (chainActive.Tip env) = true)
    (hc : cacheAgrees env w = true) :
    (GetBlockHash env w n).1 = chainBlockHash env n ∧
    ((GetBlockHash env w n).1 = none ↔
      (chainActive.Tip env = [] ∨
        ∃ tip anc, chainActive.Tip env = tip :: anc ∧ tip.nHeight < n)) ∧
    (∀ tip anc, chainActive.Tip env = tip :: anc → n ≤ 0 →
      (GetBlockHash env w n).1 = some tip.hashBlock) ∧
    (∀ tip anc, chainActive.Tip env = tip :: anc → 1 ≤ n → n ≤ tip.nHeight →
      ∃ b, b ∈ tip :: anc ∧ b.nHeight = n ∧ (∀ b2 ∈ tip :: anc, b2.nHeight = n → b2 = b) ∧
        (GetBlockHash env w n).1 = some b.hashBlock) := by
  rw [GetBlockHash_eq_chain env w n hc]
  refine ⟨rfl, ?_⟩
  unfold chainBlockHash
  cases htip : chainActive.Tip env with
  | nil =>
    refine ⟨⟨fun _ => Or.inl rfl, fun _ => rfl⟩, ?_, ?_⟩
    · intro tip anc h; simp at h
    · intro tip anc h; simp at h
  | cons tip anc =>
    rw [htip] at hwf
    obtain ⟨hrange, hfind⟩ := chainWellFormed_find (tip :: anc) hwf tip anc rfl
    have htip0 := (hrange tip (List.mem_cons_self _ _)).1
    dsimp only
    refine ⟨?_, ?_, ?_⟩
    · constructor
      · intro hnone
        refine Or.inr ⟨tip, anc, rfl, ?_⟩
        by_contra hlt
        by_cases hn : n ≤ 0
        · rw [if_pos hn, if_neg (lt_irrefl _)] at hnone
          obtain ⟨x, hx, -⟩ := hfind tip.nHeight htip0 (le_refl _)
          rw [hx] at hnone
          simp at hnone
        · rw [if_neg hn, if_neg hlt] at hnone
          obtain ⟨x, hx, -⟩ := hfind n (by omega) (by omega)
          rw [hx] at hnone
          simp at hnone
      · rintro (h | ⟨tip2, anc2, heq, hlt⟩)
        · simp at h
        · cases heq
          have hn : ¬ n ≤ 0 := by omega
          rw [if_neg hn, if_pos hlt]
    · intro tip2 anc2 heq hn
      cases heq
      rw [if_pos hn, if_neg (lt_irrefl _)]
      simp [List.find?]
    · intro tip2 anc2 heq hn1 hn2
      cases heq
      have hn : ¬ n ≤ 0 := by omega
      obtain ⟨x, hx1, hx2, hx3, hx4⟩ := hfind n (by omega) hn2
      refine ⟨x, hx2, hx3, hx4, ?_⟩
      rw [if_neg hn, if_neg (by omega), hx1]
      rfl

/-- Witness of C32: on the example chain with an empty cache, height 2 has the
hash 1002, a height not above 0 the hash 1003 of the tip, and height 4 none. -/
theorem GetBlockHash_refines_witness :
    (GetBlockHash exampleChainEnv (exampleWorld [] []) 0).1 = some 1003 ∧
      ((GetBlockHash exampleChainEnv (exampleWorld [] []) 4).1 = none ↔
        (chainActive.Tip exampleChainEnv = [] ∨
          ∃ tip anc, chainActive.Tip exampleChainEnv = tip :: anc ∧ tip.nHeight < 4)) :=
  ⟨(GetBlockHash_refines exampleChainEnv (exampleWorld [] []) 0 (by decide) (by decide)).2.2.1
      { nHeight := 3, hashBlock := 1003, nTime := 501800 } (exampleBlocks.drop 1) (by decide)
      (by decide),
    (GetBlockHash_refines exampleChainEnv (exampleWorld [] []) 4 (by decide) (by decide)).2.1⟩

/-! ## A ping refused after it was stored -/

theorem lookup_mapModify {β : Type} (f : β → β) (k : Nat) :
    ∀ l : List (Nat × β), (mapModify f k l).lookup k = (l.lookup k).map f
  | [] => rfl
  | e :: es => by
    unfold mapModify
    by_cases h : e.1 = k
    · rw [if_pos h]
      obtain ⟨a, b⟩ := e
      simp only at h
      subst h
      simp [List.lookup]
    · rw [if_neg h]
      obtain ⟨a, b⟩ := e
      simp only at h
      have hne : (k == a) = false := by
        rw [beq_eq_false_iff_ne]
        exact fun hk => h hk.symm
      simp only [List.lookup, hne]
      exact lookup_mapModify f k es

theorem lookup_of_not_any {β : Type} (k : Nat) :
    ∀ l : List (Nat × β), l.any (fun e => e.1 == k) = false → l.lookup k = none
  | [], _ => rfl
  | (a, b) :: es, h => by
    simp only [List.any_cons, Bool.or_eq_false_iff, beq_eq_false_iff_ne] at h
    have hne : (k == a) = false := by
      rw [beq_eq_false_iff_ne]
      exact fun hk => h.1 hk.symm
    simp only [List.lookup, hne]
    exact lookup_of_not_any k es h.2

/-- Storing a ping replaces the embedded ping of the cached copy of the
broadcast of the entry, if there is one. -/
theorem storePing_seen (env : Env) (w : World) (i : Nat) (pmn : CMasternode)
    (mnp : CMasternodePing) :
    (w.storePing env i pmn mnp).mapSeenMasternodeBroadcast.lookup
        (env.mnbHash (CMasternodeBroadcast.ofMasternode { pmn with lastPing := mnp })) =
      (w.mapSeenMasternodeBroadcast.lookup
        (env.mnbHash (CMasternodeBroadcast.ofMasternode { pmn with lastPing := mnp }))).map
        (fun seen => { seen with lastPing := mnp }) := by
  unfold World.storePing
  dsimp only
  by_cases h : (w.setMn i { pmn with lastPing := mnp }).mapSeenMasternodeBroadcast.any
      (fun e => e.1 == env.mnbHash (CMasternodeBroadcast.ofMasternode
        { pmn with lastPing := mnp })) = true
  · rw [if_pos h]
    exact lookup_mapModify _ _ _
  · rw [if_neg h]
    have h2 := lookup_of_not_any _ _ (Bool.not_eq_true _ ▸ h)
    have h3 : (w.setMn i { pmn with lastPing := mnp }).mapSeenMasternodeBroadcast =
      w.mapSeenMasternodeBroadcast := rfl
    rw [h3] at h2 ⊢
    rw [h2]
    rfl

/-- The closing steps of the ping check touch the seen broadcasts only in
storing the ping. -/
theorem pingAccept_seen (env : Env) (w : World) (i : Nat) (pmn : CMasternode)
    (mnp : CMasternodePing) (nDos : Int) (fSkip : Bool) :
    (pingAccept env w i pmn mnp nDos fSkip).2.2.mapSeenMasternodeBroadcast =
      (w.storePing env i pmn mnp).mapSeenMasternodeBroadcast := by
  have hck : ∀ (w3 : World), (w3.Check env i true).mapSeenMasternodeBroadcast =
      w3.mapSeenMasternodeBroadcast := by
    intro w3
    unfold World.Check
    cases w3.vMasternodes.get? i <;> rfl
  unfold pingAccept
  dsimp only
  cases env.spork7 <;> cases fSkip <;>
    cases env.IsEnabled (({ pmn with lastPing := mnp } : CMasternode).Check env
      (env.tryLockMain w.nTryLock) true) true <;>
    simp [hck, World.RelayInv]

/-- C33, refuted as stated: with the rebroadcast flag active, a ping that
passes the time, protocol version, enabled, interval, signature and block-hash
checks, for an entry whose collateral the mempool refuses, so that the forced
check with this ping stored moves it to `VIN_SPENT`, is refused with the
penalty weight as it was, and yet the call relays an inventory item, the
broadcast rebuilt from the entry. -/
theorem Ping_refused_relays_broadcast :
    ¬ (examplePing 1 0 1002 999990).sigTime > exampleRebroadcastEnv.GetAdjustedTime + 60 * 60 ∧
      ¬ (examplePing 1 0 1002 999990).sigTime ≤
        exampleRebroadcastEnv.GetAdjustedTime - 60 * 60 ∧
      (exampleWorld [exampleNode 1 0 MASTERNODE_ENABLED 990000 (examplePing 1 0 1003 999000)]
        []).Find (examplePing 1 0 1002 999990).vin = some 0 ∧
      (exampleNode 1 0 MASTERNODE_ENABLED 990000 (examplePing 1 0 1003 999000)).protocolVersion ≥
        exampleRebroadcastEnv.GetMinMasternodePaymentsProto ∧
      (exampleNode 1 0 MASTERNODE_ENABLED 990000 (examplePing 1 0 1003 999000)).activeState =
        MASTERNODE_ENABLED ∧
      (exampleNode 1 0 MASTERNODE_ENABLED 990000 (examplePing 1 0 1003 999000)).IsPingedWithin
        exampleRebroadcastEnv (exampleRebroadcastEnv.MASTERNODE_MIN_MNP_SECONDS - 60)
        (examplePing 1 0 1002 999990).sigTime = false ∧
      exampleRebroadcastEnv.VerifyPingMessage [3] (examplePing 1 0 1002 999990).vchSig
        (examplePing 1 0 1002 999990).vin 1002 999990 = true ∧
      exampleRebroadcastEnv.mapBlockIndex 1002 = some (exampleBlocks.drop 1) ∧
      ¬ (2 : Int) < chainActive.Height exampleRebroadcastEnv -
        exampleRebroadcastEnv.MaxReorganizationDepth ∧
      (({ exampleNode 1 0 MASTERNODE_ENABLED 990000 (examplePing 1 0 1003 999000) with
          lastPing := examplePing 1 0 1002 999990 } : CMasternode).Check exampleRebroadcastEnv
        (exampleRebroadcastEnv.tryLockMain 0) true).activeState = MASTERNODE_VIN_SPENT ∧
      (CMasternodePing.CheckAndUpdate exampleRebroadcastEnv 2
        (exampleWorld [exampleNode 1 0 MASTERNODE_ENABLED 990000 (examplePing 1 0 1003 999000)]
          [])
        (examplePing 1 0 1002 999990) 0 true false false).map
          (fun r => (r.1, r.2.1, r.2.2.relayed,
            r.2.2.vMasternodes.map (fun m => (m.activeState, m.lastPing)))) =
        some (false, 0, [CInv.MSG_MASTERNODE_ANNOUNCE 990000],
          [(MASTERNODE_VIN_SPENT, examplePing 1 0 1002 999990)]) :=
  ⟨by decide, by decide, by decide, by decide, by decide, by decide, by decide, by decide,
    by decide, by decide, by decide⟩

/-- C33, amended: ping acceptance is not atomic.  A ping that passes the time,
protocol version, enabled, interval, signature and block-hash checks of the check that
is not verify-only, while the entry with this ping stored is not enabled after
its forced check, is refused: the call returns false with the penalty weight
as it was and the ping is not relayed (the items relayed by the call are the
broadcast of the entry when the rebroadcast flag is active, and none
otherwise); yet the entry now holds the refused ping, and so does the cached
copy of the broadcast of the entry, if there is one. -/
theorem Ping_not_atomic (env : Env) (k : Nat) (w : World) (mnp : CMasternodePing) (nDos : Int)
    (fR fS : Bool) (i : Nat) (pmn : CMasternode) (b : CBlockIndex) (rest : List CBlockIndex)
    (h1 : ¬ mnp.sigTime > env.GetAdjustedTime + 60 * 60)
    (h2 : ¬ mnp.sigTime ≤ env.GetAdjustedTime - 60 * 60)
    (hF : w.Find mnp.vin = some i) (hget : w.vMasternodes.get? i = some pmn)
    (h3 : pmn.protocolVersion ≥ env.GetMinMasternodePaymentsProto)
    (h4 : fR = true → env.IsEnabled pmn true = true)
    (h5 : pmn.IsPingedWithin env (env.MASTERNODE_MIN_MNP_SECONDS - 60) mnp.sigTime = false ∨
      fS = true)
    (hV : env.VerifyPingMessage pmn.pubKeyMasternode mnp.vchSig mnp.vin mnp.blockHash
      mnp.sigTime = true)
    (hB : env.mapBlockIndex mnp.blockHash = some (b :: rest))
    (h7 : ¬ b.nHeight < chainActive.Height env - env.MaxReorganizationDepth)
    (hdis : env.IsEnabled (({ pmn with lastPing := mnp } : CMasternode).Check env
      (env.tryLockMain w.nTryLock) true) true = false) :
    ∃ w2 pmn2, CMasternodePing.CheckAndUpdate env (k + 2) w mnp nDos fR false fS =
        some (false, nDos, w2) ∧
      w2.vMasternodes.get? i = some pmn2 ∧ pmn2.lastPing = mnp ∧
      w2.relayed =
        (if env.spork7 = true then
          [CInv.MSG_MASTERNODE_ANNOUNCE
            (env.mnbHash (CMasternodeBroadcast.ofMasternode { pmn with lastPing := mnp }))]
          else []) ++ w.relayed ∧
      CInv.MSG_MASTERNODE_PING (env.pingHash mnp) ∉
        (if env.spork7 = true then
          [CInv.MSG_MASTERNODE_ANNOUNCE
            (env.mnbHash (CMasternodeBroadcast.ofMasternode { pmn with lastPing := mnp }))]
          else []) ∧
      w2.mapSeenMasternodeBroadcast.lookup
          (env.mnbHash (CMasternodeBroadcast.ofMasternode { pmn with lastPing := mnp })) =
        (w.mapSeenMasternodeBroadcast.lookup
          (env.mnbHash (CMasternodeBroadcast.ofMasternode { pmn with lastPing := mnp }))).map
          (fun seen => { seen with lastPing := mnp }) := by
  rw [CheckAndUpdate_eq,
    pingCheck_accept env w mnp nDos fR fS i pmn b rest h1 h2 hF hget h3 h4 h5 hV hB h7]
  obtain ⟨g1, g2, g3⟩ := pingAccept_get env w i pmn mnp nDos fS hget
  have hr := pingAccept_relayed env w i pmn mnp nDos fS
  have hs := pingAccept_seen env w i pmn mnp nDos fS
  rw [hdis] at g2
  rw [g2] at hr
  refine ⟨(pingAccept env w i pmn mnp nDos fS).2.2, _,
    congrArg some (Prod.ext g2 (Prod.ext g3 rfl)), g1, Check_lastPing env _ true _, ?_, ?_, ?_⟩
  · rw [hr]
    simp
  · cases env.spork7 <;> simp
  · rw [hs]
    exact storePing_seen env w i pmn mnp

/-- Witness of the amended C33: an entry in state `ENABLED` whose collateral
the mempool refuses receives a valid ping while the rebroadcast flag is active;
its forced check moves it to `VIN_SPENT`, so the ping is refused and only the
broadcast of the entry is relayed, but the entry and the cached broadcast hold
the ping. -/
theorem Ping_not_atomic_witness :
    ∃ w2 pmn2, CMasternodePing.CheckAndUpdate exampleRebroadcastEnv 2
        { exampleWorld [exampleNode 1 0 MASTERNODE_ENABLED 990000 (examplePing 1 0 1003 999000)]
            [] with
          mapSeenMasternodeBroadcast :=
            [(990000, exampleBroadcast 1 0 990000 (examplePing 1 0 1003 999000) 1945)] }
        (examplePing 1 0 1002 999990) 0 true false false = some (false, 0, w2) ∧
      w2.vMasternodes.get? 0 = some pmn2 ∧ pmn2.lastPing = examplePing 1 0 1002 999990 ∧
      w2.relayed = [CInv.MSG_MASTERNODE_ANNOUNCE 990000] ∧
      w2.mapSeenMasternodeBroadcast.lookup 990000 =
        some (exampleBroadcast 1 0 990000 (examplePing 1 0 1002 999990) 1945) := by
  obtain ⟨w2, pmn2, h, hg, hp, hr, -, hs⟩ := Ping_not_atomic exampleRebroadcastEnv 0
    { exampleWorld [exampleNode 1 0 MASTERNODE_ENABLED 990000 (examplePing 1 0 1003 999000)]
        [] with
      mapSeenMasternodeBroadcast :=
        [(990000, exampleBroadcast 1 0 990000 (examplePing 1 0 1003 999000) 1945)] }
    (examplePing 1 0 1002 999990) 0 true false 0
    (exampleNode 1 0 MASTERNODE_ENABLED 990000 (examplePing 1 0 1003 999000))
    { nHeight := 2, hashBlock := 1002, nTime := 501200 } (exampleBlocks.drop 2)
    (by decide) (by decide) (by decide) (by decide) (by decide) (by decide)
    (Or.inl (by decide)) (by decide) (by decide) (by decide) (by decide)
  exact ⟨w2, pmn2, h, hg, hp, hr, hs⟩

/-! ## The rebroadcast step of the ping check -/

theorem World_Check_RelayInv (env : Env) (w : World) (i : Nat) (f : Bool) (inv : CInv) :
    (w.RelayInv inv).Check env i f = (w.Check env i f).RelayInv inv := by
  unfold World.Check World.RelayInv
  dsimp only
  cases w.vMasternodes.get? i <;> rfl

/-- The closing steps of the ping check in terms of the entry after its forced
check: the verdict is whether that entry is enabled, and the items relayed are
the broadcast of the entry when the rebroadcast flag is active, then the ping
when the verdict is true and the relay is not skipped. -/
theorem pingAccept_eq (env : Env) (w : World) (i : Nat) (pmn : CMasternode)
    (mnp : CMasternodePing) (nDos : Int) (fSkip : Bool) :
    pingAccept env w i pmn mnp nDos fSkip =
      (env.IsEnabled (({ pmn with lastPing := mnp } : CMasternode).Check env
          (env.tryLockMain w.nTryLock) true) true, nDos,
        { (w.storePing env i pmn mnp).Check env i true with
          relayed :=
            (if env.IsEnabled (({ pmn with lastPing := mnp } : CMasternode).Check env
                (env.tryLockMain w.nTryLock) true) true = true ∧ fSkip = false then
              [CInv.MSG_MASTERNODE_PING (env.pingHash mnp)] else []) ++
            (if env.spork7 = true then
              [CInv.MSG_MASTERNODE_ANNOUNCE
                (env.mnbHash (CMasternodeBroadcast.ofMasternode { pmn with lastPing := mnp }))]
              else []) ++ w.relayed }) := by
  have hrel : ((w.storePing env i pmn mnp).Check env i true).relayed = w.relayed := by
    rw [World_Check_relayed, storePing_relayed]
  unfold pingAccept
  dsimp only
  rw [← hrel]
  cases env.spork7 <;> cases fSkip <;>
    cases env.IsEnabled (({ pmn with lastPing := mnp } : CMasternode).Check env
      (env.tryLockMain w.nTryLock) true) true <;>
    simp only [World_Check_RelayInv, if_true, if_false, Bool.false_eq_true, Bool.not_true,
      Bool.not_false] <;>
    simp [World.RelayInv]

/-- The ping check reads the rebroadcast flag in its closing steps only. -/
theorem pingCheck_spork7 (env : Env) (w : World) (mnp : CMasternodePing) (nDos : Int)
    (fR fC fS : Bool) :
    (∃ r : Bool × Int,
        pingCheck { env with spork7 := true } w mnp nDos fR fC fS = (r.1, r.2, w) ∧
        pingCheck { env with spork7 := false } w mnp nDos fR fC fS = (r.1, r.2, w) ∧
        (fC = false → r.1 = false)) ∨
    ∃ i pmn nd,
      pingCheck { env with spork7 := true } w mnp nDos fR fC fS =
          pingAccept { env with spork7 := true } w i pmn mnp nd fS ∧
        pingCheck { env with spork7 := false } w mnp nDos fR fC fS =
          pingAccept { env with spork7 := false } w i pmn mnp nd fS := by
  have e1 : ∀ (m : CMasternode) s t, m.IsPingedWithin { env with spork7 := true } s t =
      m.IsPingedWithin env s t := fun _ _ _ => rfl
  have e2 : ∀ key nd, mnp.VerifySignature { env with spork7 := true } key nd =
      mnp.VerifySignature env key nd := fun _ _ => rfl
  have e3 : chainActive.Height { env with spork7 := true } = chainActive.Height env := rfl
  have f1 : ∀ (m : CMasternode) s t, m.IsPingedWithin { env with spork7 := false } s t =
      m.IsPingedWithin env s t := fun _ _ _ => rfl
  have f2 : ∀ key nd, mnp.VerifySignature { env with spork7 := false } key nd =
      mnp.VerifySignature env key nd := fun _ _ => rfl
  have f3 : chainActive.Height { env with spork7 := false } = chainActive.Height env := rfl
  unfold pingCheck
  simp only [e1, e2, e3, f1, f2, f3]
  by_cases h1 : mnp.sigTime > env.GetAdjustedTime + 60 * 60
  · simp only [if_pos h1]
    exact Or.inl ⟨(false, 1), rfl, rfl, fun _ => rfl⟩
  simp only [if_neg h1]
  by_cases h2 : mnp.sigTime ≤ env.GetAdjustedTime - 60 * 60
  · simp only [if_pos h2]
    exact Or.inl ⟨(false, 1), rfl, rfl, fun _ => rfl⟩
  simp only [if_neg h2]
  cases hF : w.Find mnp.vin with
  | none =>
    cases fC
    · exact Or.inl ⟨(false, nDos), rfl, rfl, fun _ => rfl⟩
    · exact Or.inl ⟨(true, nDos), rfl, rfl, fun h => by simp at h⟩
  | some i =>
    obtain ⟨pmn, hget, -⟩ := Find_some w mnp.vin i hF
    simp only [hget]
    cases fC
    · simp only [Bool.false_eq_true, if_false]
      by_cases h3 : pmn.protocolVersion ≥ env.GetMinMasternodePaymentsProto
      · simp only [if_pos h3]
        by_cases h4 : (fR && !env.IsEnabled pmn true) = true
        · simp only [if_pos h4]
          exact Or.inl ⟨(false, nDos), rfl, rfl, fun _ => rfl⟩
        simp only [if_neg h4]
        by_cases h5 : (!pmn.IsPingedWithin env (env.MASTERNODE_MIN_MNP_SECONDS - 60) mnp.sigTime
              || fS) = true
        · simp only [if_pos h5]
          by_cases h6 : (!(mnp.VerifySignature env pmn.pubKeyMasternode nDos).1) = true
          · simp only [if_pos h6]
            exact Or.inl ⟨(false, (mnp.VerifySignature env pmn.pubKeyMasternode nDos).2), rfl, rfl,
              fun _ => rfl⟩
          simp only [if_neg h6]
          cases hB : env.mapBlockIndex mnp.blockHash with
          | none =>
            exact Or.inl ⟨(false, (mnp.VerifySignature env pmn.pubKeyMasternode nDos).2), rfl, rfl,
              fun _ => rfl⟩
          | some ptr =>
            cases ptr with
            | nil =>
              exact Or.inl ⟨(false, (mnp.VerifySignature env pmn.pubKeyMasternode nDos).2), rfl,
                rfl, fun _ => rfl⟩
            | cons b rest =>
              dsimp only
              by_cases h7 : b.nHeight < chainActive.Height env - env.MaxReorganizationDepth
              · simp only [if_pos h7]
                exact Or.inl ⟨(false, (mnp.VerifySignature env pmn.pubKeyMasternode nDos).2), rfl,
                  rfl, fun _ => rfl⟩
              simp only [if_neg h7]
              exact Or.inr ⟨i, pmn, _, rfl, rfl⟩
        · simp only [if_neg h5]
          exact Or.inl ⟨(false, nDos), rfl, rfl, fun _ => rfl⟩
      · simp only [if_neg h3]
        exact Or.inl ⟨(false, nDos), rfl, rfl, fun _ => rfl⟩
    · simp only [if_true]
      exact Or.inl ⟨((mnp.VerifySignature env pmn.pubKeyMasternode nDos).1,
        (mnp.VerifySignature env pmn.pubKeyMasternode nDos).2), rfl, rfl, fun h => by simp at h⟩

/-- C34: the rebroadcast step of the ping check never changes a masternode.
The broadcast copied from a registry entry carries the `sigTime` of the entry,
so `UpdateFromNewBroadcast` returns false on it and leaves the state as it was.
Hence, for every call of the ping check, the results with the rebroadcast flag
active and inactive have the same return value, the same penalty weight, the
same registry and the same state apart from the relayed items: either the two
results are equal, or the result with the flag active has one item more, a
broadcast, under the items relayed by the result with the flag inactive; and
the latter holds whenever a ping is accepted. -/
theorem Ping_rebroadcast_noop (env : Env) (k : Nat) (w : World) (mnp : CMasternodePing)
    (nDos : Int) (fR fC fS : Bool) :
    (∀ (w1 : World) i pmn, w1.vMasternodes.get? i = some pmn →
      (CMasternodeBroadcast.ofMasternode pmn).sigTime = pmn.sigTime ∧
      CMasternode.UpdateFromNewBroadcast env (k + 1) w1 i (CMasternodeBroadcast.ofMasternode pmn) =
        some (false, w1)) ∧
    ∃ r1 r0,
      CMasternodePing.CheckAndUpdate { env with spork7 := true } (k + 2) w mnp nDos fR fC fS =
        some r1 ∧
      CMasternodePing.CheckAndUpdate { env with spork7 := false } (k + 2) w mnp nDos fR fC fS =
        some r0 ∧
      r1.1 = r0.1 ∧ r1.2.1 = r0.2.1 ∧ r1.2.2.vMasternodes = r0.2.2.vMasternodes ∧
      ({ r1.2.2 with relayed := r0.2.2.relayed } : World) = r0.2.2 ∧
      (r1 = r0 ∨
        ∃ items h, r0.2.2.relayed = items ++ w.relayed ∧
          r1.2.2.relayed = items ++ CInv.MSG_MASTERNODE_ANNOUNCE h :: w.relayed) ∧
      (fC = false → r0.1 = true →
        ∃ items h, r0.2.2.relayed = items ++ w.relayed ∧
          r1.2.2.relayed = items ++ CInv.MSG_MASTERNODE_ANNOUNCE h :: w.relayed) := by
  constructor
  · intro w1 i pmn hget
    exact ⟨rfl, UpdateFromNewBroadcast_stale env k w1 i pmn _ hget (le_refl _)⟩
  · rw [CheckAndUpdate_eq, CheckAndUpdate_eq]
    refine ⟨_, _, rfl, rfl, ?_⟩
    rcases pingCheck_spork7 env w mnp nDos fR fC fS with ⟨r, h1, h0, hf⟩ | ⟨i, pmn, nd, h1, h0⟩
    · rw [h1, h0]
      refine ⟨rfl, rfl, rfl, rfl, Or.inl rfl, ?_⟩
      intro hC hok
      rw [hf hC] at hok
      simp at hok
    · have key : ∃ items h,
          (pingAccept { env with spork7 := false } w i pmn mnp nd fS).2.2.relayed =
            items ++ w.relayed ∧
          (pingAccept { env with spork7 := true } w i pmn mnp nd fS).2.2.relayed =
            items ++ CInv.MSG_MASTERNODE_ANNOUNCE h :: w.relayed := by
        rw [pingAccept_eq, pingAccept_eq]
        refine ⟨if env.IsEnabled (({ pmn with lastPing := mnp } : CMasternode).Check env
            (env.tryLockMain w.nTryLock) true) true = true ∧ fS = false then
            [CInv.MSG_MASTERNODE_PING (env.pingHash mnp)] else [],
          env.mnbHash (CMasternodeBroadcast.ofMasternode { pmn with lastPing := mnp }), ?_, ?_⟩
        · simp only [Bool.false_eq_true, if_false, List.append_nil]
          rfl
        · simp only [if_true, List.append_assoc, List.singleton_append]
          rfl
      rw [h1, h0]
      refine ⟨?_, ?_, ?_, ?_, Or.inr key, fun _ _ => key⟩
      · rw [pingAccept_eq, pingAccept_eq]
        rfl
      · rw [pingAccept_eq, pingAccept_eq]
      · rw [pingAccept_eq, pingAccept_eq]
        rfl
      · rw [pingAccept_eq, pingAccept_eq]
        rfl

/-- Witness of C34: the broadcast copied from the example entry is refused by
`UpdateFromNewBroadcast` and the state is left as it was. -/
theorem Ping_rebroadcast_noop_witness :
    CMasternode.UpdateFromNewBroadcast exampleChainEnv 1
        (exampleWorld [exampleNode 1 0 MASTERNODE_ENABLED 990000 (examplePing 1 0 1003 999000)] [])
        0 (CMasternodeBroadcast.ofMasternode
          (exampleNode 1 0 MASTERNODE_ENABLED 990000 (examplePing 1 0 1003 999000))) =
      some (false,
        exampleWorld [exampleNode 1 0 MASTERNODE_ENABLED 990000 (examplePing 1 0 1003 999000)]
          []) :=
  ((Ping_rebroadcast_noop exampleChainEnv 0
    (exampleWorld [exampleNode 1 0 MASTERNODE_ENABLED 990000 (examplePing 1 0 1003 999000)] [])
    (examplePing 1 0 1002 999990) 0 true false false).1
    (exampleWorld [exampleNode 1 0 MASTERNODE_ENABLED 990000 (examplePing 1 0 1003 999000)] [])
    0 (exampleNode 1 0 MASTERNODE_ENABLED 990000 (examplePing 1 0 1003 999000)) (by decide)).2

/-! ## `CChainParams::SubsidyValue` -/

/-- The position dereferenced by `SubsidyValue` in a table with increasing keys
that is not empty: it holds an entry; when some key is not above the level,
the key of the entry is the greatest such key; otherwise every key is above
the level and the key of the entry is the smallest key. -/
theorem upper_bound_spec (t : SubsidySwitchPoints) (level : Int) (hne : t ≠ [])
    (hs : t.Pairwise (fun a b => a.1 < b.1)) :
    ∃ e, t.get? (if upper_bound t level ≠ 0 then upper_bound t level - 1
        else upper_bound t level) = some e ∧ e ∈ t ∧
      ((∃ x ∈ t, x.1 ≤ level) → e.1 ≤ level ∧ ∀ x ∈ t, x.1 ≤ level → x.1 ≤ e.1) ∧
      ((∀ x ∈ t, level < x.1) → ∀ x ∈ t, e.1 ≤ x.1) := by
  have hlen : 0 < t.length := List.length_pos.mpr hne
  have hle : upper_bound t level ≤ t.length := List.findIdx_le_length _
  rw [List.pairwise_iff_getElem] at hs
  by_cases h0 : upper_bound t level = 0
  · rw [if_neg (by simpa using h0), h0]
    have hpos : (0 : Nat) < t.length := hlen
    have hkey : level < (t[0]).1 := by
      have hlt : t.findIdx (fun e => decide (level < e.1)) < t.length := by
        unfold upper_bound at h0
        rw [h0]
        exact hlen
      have := List.findIdx_getElem (w := hlt)
      unfold upper_bound at h0
      simp only [h0, decide_eq_true_eq] at this
      exact this
    have hmin : ∀ x ∈ t, (t[0]).1 ≤ x.1 := by
      intro x hx
      obtain ⟨m, hm, rfl⟩ := List.getElem_of_mem hx
      rcases Nat.eq_zero_or_pos m with hm0 | hm0
      · subst hm0
        exact le_refl _
      · exact le_of_lt (hs 0 m hpos hm hm0)
    refine ⟨t[0], by simp [List.get?_eq_getElem?, hlen], List.getElem_mem _, ?_, fun _ => hmin⟩
    rintro ⟨x, hx, hxl⟩
    have := hmin x hx
    omega
  · rw [if_pos h0]
    have hj : upper_bound t level - 1 < t.length := by omega
    have hjle : (t[upper_bound t level - 1]).1 ≤ level := by
      have := List.not_of_lt_findIdx (p := fun e : Int × Int => decide (level < e.1))
        (i := upper_bound t level - 1)
        (show upper_bound t level - 1 < t.findIdx (fun e : Int × Int => decide (level < e.1)) by
          unfold upper_bound at h0 ⊢; omega)
      simpa using this
    have hmax : ∀ x ∈ t, x.1 ≤ level → x.1 ≤ (t[upper_bound t level - 1]).1 := by
      intro x hx hxl
      obtain ⟨m, hm, rfl⟩ := List.getElem_of_mem hx
      by_cases hmj : m ≤ upper_bound t level - 1
      · rcases Nat.lt_or_eq_of_le hmj with hlt | heq
        · exact le_of_lt (hs m _ hm hj hlt)
        · subst heq
          exact le_refl _
      · have hub : upper_bound t level < t.length := by omega
        have hk : level < (t[upper_bound t level]).1 := by
          have := List.findIdx_getElem (p := fun e : Int × Int => decide (level < e.1))
            (w := hub)
          simpa using this
        rcases Nat.lt_or_eq_of_le (show upper_bound t level ≤ m by omega) with hlt | heq
        · have := hs _ m hub hm hlt
          omega
        · subst heq
          omega
    refine ⟨t[upper_bound t level - 1], by simp [List.get?_eq_getElem?, hj], List.getElem_mem _,
      fun _ => ⟨hjle, hmax⟩, ?_⟩
    intro hall
    have := hall _ (List.getElem_mem hj)
    omega

/-- The position returned by `upper_bound` does not decrease with the level. -/
theorem upper_bound_mono (t : SubsidySwitchPoints) (l1 l2 : Int) (h : l1 ≤ l2) :
    upper_bound t l1 ≤ upper_bound t l2 := by
  by_contra hlt
  have hlt : upper_bound t l2 < upper_bound t l1 := by omega
  have hle : upper_bound t l1 ≤ t.length := List.findIdx_le_length _
  have hub : upper_bound t l2 < t.length := by omega
  have hk : l2 < (t[upper_bound t l2]).1 := by
    have := List.findIdx_getElem (p := fun e : Int × Int => decide (l2 < e.1)) (w := hub)
    simpa using this
  have hn : (t[upper_bound t l2]).1 ≤ l1 := by
    have := List.not_of_lt_findIdx (p := fun e : Int × Int => decide (l1 < e.1))
      (i := upper_bound t l2) hlt
    simpa using this
  omega

/-- C35: on a table of switch points that is not empty and whose keys
increase, `SubsidyValue` returns the value of an entry of the table: the entry
with the greatest key not above the level when there is such a key, the entry
with the smallest key when every key is above the level.  The result is the
same for every `nTime` and `nHeight`, and it does not decrease with the level
when the values of the table do not decrease with the keys. -/
theorem SubsidyValue_spec (p : CChainParams) (level : Int) (nTime : Nat) (nHeight : Int)
    (hne : p.subsidySwitchPoints ≠ [])
    (hs : p.subsidySwitchPoints.Pairwise (fun a b => a.1 < b.1)) :
    (∃ e, e ∈ p.subsidySwitchPoints ∧ p.SubsidyValue level nTime nHeight = some e.2 ∧
      ((∃ x ∈ p.subsidySwitchPoints, x.1 ≤ level) →
        e.1 ≤ level ∧ ∀ x ∈ p.subsidySwitchPoints, x.1 ≤ level → x.1 ≤ e.1) ∧
      ((∀ x ∈ p.subsidySwitchPoints, level < x.1) →
        ∀ x ∈ p.subsidySwitchPoints, e.1 ≤ x.1)) ∧
    (∀ (nTime2 : Nat) (nHeight2 : Int),
      p.SubsidyValue level nTime2 nHeight2 = p.SubsidyValue level nTime nHeight) ∧
    (p.subsidySwitchPoints.Pairwise (fun a b => a.2 ≤ b.2) →
      ∀ (level2 : Int) (v1 v2 : Int), level ≤ level2 →
        p.SubsidyValue level nTime nHeight = some v1 →
        p.SubsidyValue level2 nTime nHeight = some v2 → v1 ≤ v2) := by
  refine ⟨?_, fun _ _ => rfl, ?_⟩
  · obtain ⟨e, he, hmem, h1, h2⟩ := upper_bound_spec p.subsidySwitchPoints level hne hs
    refine ⟨e, hmem, ?_, h1, h2⟩
    unfold CChainParams.SubsidyValue CChainParams.GetSubsidySwitchPoints
    dsimp only
    rw [he]
    rfl
  · intro hv level2 v1 v2 hl h1 h2
    unfold CChainParams.SubsidyValue CChainParams.GetSubsidySwitchPoints at h1 h2
    dsimp only at h1 h2
    have hmono := upper_bound_mono p.subsidySwitchPoints level level2 hl
    rw [List.pairwise_iff_getElem] at hv
    generalize upper_bound p.subsidySwitchPoints level = i1 at h1 hmono
    generalize upper_bound p.subsidySwitchPoints level2 = i2 at h2 hmono
    have hj : (if i1 ≠ 0 then i1 - 1 else i1) ≤ (if i2 ≠ 0 then i2 - 1 else i2) := by
      split_ifs <;> omega
    generalize (if i1 ≠ 0 then i1 - 1 else i1) = j1 at h1 hj
    generalize (if i2 ≠ 0 then i2 - 1 else i2) = j2 at h2 hj
    rw [List.get?_eq_getElem?] at h1 h2
    simp only [Option.map_eq_some'] at h1 h2
    obtain ⟨e1, he1, rfl⟩ := h1
    obtain ⟨e2, he2, rfl⟩ := h2
    obtain ⟨hj1, rfl⟩ := List.getElem?_eq_some.mp he1
    obtain ⟨hj2, rfl⟩ := List.getElem?_eq_some.mp he2
    rcases Nat.lt_or_eq_of_le hj with hlt | heq
    · exact hv j1 j2 hj1 hj2 hlt
    · subst heq
      exact le_refl _

/-- Witness of C35: in the example table the level 250000 lies between the
keys 200000 and 300000 and gets the value of the former; a level below every
key gets the value of the smallest key. -/
theorem SubsidyValue_spec_witness :
    exampleParams.SubsidyValue 250000 0 0 = some 200000000 ∧
      exampleParams.SubsidyValue (-5) 7 9 = some 100000000 ∧
      ∀ v1 v2 : Int, exampleParams.SubsidyValue 250000 0 0 = some v1 →
        exampleParams.SubsidyValue 600000 0 0 = some v2 → v1 ≤ v2 :=
  ⟨by decide, by decide, fun v1 v2 =>
    (SubsidyValue_spec exampleParams 250000 0 0 (by decide) (by decide)).2.2 (by decide) 600000
      v1 v2 (by decide)⟩

/-! ## `CChainParams::initSubsidySwitchPointsSchedule` -/

theorem toInt64_of_fits (x : Int) (h1 : -2 ^ 63 ≤ x) (h2 : x < 2 ^ 63) : toInt64 x = x := by
  unfold toInt64
  omega

/-- Without overflow the body of the inner loop computes, in exact integer
arithmetic, the value scaled by `(10000 - d) / 10000`, rounded down, then
rounded up to a multiple of `u = COIN / 10`, less `u` when that is the value
it started from and is above `u`. -/
theorem decreaseSubsidy_exact (COIN : Int) (d : Nat) (v : Int) (hd : d < 10000)
    (hu : 10000 ≤ Int.tdiv COIN 10) (hu2 : Int.tdiv COIN 10 < 2 ^ 62)
    (hv0 : 0 ≤ v) (hv : v * 10000 < 2 ^ 63) :
    decreaseSubsidy COIN d v =
        (if (v * (10000 - (d : Int)) / 10000 + (Int.tdiv COIN 10 - 1)) / Int.tdiv COIN 10 *
              Int.tdiv COIN 10 = v ∧
            (v * (10000 - (d : Int)) / 10000 + (Int.tdiv COIN 10 - 1)) / Int.tdiv COIN 10 *
              Int.tdiv COIN 10 > Int.tdiv COIN 10 then
          (v * (10000 - (d : Int)) / 10000 + (Int.tdiv COIN 10 - 1)) / Int.tdiv COIN 10 *
            Int.tdiv COIN 10 - Int.tdiv COIN 10
        else
          (v * (10000 - (d : Int)) / 10000 + (Int.tdiv COIN 10 - 1)) / Int.tdiv COIN 10 *
            Int.tdiv COIN 10) ∧
      0 ≤ v * (10000 - (d : Int)) / 10000 ∧ v * (10000 - (d : Int)) / 10000 ≤ v := by
  generalize hudef : Int.tdiv COIN 10 = u at hu hu2
  have hfac : (((10000 + 2 ^ 32 - d % 2 ^ 32) % 2 ^ 32 : Nat) : Int) = 10000 - (d : Int) := by
    omega
  have hk1 : (1 : Int) ≤ 10000 - (d : Int) := by omega
  have hk2 : 10000 - (d : Int) ≤ 10000 := by omega
  have hs1a : 0 ≤ v * (10000 - (d : Int)) := Int.mul_nonneg hv0 (by omega)
  have hs1b : v * (10000 - (d : Int)) ≤ v * 10000 := Int.mul_le_mul_of_nonneg_left hk2 hv0
  have hs2a : 0 ≤ v * (10000 - (d : Int)) / 10000 := Int.ediv_nonneg hs1a (by omega)
  have hs2b : v * (10000 - (d : Int)) / 10000 ≤ v :=
    Int.ediv_le_of_le_mul (by omega) hs1b
  have hs3a : 0 ≤ v * (10000 - (d : Int)) / 10000 + (u - 1) := by omega
  have hs4a : 0 ≤ (v * (10000 - (d : Int)) / 10000 + (u - 1)) / u :=
    Int.ediv_nonneg hs3a (by omega)
  have hs5a : 0 ≤ (v * (10000 - (d : Int)) / 10000 + (u - 1)) / u * u :=
    Int.mul_nonneg hs4a (by omega)
  have hs5b : (v * (10000 - (d : Int)) / 10000 + (u - 1)) / u * u ≤
      v * (10000 - (d : Int)) / 10000 + (u - 1) := Int.ediv_mul_le _ (by omega)
  refine ⟨?_, hs2a, hs2b⟩
  unfold decreaseSubsidy
  simp only [hudef, hfac]
  rw [toInt64_of_fits (v * (10000 - (d : Int))) (by omega) (by omega),
    Int.tdiv_eq_ediv hs1a (by omega),
    toInt64_of_fits (v * (10000 - (d : Int)) / 10000 + (u - 1)) (by omega) (by omega),
    Int.tdiv_eq_ediv hs3a (by omega),
    toInt64_of_fits ((v * (10000 - (d : Int)) / 10000 + (u - 1)) / u * u) (by omega) (by omega)]
  split_ifs with hc
  · exact toInt64_of_fits _ (by omega) (by omega)
  · rfl

/-- The truncating quotient by a positive number lies between 0 and the exact
quotient: its product with the divisor is between 0 and the dividend. -/
theorem tdiv_range (a b : Int) (hb : 0 < b) :
    (0 ≤ a → 0 ≤ Int.tdiv a b ∧ Int.tdiv a b * b ≤ a) ∧
      (a ≤ 0 → Int.tdiv a b ≤ 0 ∧ a ≤ Int.tdiv a b * b) := by
  constructor
  · intro ha
    rw [Int.tdiv_eq_ediv ha (le_of_lt hb)]
    exact ⟨Int.ediv_nonneg ha (le_of_lt hb), Int.ediv_mul_le _ (ne_of_gt hb)⟩
  · intro ha
    obtain ⟨c, rfl⟩ : ∃ c, a = -c := ⟨-a, by omega⟩
    have hc : 0 ≤ c := by omega
    rw [Int.neg_tdiv, Int.tdiv_eq_ediv hc (le_of_lt hb)]
    have h1 := Int.ediv_nonneg hc (le_of_lt hb)
    have h2 := Int.ediv_mul_le c (ne_of_gt hb)
    have h3 : -(c / b) * b = -(c / b * b) := by ring
    omega

/-- Without overflow the body of the inner loop yields a multiple of
`u = COIN / 10`, whatever the sign of the value. -/
theorem decreaseSubsidy_dvd (COIN : Int) (d : Nat) (v : Int) (hd : d < 10000)
    (hu : 10000 ≤ Int.tdiv COIN 10) (hu2 : Int.tdiv COIN 10 < 2 ^ 62)
    (hv1 : -2 ^ 63 ≤ v * 10000) (hv2 : v * 10000 < 2 ^ 63) :
    Int.tdiv COIN 10 ∣ decreaseSubsidy COIN d v := by
  generalize hudef : Int.tdiv COIN 10 = u at hu hu2
  have hupos : 0 < u := by omega
  have hfac : (((10000 + 2 ^ 32 - d % 2 ^ 32) % 2 ^ 32 : Nat) : Int) = 10000 - (d : Int) := by
    omega
  have hs1 : -2 ^ 63 ≤ v * (10000 - (d : Int)) ∧ v * (10000 - (d : Int)) < 2 ^ 63 ∧
      (0 ≤ v → 0 ≤ v * (10000 - (d : Int))) ∧ (v ≤ 0 → v * (10000 - (d : Int)) ≤ 0) := by
    rcases le_total 0 v with h | h
    · have h1 : 0 ≤ v * (10000 - (d : Int)) := Int.mul_nonneg h (by omega)
      have h2 : v * (10000 - (d : Int)) ≤ v * 10000 :=
        Int.mul_le_mul_of_nonneg_left (by omega) h
      exact ⟨by omega, by omega, fun _ => h1, fun h3 => by
        have : v = 0 := by omega
        subst this
        simp⟩
    · have h1 : v * (10000 - (d : Int)) ≤ 0 := Int.mul_nonpos_of_nonpos_of_nonneg h (by omega)
      have h2 : v * 10000 ≤ v * (10000 - (d : Int)) :=
        Int.mul_le_mul_of_nonpos_left h (by omega)
      exact ⟨by omega, by omega, fun h3 => by
        have : v = 0 := by omega
        subst this
        simp, fun _ => h1⟩
  obtain ⟨hs1a, hs1b, hs1c, hs1d⟩ := hs1
  unfold decreaseSubsidy
  simp only [hudef, hfac]
  rw [toInt64_of_fits (v * (10000 - (d : Int))) hs1a hs1b]
  have hr2 := tdiv_range (v * (10000 - (d : Int))) 10000 (by omega)
  generalize v * (10000 - (d : Int)) = s1 at hs1a hs1b hs1c hs1d hr2
  generalize Int.tdiv s1 10000 = s2 at hr2
  have hs2 : -2 ^ 60 ≤ s2 ∧ s2 ≤ 2 ^ 60 := by
    rcases le_total 0 s1 with h | h
    · have := hr2.1 h
      omega
    · have := hr2.2 h
      omega
  rw [toInt64_of_fits (s2 + (u - 1)) (by omega) (by omega)]
  have hr4 := tdiv_range (s2 + (u - 1)) u hupos
  generalize Int.tdiv (s2 + (u - 1)) u = s4 at hr4
  have hs5 : -2 ^ 63 ≤ s4 * u ∧ s4 * u < 2 ^ 63 := by
    rcases le_total 0 (s2 + (u - 1)) with h | h
    · have := hr4.1 h
      have : 0 ≤ s4 * u := Int.mul_nonneg this.1 (by omega)
      omega
    · have := hr4.2 h
      have : s4 * u ≤ 0 := Int.mul_nonpos_of_nonpos_of_nonneg this.1 (by omega)
      omega
  rw [toInt64_of_fits (s4 * u) hs5.1 hs5.2]
  split_ifs with hc
  · rw [toInt64_of_fits _ (by omega) (by omega)]
    exact Dvd.dvd.sub (Dvd.intro_left _ rfl) (dvd_refl u)
  · exact Dvd.intro_left _ rfl

/-- The entry of the schedule written by round `j` is not touched by the later
rounds. -/
theorem rounds_stable (COIN : Int) (p : CChainParams) :
    ∀ n j : Nat, j ≤ n →
      initSubsidySwitchPointsSchedule.rounds COIN p n j =
        initSubsidySwitchPointsSchedule.rounds COIN p j j
  | 0, j, h => by
    have : j = 0 := by omega
    subst this
    rfl
  | n + 1, j, h => by
    by_cases hj : j = n + 1
    · subst hj
      rfl
    · rw [initSubsidySwitchPointsSchedule.rounds]
      simp only [if_neg hj]
      exact rounds_stable COIN p n j (by omega)

/-- C36: with `u = COIN / 10` at least 10000 (it is 10000000 for the `COIN` of
the network) and a decrease value `d` below 10000, the schedule built by
`initSubsidySwitchPointsSchedule` has the first table at step 0, and every step
from 1 to the number of steps is the step before it with the same keys and
every value passed through the body of the inner loop.  That body, on a value
`v` small enough for the 64-bit arithmetic to be exact, yields a multiple of
`u`; when `v` is a multiple of `u` above `u` the new value is at least `u` and
at most `v - u`; when `v = u` it is `u`. -/
theorem initSubsidySwitchPointsSchedule_spec (COIN : Int) (p : CChainParams)
    (hd : p.subsidyDecreaseValue_F2 < 10000)
    (hu : 10000 ≤ Int.tdiv COIN 10) (hu2 : Int.tdiv COIN 10 < 2 ^ 62) :
    (CChainParams.initSubsidySwitchPointsSchedule COIN p).subsidySwitchPointsSchedule_F2 0 =
      p.subsidySwitchPoints_F2_0 ∧
    (∀ i, 1 ≤ i → i ≤ p.subsidyDecreaseCount_F2 →
      (CChainParams.initSubsidySwitchPointsSchedule COIN p).subsidySwitchPointsSchedule_F2 i =
        ((CChainParams.initSubsidySwitchPointsSchedule COIN p).subsidySwitchPointsSchedule_F2
          (i - 1)).map (fun sp => (sp.1, decreaseSubsidy COIN p.subsidyDecreaseValue_F2 sp.2)) ∧
      ((CChainParams.initSubsidySwitchPointsSchedule COIN p).subsidySwitchPointsSchedule_F2
          i).map (fun sp => sp.1) =
        ((CChainParams.initSubsidySwitchPointsSchedule COIN p).subsidySwitchPointsSchedule_F2
          (i - 1)).map (fun sp => sp.1)) ∧
    (∀ v : Int, -2 ^ 63 ≤ v * 10000 → v * 10000 < 2 ^ 63 →
      Int.tdiv COIN 10 ∣ decreaseSubsidy COIN p.subsidyDecreaseValue_F2 v ∧
      (Int.tdiv COIN 10 ∣ v → v > Int.tdiv COIN 10 →
        Int.tdiv COIN 10 ≤ decreaseSubsidy COIN p.subsidyDecreaseValue_F2 v ∧
        decreaseSubsidy COIN p.subsidyDecreaseValue_F2 v ≤ v - Int.tdiv COIN 10) ∧
      (v = Int.tdiv COIN 10 →
        decreaseSubsidy COIN p.subsidyDecreaseValue_F2 v = Int.tdiv COIN 10)) := by
  refine ⟨?_, ?_, ?_⟩
  · unfold CChainParams.initSubsidySwitchPointsSchedule
    dsimp only
    rw [rounds_stable COIN p _ 0 (Nat.zero_le _)]
    rfl
  · intro i h1 h2
    obtain ⟨j, rfl⟩ : ∃ j, i = j + 1 := ⟨i - 1, by omega⟩
    have hstep : (CChainParams.initSubsidySwitchPointsSchedule COIN
        p).subsidySwitchPointsSchedule_F2 (j + 1) =
        ((CChainParams.initSubsidySwitchPointsSchedule COIN p).subsidySwitchPointsSchedule_F2
          (j + 1 - 1)).map
          (fun sp => (sp.1, decreaseSubsidy COIN p.subsidyDecreaseValue_F2 sp.2)) := by
      unfold CChainParams.initSubsidySwitchPointsSchedule
      dsimp only
      rw [rounds_stable COIN p _ (j + 1) h2, Nat.add_sub_cancel,
        rounds_stable COIN p _ j (by omega), initSubsidySwitchPointsSchedule.rounds]
      simp only [if_true]
    refine ⟨hstep, ?_⟩
    rw [hstep, List.map_map]
    rfl
  · intro v hv1 hv
    refine ⟨decreaseSubsidy_dvd COIN p.subsidyDecreaseValue_F2 v hd hu hu2 hv1 hv, ?_, ?_⟩
    · intro hdvd hgt
      have hv0 : 0 ≤ v := by omega
      obtain ⟨hex, hs2a, hs2b⟩ :=
        decreaseSubsidy_exact COIN p.subsidyDecreaseValue_F2 v hd hu hu2 hv0 hv
      have hs2c : 1 ≤ v * (10000 - (p.subsidyDecreaseValue_F2 : Int)) / 10000 := by
        apply Int.le_ediv_of_mul_le (by omega)
        have : v * 1 ≤ v * (10000 - (p.subsidyDecreaseValue_F2 : Int)) :=
          Int.mul_le_mul_of_nonneg_left (by omega) hv0
        omega
      rw [hex]
      generalize Int.tdiv COIN 10 = u at hu hu2 hdvd hgt
      generalize v * (10000 - (p.subsidyDecreaseValue_F2 : Int)) / 10000 = s2 at hs2a hs2b hs2c
      have hupos : 0 < u := by omega
      obtain ⟨m, rfl⟩ := hdvd
      have hq1 : 1 ≤ (s2 + (u - 1)) / u := Int.le_ediv_of_mul_le hupos (by omega)
      have hq2 : (s2 + (u - 1)) / u < m + 1 :=
        Int.ediv_lt_of_lt_mul hupos (by
          have : (m + 1) * u = u * m + u := by ring
          omega)
      generalize (s2 + (u - 1)) / u = q at hq1 hq2
      have hm2 : 2 ≤ m := by
        by_contra hm
        have : u * m ≤ u * 1 := Int.mul_le_mul_of_nonneg_left (by omega) (by omega)
        omega
      split_ifs with hc
      · obtain ⟨hc1, hc2⟩ := hc
        have : u * 2 ≤ u * m := Int.mul_le_mul_of_nonneg_left hm2 (by omega)
        omega
      · have hqu : 1 * u ≤ q * u := Int.mul_le_mul_of_nonneg_right hq1 (by omega)
        have hqm : q ≠ m := by
          intro h
          subst h
          apply hc
          have : q * u = u * q := Int.mul_comm _ _
          exact ⟨this, by omega⟩
        have hqm2 : q * u ≤ (m - 1) * u := Int.mul_le_mul_of_nonneg_right (by omega) (by omega)
        have : (m - 1) * u = u * m - u := by ring
        omega
    · intro hvu
      have hv0 : 0 ≤ v := by omega
      obtain ⟨hex, hs2a, hs2b⟩ :=
        decreaseSubsidy_exact COIN p.subsidyDecreaseValue_F2 v hd hu hu2 hv0 hv
      have hs2c : 1 ≤ v * (10000 - (p.subsidyDecreaseValue_F2 : Int)) / 10000 := by
        apply Int.le_ediv_of_mul_le (by omega)
        have : v * 1 ≤ v * (10000 - (p.subsidyDecreaseValue_F2 : Int)) :=
          Int.mul_le_mul_of_nonneg_left (by omega) hv0
        omega
      rw [hex]
      generalize Int.tdiv COIN 10 = u at hu hu2 hvu
      generalize v * (10000 - (p.subsidyDecreaseValue_F2 : Int)) / 10000 = s2 at hs2a hs2b hs2c
      subst hvu
      have hupos : 0 < v := by omega
      have hq1 : 1 ≤ (s2 + (v - 1)) / v := Int.le_ediv_of_mul_le hupos (by omega)
      have hq2 : (s2 + (v - 1)) / v < 2 := Int.ediv_lt_of_lt_mul hupos (by omega)
      have hq : (s2 + (v - 1)) / v = 1 := by omega
      rw [hq]
      simp

/-- Witness of C36: with `COIN = 100000000` and a decrease of 5 per cent, one
coin, which is ten times `u`, becomes a value between `u` and nine times `u`,
and the first step of the example schedule has the keys of step 0. -/
theorem initSubsidySwitchPointsSchedule_spec_witness :
    (Int.tdiv 100000000 10 ≤
        decreaseSubsidy 100000000 exampleParams.subsidyDecreaseValue_F2 100000000 ∧
      decreaseSubsidy 100000000 exampleParams.subsidyDecreaseValue_F2 100000000 ≤
        100000000 - Int.tdiv 100000000 10) ∧
    ((CChainParams.initSubsidySwitchPointsSchedule 100000000
        exampleParams).subsidySwitchPointsSchedule_F2 1).map (fun sp => sp.1) =
      ((CChainParams.initSubsidySwitchPointsSchedule 100000000
        exampleParams).subsidySwitchPointsSchedule_F2 (1 - 1)).map (fun sp => sp.1) :=
  ⟨((initSubsidySwitchPointsSchedule_spec 100000000 exampleParams (by decide) (by decide)
      (by decide)).2.2 100000000 (by decide) (by decide)).2.1 ⟨10, by decide⟩ (by decide),
    ((initSubsidySwitchPointsSchedule_spec 100000000 exampleParams (by decide) (by decide)
      (by decide)).2.1 1 (by decide) (by decide)).2⟩

end Valuto
